import Mathlib

/-!
# Elastic IP controller: a shallow embedding of `pkg/eipcontroller/eip` and `pkg/kope/kopeaws`

The Go code keeps a fixed pool of elastic IPs bound to healthy cluster instances.  This file
embeds `NewElasticIPController` and `runOnce` (with the `DescribeAddress` helper of the cloud
client) as executable Lean functions and proves properties of them.

Modelling conventions.

* A Go `*string` is an `Option String`; `aws.StringValue` is `StringValue`.
* A Go `map[string]T` is an association list without repeated keys (`mapGet`, `mapSet`,
  `mapDelete`).  `map[string]bool` (`elasticIPs`, whose stored values are all `true`) is the list
  of its keys.  The registry `map[string]*instance` is a list of records keyed by their `ID`
  field: the only insertion, `c.instances[id] = i`, stores a record whose `ID` is `id`.
* Go iterates a map in an unspecified order.  Every `range` over a map goes through a
  `RangeOrder`, which may pick any permutation of the keys, independently at each loop.
* Cloud calls are answered by a `Cloud` value; the answer may depend on the number of calls
  already made in the pass, so every sequence of outcomes is covered.  The calls of a pass are
  collected in a log.
* A nil-pointer dereference is a runtime panic.  The pass state carries a `panicked` flag; once it
  is set no further statement has an effect.
* Log output (`glog`) and the counters that only feed it are left out.
* The elements of the slices returned by the EC2 client, and the `State` of an instance, are
  taken to be non-nil, as the EC2 API returns them.
-/

namespace EIP

/-! ## EC2 data -/

/-- The value of a Go `*string`: `aws.StringValue` returns the empty string for nil. -/
def StringValue : Option String → String
  | some s => s
  | none => ""

/-- The type `ec2.Address`, with the fields the controller reads. -/
structure Address where
  publicIp : Option String
  allocationId : Option String
  associationId : Option String
  deriving DecidableEq

/-- The type `ec2.InstanceNetworkInterfaceAssociation`. -/
structure Association where
  publicIp : Option String
  deriving DecidableEq

/-- The type `ec2.InstanceNetworkInterface`; `association = none` is a nil `Association`. -/
structure NetworkInterface where
  association : Option Association
  deriving DecidableEq

/-- The type `ec2.Tag`. -/
structure Tag where
  key : Option String
  value : Option String
  deriving DecidableEq

/-- The type `ec2.InstanceState`. -/
structure InstanceState where
  name : Option String
  deriving DecidableEq

/-- The type `ec2.Instance`, with the fields the controller reads. -/
structure AwsInstance where
  instanceId : Option String
  state : InstanceState
  tags : List Tag
  networkInterfaces : List NetworkInterface
  deriving DecidableEq

/-! ## Go maps as association lists -/

/-- Lookup `m[k]`; `none` when the key is absent. -/
def mapGet {V : Type} : List (String × V) → String → Option V
  | [], _ => none
  | (k, v) :: m, key => if k = key then some v else mapGet m key

/-- Removal `delete(m, k)`. -/
def mapDelete {V : Type} (m : List (String × V)) (key : String) : List (String × V) :=
  m.filter (fun e => decide (e.1 ≠ key))

/-- Assignment `m[k] = v`. -/
def mapSet {V : Type} (m : List (String × V)) (key : String) (v : V) : List (String × V) :=
  mapDelete m key ++ [(key, v)]

/-- The keys of a map. -/
def mapKeys {V : Type} (m : List (String × V)) : List String :=
  m.map (fun e => e.1)

/-- Assignment `s[k] = true` on a `map[string]bool` kept as its list of keys. -/
def setInsert (s : List String) (key : String) : List String :=
  if key ∈ s then s else s ++ [key]

/-- Removal `delete(s, k)` on a `map[string]bool` kept as its list of keys. -/
def setDelete (s : List String) (key : String) : List String :=
  s.filter (fun k => decide (k ≠ key))

/-! ## Controller state -/

/-- The struct `instance`: what the controller knows about one EC2 instance. -/
structure Instance where
  ID : String
  sequence : Int
  status : AwsInstance
  poolNode : Bool
  canHaveElasticIP : Bool
  goodness : Int
  elasticIPs : List String
  deriving DecidableEq

/-- The struct `ElasticIPController` (the cloud handle and the period are not state). -/
structure ElasticIPController where
  instances : List Instance
  sequence : Int
  addressPool : List (String × Address)
  deriving DecidableEq

/-- Lookup `c.instances[id]`. -/
def regGet : List Instance → String → Option Instance
  | [], _ => none
  | i :: reg, id => if i.ID = id then some i else regGet reg id

/-- Removal `delete(c.instances, id)`. -/
def regDelete (reg : List Instance) (id : String) : List Instance :=
  reg.filter (fun i => decide (i.ID ≠ id))

/-- Write a record back under its `ID`: the record at that key is replaced, a record with a
new key is added. -/
def regSet : List Instance → Instance → List Instance
  | [], i => [i]
  | j :: reg, i => if j.ID = i.ID then i :: reg else j :: regSet reg i

/-- The keys of the registry. -/
def regKeys (reg : List Instance) : List String :=
  reg.map (fun i => i.ID)

/-! ## The cloud and the iteration order -/

/-- What `AWSCloud.DescribeAddress` returns: `(nil, err)`, `(nil, nil)` or `(address, nil)`. -/
inductive AddressLookup where
  | failed
  | absent
  | found (address : Address)
  deriving DecidableEq

/-- `AWSCloud.DescribeAddress`, as a function of the answer of the EC2 `DescribeAddresses`
request filtered on the public IP (`none` is a failed request). -/
def DescribeAddress (response : Option (List Address)) : AddressLookup :=
  match response with
  | none => .failed
  | some [] => .absent
  | some [address] => .found address
  | some _ => .failed

/-- The cloud as seen by one pass.  The `Nat` argument of a call is the number of calls already
logged in the pass; `true` is a nil error. -/
structure Cloud where
  describeInstances : Option (List AwsInstance)
  describeAddresses : Nat → String → Option (List Address)
  disassociateAddress : Nat → String → String → String → Bool
  associateAddress : Nat → String → String → String → Bool

/-- The `range` statements over maps in `runOnce`. -/
inductive RangeSite where
  | registry
  | held (id : String)
  | holder (id : String)
  | pool
  | candidates (eip : String)
  deriving DecidableEq

/-- An iteration order: at each `range` statement, some permutation of the keys of the map. -/
structure RangeOrder where
  order : RangeSite → List String → List String
  perm : ∀ site keys, (order site keys).Perm keys

/-- The order that visits the keys as they are stored. -/
def storedOrder : RangeOrder :=
  ⟨fun _ keys => keys, fun _ _ => List.Perm.refl _⟩

/-- The order that visits the keys in reverse. -/
def reverseOrder : RangeOrder :=
  ⟨fun _ keys => keys.reverse, fun _ keys => List.reverse_perm keys⟩

/-- One cloud call of a pass with its outcome.  An `associateAddress` entry also records the
registry at the moment of the call. -/
inductive Event where
  | describeAddress (publicIP : String) (result : AddressLookup)
  | disassociateAddress (instanceID elasticIP associationID : String) (ok : Bool)
  | associateAddress (instanceID elasticIP allocationID : String) (ok : Bool)
      (registry : List Instance)
  deriving DecidableEq

/-! ## `NewElasticIPController` -/

/-- The loop that fills `allAddressesMap`. -/
def allAddressesMap (allAddresses : List Address) : List (String × Address) :=
  allAddresses.foldl (fun m address => mapSet m (StringValue address.publicIp) address) []

/-- The loop that fills `c.addressPool`; `none` is the error `address not found`. -/
def resolvePool (all : List (String × Address)) :
    List String → List (String × Address) → Option (List (String × Address))
  | [], pool => some pool
  | eip :: rest, pool =>
    match mapGet all eip with
    | none => none
    | some address => resolvePool all rest (mapSet pool eip address)

/-- `NewElasticIPController`; `none` is an error return.  The argument is the result of
`cloud.DescribeAddresses()` (`none` is an error). -/
def NewElasticIPController (describeAddresses : Option (List Address))
    (elasticIPs : List String) : Option ElasticIPController :=
  match describeAddresses with
  | none => none
  | some allAddresses =>
    match resolvePool (allAddressesMap allAddresses) elasticIPs [] with
    | none => none
    | some pool => some { instances := [], sequence := 0, addressPool := pool }

/-! ## `runOnce` -/

/-- The increment `c.sequence + 1` on a 64-bit Go `int`. -/
def nextSequence (n : Int) : Int :=
  if n = 9223372036854775807 then -9223372036854775808 else n + 1

/-- The fresh record `&instance{ID: id}`.  Its `status` is nil in Go and is assigned before any
read; the embedding stores the snapshot record that is about to be assigned. -/
def newInstance (id : String) (awsInstance : AwsInstance) : Instance :=
  { ID := id, sequence := 0, status := awsInstance, poolNode := false,
    canHaveElasticIP := false, goodness := 0, elasticIPs := [] }

/-- One step of the loop over `i.status.NetworkInterfaces` that collects the pool addresses
bound to an instance. -/
def observeInterface (pool : List (String × Address)) (elasticIPs : List String)
    (ni : NetworkInterface) : List String :=
  match ni.association with
  | none => elasticIPs
  | some association =>
    let eip := StringValue association.publicIp
    if eip = "" then elasticIPs
    else if (mapGet pool eip).isNone then elasticIPs
    else setInsert elasticIPs eip

/-- The pool addresses bound to the network interfaces of an instance. -/
def observedElasticIPs (pool : List (String × Address)) (nis : List NetworkInterface) :
    List String :=
  nis.foldl (observeInterface pool) []

/-- The loop over `awsInstance.Tags`. -/
def isMaster (tags : List Tag) : Bool :=
  tags.foldl (fun master tag => if StringValue tag.key = "k8s.io/role/master" then true else master)
    false

/-- The body of the loop over the snapshot. -/
def ingestInstance (pool : List (String × Address)) (sequence : Int) (reg : List Instance)
    (awsInstance : AwsInstance) : List Instance :=
  let id := StringValue awsInstance.instanceId
  if id = "" then reg
  else
    let i := (regGet reg id).getD (newInstance id awsInstance)
    regSet reg { i with
      status := awsInstance
      sequence := sequence
      elasticIPs := observedElasticIPs pool awsInstance.networkInterfaces
      poolNode := !(isMaster awsInstance.tags) }

/-- The `switch` on the state name, after `i.goodness = 0`. -/
def classify (i : Instance) : Instance :=
  let i := { i with goodness := 0 }
  let instanceStateName := StringValue i.status.state.name
  if instanceStateName = "pending" then { i with canHaveElasticIP := false }
  else if instanceStateName = "running" then
    { i with canHaveElasticIP := true, goodness := i.goodness + 1 }
  else if instanceStateName = "shutting-down" then { i with canHaveElasticIP := false }
  else if instanceStateName = "terminated" then { i with canHaveElasticIP := false }
  else if instanceStateName = "stopping" then { i with canHaveElasticIP := false }
  else if instanceStateName = "stopped" then { i with canHaveElasticIP := false }
  else i

/-- The state of the detach loops of one instance. -/
structure Detach where
  elasticIPs : List String
  log : List Event
  panicked : Bool
  deriving DecidableEq

/-- The body of the loop over the network interfaces for one held address. -/
def detachInterface (cloud : Cloud) (id elasticIP : String) (d : Detach)
    (ni : NetworkInterface) : Detach :=
  if d.panicked then d
  else
    match ni.association with
    | none => d
    | some association =>
      if StringValue association.publicIp ≠ elasticIP then d
      else
        let lookup := DescribeAddress (cloud.describeAddresses d.log.length elasticIP)
        let log := d.log ++ [Event.describeAddress elasticIP lookup]
        match lookup with
        | .failed => { d with log := log }
        | .absent => { d with log := log, panicked := true }
        | .found address =>
          let associationID := StringValue address.associationId
          let ok := cloud.disassociateAddress log.length id elasticIP associationID
          let log := log ++ [Event.disassociateAddress id elasticIP associationID ok]
          if ok then { d with log := log, elasticIPs := setDelete d.elasticIPs elasticIP }
          else { d with log := log }

/-- The loop over the network interfaces for one held address. -/
def detachAddress (cloud : Cloud) (i : Instance) (d : Detach) (elasticIP : String) : Detach :=
  i.status.networkInterfaces.foldl (detachInterface cloud i.ID elasticIP) d

/-- The loop over `i.elasticIPs` of an instance that may not keep its addresses. -/
def detachAll (cloud : Cloud) (ord : RangeOrder) (i : Instance) (log : List Event) : Detach :=
  (ord.order (.held i.ID) i.elasticIPs).foldl (detachAddress cloud i)
    { elasticIPs := i.elasticIPs, log := log, panicked := false }

/-- The state of a pass after the snapshot has been read. -/
structure Pass where
  instances : List Instance
  addressMap : List (String × String)
  log : List Event
  panicked : Bool
  deriving DecidableEq

/-- The block guarded by `!canHaveElasticIP && len(i.elasticIPs) != 0`, entered with the
classified record. -/
def detachIfIneligible (cloud : Cloud) (ord : RangeOrder) (i : Instance) (log : List Event) :
    Detach :=
  let canHaveElasticIP := i.poolNode && i.canHaveElasticIP
  if !canHaveElasticIP && i.elasticIPs.length ≠ 0 then detachAll cloud ord i log
  else { elasticIPs := i.elasticIPs, log := log, panicked := false }

/-- The loop `for eip := range i.elasticIPs { addressMap[eip] = i }`. -/
def recordHolder (ord : RangeOrder) (i : Instance) (addressMap : List (String × String)) :
    List (String × String) :=
  (ord.order (.holder i.ID) i.elasticIPs).foldl (fun m eip => mapSet m eip i.ID) addressMap

/-- The body of the loop over `c.instances`: garbage collection, classification, detaching and
the entries of `addressMap`. -/
def sweepInstance (cloud : Cloud) (ord : RangeOrder) (sequence : Int) (s : Pass)
    (id : String) : Pass :=
  if s.panicked then s
  else
    match regGet s.instances id with
    | none => s
    | some i =>
      if i.sequence ≠ sequence then { s with instances := regDelete s.instances id }
      else
        let i := classify i
        let d := detachIfIneligible cloud ord i s.log
        let i := { i with elasticIPs := d.elasticIPs }
        if d.panicked then
          { s with instances := regSet s.instances i, log := d.log, panicked := true }
        else
          { s with
            instances := regSet s.instances i
            log := d.log
            addressMap := recordHolder ord i s.addressMap }

/-- The loop over `c.instances`. -/
def sweep (cloud : Cloud) (ord : RangeOrder) (sequence : Int) (reg : List Instance) : Pass :=
  (ord.order .registry (regKeys reg)).foldl (sweepInstance cloud ord sequence)
    { instances := reg, addressMap := [], log := [], panicked := false }

/-- The body of the loop that picks an instance. -/
def better (chosen : Option Instance) (i : Instance) : Option Instance :=
  if !i.poolNode then chosen
  else if !i.canHaveElasticIP then chosen
  else if i.elasticIPs.length ≠ 0 then chosen
  else
    match chosen with
    | none => some i
    | some best => if i.goodness > best.goodness then some i else some best

/-- The loop that picks an instance for an address. -/
def pick (ord : RangeOrder) (eip : String) (reg : List Instance) : Option Instance :=
  (ord.order (.candidates eip) (regKeys reg)).foldl
    (fun chosen id =>
      match regGet reg id with
      | none => chosen
      | some i => better chosen i)
    none

/-- The body of the loop over `c.addressPool`; `address` is the value stored under the key
`eip`. -/
def assignAddress (cloud : Cloud) (ord : RangeOrder) (pool : List (String × Address))
    (s : Pass) (eip : String) : Pass :=
  match mapGet pool eip with
  | none => s
  | some address =>
    if (mapGet s.addressMap eip).isSome then s
    else
      match pick ord eip s.instances with
      | none => s
      | some chosen =>
        let allocationID := StringValue address.allocationId
        let ok := cloud.associateAddress s.log.length chosen.ID eip allocationID
        let log := s.log ++ [Event.associateAddress chosen.ID eip allocationID ok s.instances]
        if ok then
          { s with
            log := log
            instances := regSet s.instances
              { chosen with elasticIPs := setInsert chosen.elasticIPs eip } }
        else { s with log := log }

/-- The loop over `c.addressPool`. -/
def assign (cloud : Cloud) (ord : RangeOrder) (pool : List (String × Address)) (s : Pass) :
    Pass :=
  (ord.order .pool (mapKeys pool)).foldl (assignAddress cloud ord pool) s

/-- The loop over the snapshot. -/
def ingest (pool : List (String × Address)) (sequence : Int) (reg : List Instance)
    (instances : List AwsInstance) : List Instance :=
  instances.foldl (ingestInstance pool sequence) reg

/-- How a call of `runOnce` ends. -/
inductive Exit where
  | returnedNil
  | returnedError
  | panicked
  deriving DecidableEq

/-- The result of a pass: the controller, the cloud calls made and how the call ended. -/
structure Outcome where
  c : ElasticIPController
  log : List Event
  exit : Exit
  deriving DecidableEq

/-- The function `runOnce`.  The test `err != nil` after the first loop is dead code: `err` is
nil there. -/
def runOnce (cloud : Cloud) (ord : RangeOrder) (c : ElasticIPController) : Outcome :=
  match cloud.describeInstances with
  | none => { c := c, log := [], exit := .returnedError }
  | some instances =>
    let sequence := nextSequence c.sequence
    let reg := ingest c.addressPool sequence c.instances instances
    let s := sweep cloud ord sequence reg
    if s.panicked then
      { c := { c with instances := s.instances, sequence := sequence }, log := s.log,
        exit := .panicked }
    else
      let s := assign cloud ord c.addressPool s
      { c := { c with instances := s.instances, sequence := sequence }, log := s.log,
        exit := .returnedNil }

/-! ## Vocabulary of the properties -/

/-- An instance is effectively eligible when it is a pool node in a state that may hold an
address. -/
def Instance.eligible (i : Instance) : Bool :=
  i.poolNode && i.canHaveElasticIP

/-- A network interface is associated with the public IP `a`. -/
def interfaceHas (a : String) (ni : NetworkInterface) : Bool :=
  match ni.association with
  | none => false
  | some association => decide (StringValue association.publicIp = a)

/-- A snapshot record reports `a` as the public IP of one of its network-interface
associations (the empty string is no public IP). -/
def reportsPublicIP (r : AwsInstance) (a : String) : Bool :=
  decide (a ≠ "") && r.networkInterfaces.any (interfaceHas a)

/-- A snapshot record reports some address of the pool. -/
def reportsPoolAddress (pool : List (String × Address)) (r : AwsInstance) : Bool :=
  (mapKeys pool).any (reportsPublicIP r)

/-- A snapshot record is in state `running`. -/
def isRunning (r : AwsInstance) : Bool :=
  decide (StringValue r.state.name = "running")

/-- The last record of the snapshot that carries the identifier `id`. -/
def lastRecord : List AwsInstance → String → Option AwsInstance
  | [], _ => none
  | r :: rest, id =>
    match lastRecord rest id with
    | some x => some x
    | none => if StringValue r.instanceId = id then some r else none

/-- The registry record after the snapshot loop has handled the record `r` of instance `id`;
`prior` is the record the registry had for `id` before the pass. -/
def refreshed (pool : List (String × Address)) (sequence : Int) (prior : Option Instance)
    (id : String) (r : AwsInstance) : Instance :=
  { ID := id
    sequence := sequence
    status := r
    poolNode := !(isMaster r.tags)
    canHaveElasticIP := match prior with
      | some p => p.canHaveElasticIP
      | none => false
    goodness := match prior with
      | some p => p.goodness
      | none => 0
    elasticIPs := observedElasticIPs pool r.networkInterfaces }

/-- The invariant of the controller between passes: registry keys and pool keys are not
repeated, every record carries the current sequence and has `poolNode` as computed from the tags
of its status. -/
structure Inv (c : ElasticIPController) : Prop where
  keys : (regKeys c.instances).Nodup
  stamped : ∀ i ∈ c.instances, i.sequence = c.sequence
  poolNode : ∀ i ∈ c.instances, i.poolNode = !(isMaster i.status.tags)
  pool : (mapKeys c.addressPool).Nodup

/-- Every `DisassociateAddress` call of the log comes right after a `DescribeAddress` lookup of
the same address that found an address, and passes the association identifier of that address;
`prev` is the call before the log. -/
def pairedFrom (prev : Option Event) : List Event → Prop
  | [] => True
  | e :: rest =>
    (match e with
      | .disassociateAddress _ a associationID _ =>
        ∃ address, prev = some (.describeAddress a (.found address)) ∧
          associationID = StringValue address.associationId
      | _ => True) ∧ pairedFrom (some e) rest

/-- What the detach loops of instance `i` may log. -/
def DetachEvent (cloud : Cloud) (i : Instance) : Event → Prop
  | .describeAddress a result =>
    a ∈ i.elasticIPs ∧ ∃ n, result = DescribeAddress (cloud.describeAddresses n a)
  | .disassociateAddress id a associationID ok =>
    id = i.ID ∧ a ∈ i.elasticIPs ∧ ∃ n, ok = cloud.disassociateAddress n id a associationID
  | .associateAddress _ _ _ _ _ => False

/-- The invariant of the detach loops of instance `i` entered with log `L`. -/
structure DetachInv (cloud : Cloud) (i : Instance) (L : List Event) (d : Detach) : Prop where
  sub : ∀ a ∈ d.elasticIPs, a ∈ i.elasticIPs
  grow : ∀ e ∈ L, e ∈ d.log
  only : ∀ e ∈ d.log, e ∈ L ∨ DetachEvent cloud i e
  removed : ∀ a ∈ i.elasticIPs,
    a ∉ d.elasticIPs ↔ ∃ associationID, Event.disassociateAddress i.ID a associationID true ∈ d.log
  panic : d.panicked = true ↔ ∃ a, Event.describeAddress a .absent ∈ d.log
  paired : pairedFrom none d.log

/-- The lookup and the request that the detach loops owe to a held address `a` of `i`. -/
def Attempted (i : Instance) (a : String) (log : List Event) : Prop :=
  ∃ result, Event.describeAddress a result ∈ log ∧
    ∀ address, result = .found address →
      ∃ ok, Event.disassociateAddress i.ID a (StringValue address.associationId) ok ∈ log

/-- How the record `j'` that the sweep leaves for an instance relates to the record `j` that
the snapshot loop left, given the calls logged so far. -/
structure Settled (j j' : Instance) (log : List Event) : Prop where
  same : j' = { classify j with elasticIPs := j'.elasticIPs }
  sub : ∀ a ∈ j'.elasticIPs, a ∈ j.elasticIPs
  keep : (classify j).eligible = true → j'.elasticIPs = j.elasticIPs
  removed : ∀ a ∈ j.elasticIPs,
    a ∉ j'.elasticIPs ↔ ∃ associationID, Event.disassociateAddress j.ID a associationID true ∈ log
  attempted : (classify j).eligible = false → ∀ a ∈ j.elasticIPs,
    (∃ ni ∈ j.status.networkInterfaces, interfaceHas a ni = true) → Attempted j a log

/-- The invariant of the loop over `c.instances`; `reg0` is the registry after the snapshot
loop and `todo` the keys still to visit. -/
structure SweepInv (cloud : Cloud) (sequence : Int) (reg0 : List Instance)
    (todo : List String) (s : Pass) : Prop where
  keys : (regKeys s.instances).Nodup
  untouched : ∀ id ∈ todo, regGet s.instances id = regGet reg0 id
  absent : ∀ id, regGet reg0 id = none → regGet s.instances id = none
  stale : s.panicked = false → ∀ id j, id ∉ todo → regGet reg0 id = some j →
    j.sequence ≠ sequence → regGet s.instances id = none
  settled : s.panicked = false → ∀ id j, id ∉ todo → regGet reg0 id = some j →
    j.sequence = sequence → ∃ j', regGet s.instances id = some j' ∧ Settled j j' s.log
  only : ∀ e ∈ s.log, ∃ j, j ∈ reg0 ∧ j.ID ∉ todo ∧ j.sequence = sequence ∧
    (classify j).eligible = false ∧ DetachEvent cloud j e
  panic : s.panicked = true ↔ ∃ a, Event.describeAddress a .absent ∈ s.log
  paired : pairedFrom none s.log
  holders : s.panicked = false → ∀ a,
    a ∈ mapKeys s.addressMap ↔ ∃ j' ∈ s.instances, j'.ID ∉ todo ∧ a ∈ j'.elasticIPs

/-- An instance may be picked for an address: it is a pool node, can hold an address and
holds none. -/
def Instance.candidate (i : Instance) : Bool :=
  i.poolNode && i.canHaveElasticIP && i.elasticIPs.isEmpty

/-- How the record `j` of an instance during the assign loop relates to its record `j0` at the
start of the loop; `todo` are the pool addresses still to visit and `amap` is `addressMap`. -/
structure Grown (pool : List (String × Address)) (amap : List (String × String))
    (todo : List String) (j0 j : Instance) : Prop where
  same : j = { j0 with elasticIPs := j.elasticIPs }
  sub : ∀ a ∈ j0.elasticIPs, a ∈ j.elasticIPs
  fixed : j0.candidate = false → j = j0
  given : ∀ a ∈ j.elasticIPs, a ∉ j0.elasticIPs →
    a ∈ mapKeys pool ∧ a ∉ todo ∧ a ∉ mapKeys amap ∧ j.elasticIPs = [a]

/-- What the assign loop entered in state `s0` may log. -/
def AssignEvent (cloud : Cloud) (pool : List (String × Address)) (s0 : Pass) : Event → Prop
  | .associateAddress id a allocationID ok reg =>
    a ∈ mapKeys pool ∧ a ∉ mapKeys s0.addressMap ∧
    (∃ address, mapGet pool a = some address ∧
      allocationID = StringValue address.allocationId) ∧
    (∃ n, ok = cloud.associateAddress n id a allocationID) ∧
    (∃ i ∈ reg, i.ID = id ∧ i.candidate = true ∧
      ∀ j ∈ reg, j.candidate = true → j.goodness ≤ i.goodness) ∧
    (∀ j ∈ reg, ∃ j0 ∈ s0.instances, j = { j0 with elasticIPs := j.elasticIPs })
  | _ => False

/-- The invariant of the loop over `c.addressPool` entered in state `s0`; `todo` are the
addresses still to visit. -/
structure AssignInv (cloud : Cloud) (pool : List (String × Address)) (s0 : Pass)
    (todo : List String) (s : Pass) : Prop where
  keys : (regKeys s.instances).Nodup
  amap : s.addressMap = s0.addressMap
  panicked : s.panicked = s0.panicked
  gone : ∀ id, regGet s0.instances id = none → regGet s.instances id = none
  grown : ∀ id j0, regGet s0.instances id = some j0 →
    ∃ j, regGet s.instances id = some j ∧ Grown pool s0.addressMap todo j0 j
  grow : ∀ e ∈ s0.log, e ∈ s.log
  only : ∀ e ∈ s.log, e ∈ s0.log ∨ AssignEvent cloud pool s0 e
  paired : pairedFrom none s.log
  unique : ∀ a, a ∉ mapKeys s0.addressMap → ∀ j1 ∈ s.instances, ∀ j2 ∈ s.instances,
    a ∈ j1.elasticIPs → a ∈ j2.elasticIPs → j1 = j2

/-- The registry of a pass after the loop over the snapshot. -/
def ingested (c : ElasticIPController) (snapshot : List AwsInstance) : List Instance :=
  ingest c.addressPool (nextSequence c.sequence) c.instances snapshot

/-- The state of a pass after the loop over `c.instances`, before the loop over the pool. -/
def swept (cloud : Cloud) (ord : RangeOrder) (c : ElasticIPController)
    (snapshot : List AwsInstance) : Pass :=
  sweep cloud ord (nextSequence c.sequence) (ingested c snapshot)

/-- An instance record carries no tag with key `k8s.io/role/master`. -/
def notMasterTagged (i : Instance) : Prop :=
  ∀ t ∈ i.status.tags, StringValue t.key ≠ "k8s.io/role/master"

/-- A running snapshot record tagged `k8s.io/role/master`. -/
def awsMaster (id : String) (ips : List String) : AwsInstance :=
  { instanceId := some id, state := ⟨some "running"⟩,
    tags := [⟨some "k8s.io/role/master", some "1"⟩],
    networkInterfaces := ips.map (fun ip => ⟨some ⟨some ip⟩⟩) }

/-- A running snapshot record without an identifier. -/
def awsNameless (ips : List String) : AwsInstance :=
  { instanceId := none, state := ⟨some "running"⟩, tags := [],
    networkInterfaces := ips.map (fun ip => ⟨some ⟨some ip⟩⟩) }

/-- A cloud in which every call succeeds but the lookup of an address finds nothing. -/
def forgetfulCloud (snapshot : List AwsInstance) : Cloud :=
  { describeInstances := some snapshot
    describeAddresses := fun _ _ => some []
    disassociateAddress := fun _ _ _ _ => true
    associateAddress := fun _ _ _ _ => true }

/-- A cloud in which lookups find the address but every request to change an association
fails. -/
def stubbornCloud (snapshot : List AwsInstance) : Cloud :=
  { describeInstances := some snapshot
    describeAddresses := fun _ ip =>
      some [{ publicIp := some ip, allocationId := some "eipalloc-1",
              associationId := some "eipassoc-1" }]
    disassociateAddress := fun _ _ _ _ => false
    associateAddress := fun _ _ _ _ => false }

/-- The identifiers of the records of a snapshot. -/
def snapshotIds (snapshot : List AwsInstance) : List String :=
  snapshot.map (fun r => StringValue r.instanceId)

/-- The value of `canHaveElasticIP` after classification, from the state name `state` and the
value `before` that the record had. -/
def classifiedCanHave (state : String) (before : Bool) : Bool :=
  if state = "running" then true
  else if state ∈ ["pending", "shutting-down", "terminated", "stopping", "stopped"] then false
  else before

/-- The value of `canHaveElasticIP` that a record has when the pass reaches it: the value of
the record the registry had for the identifier, `false` for a record created in the pass. -/
def priorCanHave (reg : List Instance) (id : String) : Bool :=
  match regGet reg id with
  | some p => p.canHaveElasticIP
  | none => false

/-- No address of the pool is reported on more than one instance: two snapshot records that
report the same pool address carry the same identifier. -/
def singleReport (pool : List (String × Address)) (snapshot : List AwsInstance) : Prop :=
  ∀ a ∈ mapKeys pool, ∀ r1 ∈ snapshot, ∀ r2 ∈ snapshot,
    reportsPublicIP r1 a = true → reportsPublicIP r2 a = true →
    StringValue r1.instanceId = StringValue r2.instanceId

/-- No address is held by two records of the registry. -/
def singleOwnership (reg : List Instance) : Prop :=
  ∀ a, ∀ j1 ∈ reg, ∀ j2 ∈ reg, a ∈ j1.elasticIPs → a ∈ j2.elasticIPs → j1 = j2

/-- The records of a snapshot carry non-empty, pairwise distinct identifiers. -/
def wellIdentified (snapshot : List AwsInstance) : Prop :=
  (snapshotIds snapshot).Nodup ∧ "" ∉ snapshotIds snapshot

/-- Every address of the pool is reported as bound to an instance that is running and not
master-tagged, and no other instance reports a pool address. -/
def converged (pool : List (String × Address)) (snapshot : List AwsInstance) : Prop :=
  (∀ a ∈ mapKeys pool, ∃ r ∈ snapshot,
    reportsPublicIP r a = true ∧ isRunning r = true ∧ isMaster r.tags = false) ∧
  (∀ r ∈ snapshot, reportsPoolAddress pool r = true →
    isRunning r = true ∧ isMaster r.tags = false)

/-- The log entry is a call `AssociateAddress(id, eip, _)`. -/
def Event.associates (id eip : String) : Event → Bool
  | .associateAddress i a _ _ _ => decide (i = id) && decide (a = eip)
  | _ => false

/-- The log entry is a call `DisassociateAddress(id, eip, _)`. -/
def Event.disassociates (id eip : String) : Event → Bool
  | .disassociateAddress i a _ _ => decide (i = id) && decide (a = eip)
  | _ => false

/-- A snapshot record of an instance that is running, not master-tagged and holds no address
of the pool. -/
def freeRunning (pool : List (String × Address)) (r : AwsInstance) : Bool :=
  isRunning r && !(isMaster r.tags) && !(reportsPoolAddress pool r)

/-- Some record of the registry holds the address `a`. -/
def heldIn (reg : List Instance) (a : String) : Prop :=
  ∃ j ∈ reg, a ∈ j.elasticIPs

/-- A cloud in which every lookup finds an address and every request succeeds. -/
def obliging (cloud : Cloud) : Prop :=
  (∀ n ip, ∃ address, DescribeAddress (cloud.describeAddresses n ip) = .found address) ∧
  (∀ n id a x, cloud.disassociateAddress n id a x = true) ∧
  (∀ n id a x, cloud.associateAddress n id a x = true)

/-- The `AssociateAddress` calls of a log, in order, as pairs of instance identifier and
address. -/
def associateCalls : List Event → List (String × String)
  | [] => []
  | .associateAddress id a _ _ _ :: rest => (id, a) :: associateCalls rest
  | .describeAddress _ _ :: rest => associateCalls rest
  | .disassociateAddress _ _ _ _ :: rest => associateCalls rest

/-- The addresses of the pool that no record of the registry holds. -/
def unheldAddresses (pool : List (String × Address)) (reg : List Instance) : List String :=
  (mapKeys pool).filter (fun a => reg.all (fun j => decide (a ∉ j.elasticIPs)))

/-- The records of the registry that are pool nodes, can have an elastic IP and hold none. -/
def freeCandidates (reg : List Instance) : List Instance :=
  reg.filter Instance.candidate

/-- The counting invariant of the loop over `c.addressPool` when every `AssociateAddress`
call succeeds: `m` is the number of calls the whole loop makes, `todo` the addresses still to
visit, `amap` is `addressMap` and `reg0` the registry when the loop is entered. -/
structure MaxInv (pool : List (String × Address)) (amap : List (String × String))
    (reg0 : List Instance) (m : Nat) (todo : List String) (s : Pass) : Prop where
  count : (associateCalls s.log).length +
      min (todo.filter (fun a => decide (a ∉ mapKeys amap))).length
        (s.instances.countP Instance.candidate) = m
  used : ∀ call ∈ associateCalls s.log, ∀ j ∈ s.instances, j.ID = call.1 → j.candidate = false
  visited : ∀ call ∈ associateCalls s.log, call.2 ∉ todo ∧ call.2 ∈ mapKeys pool ∧
    call.2 ∉ mapKeys amap
  chosen : ∀ call ∈ associateCalls s.log, ∃ j0 ∈ reg0, j0.ID = call.1 ∧ j0.candidate = true
  ids : ((associateCalls s.log).map Prod.fst).Nodup
  eips : ((associateCalls s.log).map Prod.snd).Nodup
  final : (∀ a ∈ mapKeys pool, a ∉ todo → heldIn s.instances a) ∨
    s.instances.countP Instance.candidate = 0

/-! ## Test data -/

/-- A running snapshot record without tags. -/
def awsRunning (id : String) (ips : List String) : AwsInstance :=
  { instanceId := some id, state := ⟨some "running"⟩, tags := [],
    networkInterfaces := ips.map (fun ip => ⟨some ⟨some ip⟩⟩) }

/-- A snapshot record in a given state. -/
def awsInState (id state : String) (ips : List String) : AwsInstance :=
  { instanceId := some id, state := ⟨some state⟩, tags := [],
    networkInterfaces := ips.map (fun ip => ⟨some ⟨some ip⟩⟩) }

/-- The address `1.2.3.4` as resolved at startup. -/
def addr1 : Address :=
  { publicIp := some "1.2.3.4", allocationId := some "eipalloc-1", associationId := none }

/-- A cloud in which every call succeeds and every lookup finds the address with association
`eipassoc-1`. -/
def happyCloud (snapshot : List AwsInstance) : Cloud :=
  { describeInstances := some snapshot
    describeAddresses := fun _ ip =>
      some [{ publicIp := some ip, allocationId := some "eipalloc-1",
              associationId := some "eipassoc-1" }]
    disassociateAddress := fun _ _ _ _ => true
    associateAddress := fun _ _ _ _ => true }

/-- A controller with pool `1.2.3.4` and an empty registry. -/
def ctl1 : ElasticIPController :=
  { instances := [], sequence := 0, addressPool := [("1.2.3.4", addr1)] }

/-- The address `5.6.7.8` as resolved at startup. -/
def addr2 : Address :=
  { publicIp := some "5.6.7.8", allocationId := some "eipalloc-2", associationId := none }

/-- A controller with pool `1.2.3.4`, `5.6.7.8` and an empty registry. -/
def ctl2 : ElasticIPController :=
  { instances := [], sequence := 0, addressPool := [("1.2.3.4", addr1), ("5.6.7.8", addr2)] }

/-- A cloud whose `DescribeInstances` call fails. -/
def downCloud : Cloud :=
  { describeInstances := none
    describeAddresses := fun _ ip =>
      some [{ publicIp := some ip, allocationId := some "eipalloc-1",
              associationId := some "eipassoc-1" }]
    disassociateAddress := fun _ _ _ _ => true
    associateAddress := fun _ _ _ _ => true }

/-- The controller with pool `1.2.3.4` after a pass that bound the address to `i-1`. -/
def ctlBound : ElasticIPController :=
  (runOnce (happyCloud [awsRunning "i-1" []]) storedOrder ctl1).c

end EIP

namespace EIP

/-! ## Association lists and the registry -/

theorem mapGet_isSome_iff {V : Type} (m : List (String × V)) (key : String) :
    (mapGet m key).isSome = true ↔ key ∈ mapKeys m := by
  induction m with
  | nil => simp [mapGet, mapKeys]
  | cons e m ih =>
    obtain ⟨k, v⟩ := e
    by_cases h : k = key
    · simp [mapGet, mapKeys, h]
    · have h2 : ¬ key = k := fun h3 => h h3.symm
      simpa [mapGet, mapKeys, h, h2] using ih

theorem mapGet_mem {V : Type} (m : List (String × V)) (key : String) (v : V)
    (h : mapGet m key = some v) : (key, v) ∈ m := by
  induction m with
  | nil => simp [mapGet] at h
  | cons e m ih =>
    obtain ⟨k, w⟩ := e
    by_cases hk : k = key
    · simp [mapGet, hk] at h
      simp [hk, h]
    · simp [mapGet, hk] at h
      exact List.mem_cons_of_mem _ (ih h)

theorem mapKeys_mapDelete {V : Type} (m : List (String × V)) (key k : String) :
    k ∈ mapKeys (mapDelete m key) ↔ k ∈ mapKeys m ∧ k ≠ key := by
  simp only [mapKeys, mapDelete, List.mem_map, List.mem_filter]
  constructor
  · rintro ⟨e, ⟨he, hne⟩, rfl⟩
    exact ⟨⟨e, he, rfl⟩, by simpa using hne⟩
  · rintro ⟨⟨e, he, rfl⟩, hne⟩
    exact ⟨e, ⟨he, by simpa using hne⟩, rfl⟩

theorem mapKeys_mapSet {V : Type} (m : List (String × V)) (key k : String) (v : V) :
    k ∈ mapKeys (mapSet m key v) ↔ k = key ∨ k ∈ mapKeys m := by
  have h := mapKeys_mapDelete m key k
  simp only [mapKeys] at h
  simp only [mapSet, mapKeys, List.map_append, List.mem_append, h]
  by_cases hk : k = key <;> simp [hk]

theorem mapKeys_mapDelete_nodup {V : Type} (m : List (String × V)) (key : String)
    (h : (mapKeys m).Nodup) : (mapKeys (mapDelete m key)).Nodup := by
  unfold mapKeys mapDelete
  exact h.sublist (List.Sublist.map _ (List.filter_sublist m))

theorem mapKeys_mapSet_nodup {V : Type} (m : List (String × V)) (key : String) (v : V)
    (h : (mapKeys m).Nodup) : (mapKeys (mapSet m key v)).Nodup := by
  have h1 := mapKeys_mapDelete_nodup m key h
  have h2 := mapKeys_mapDelete m key key
  simp only [mapKeys] at h1 h2
  simp only [mapSet, mapKeys, List.map_append, List.map_cons, List.map_nil]
  rw [List.nodup_append]
  refine ⟨h1, by simp, ?_⟩
  intro a ha hb
  simp only [List.mem_singleton] at hb
  subst hb
  exact (h2.1 ha).2 rfl

theorem mapGet_mapDelete {V : Type} (m : List (String × V)) (key k : String) :
    mapGet (mapDelete m key) k = if k = key then none else mapGet m k := by
  induction m with
  | nil => simp [mapGet, mapDelete]
  | cons e m ih =>
    obtain ⟨k0, v⟩ := e
    simp only [mapDelete] at ih
    by_cases h0 : k0 = key
    · subst h0
      by_cases hk : k = k0
      · subst hk
        simpa [mapDelete, mapGet] using ih
      · have hk2 : ¬ k0 = k := fun h => hk h.symm
        simpa [mapDelete, mapGet, hk, hk2] using ih
    · by_cases hk : k0 = k
      · subst hk
        simp [mapDelete, mapGet, h0]
      · simp only [mapDelete, List.filter_cons, ne_eq, h0, not_false_eq_true, decide_True,
          if_true, mapGet, hk, if_false]
        exact ih

theorem mapGet_append_singleton {V : Type} (m : List (String × V)) (key k : String) (v : V) :
    mapGet (m ++ [(key, v)]) k
      = match mapGet m k with
        | some w => some w
        | none => if key = k then some v else none := by
  induction m with
  | nil => simp [mapGet]
  | cons e m ih =>
    obtain ⟨k0, w⟩ := e
    by_cases h0 : k0 = k
    · simp [mapGet, h0]
    · simpa [mapGet, h0] using ih

theorem mapGet_mapSet {V : Type} (m : List (String × V)) (key k : String) (v : V) :
    mapGet (mapSet m key v) k = if k = key then some v else mapGet m k := by
  unfold mapSet
  rw [mapGet_append_singleton, mapGet_mapDelete]
  by_cases hk : k = key
  · simp [hk]
  · have hk2 : ¬ key = k := fun h => hk h.symm
    simp only [hk, if_false, hk2]
    cases mapGet m k <;> rfl

theorem mem_setInsert (s : List String) (key k : String) :
    k ∈ setInsert s key ↔ k = key ∨ k ∈ s := by
  unfold setInsert
  by_cases h : key ∈ s
  · simp only [h, if_true]
    constructor
    · exact Or.inr
    · rintro (rfl | h2)
      · exact h
      · exact h2
  · simp only [h, if_false, List.mem_append, List.mem_singleton]
    tauto

theorem setInsert_nodup (s : List String) (key : String) (h : s.Nodup) :
    (setInsert s key).Nodup := by
  unfold setInsert
  by_cases hk : key ∈ s
  · simpa [hk] using h
  · simp only [hk, if_false]
    rw [List.nodup_append]
    refine ⟨h, by simp, ?_⟩
    intro a ha hb
    simp only [List.mem_singleton] at hb
    subst hb
    exact hk ha

theorem mem_setDelete (s : List String) (key k : String) :
    k ∈ setDelete s key ↔ k ∈ s ∧ k ≠ key := by
  simp [setDelete]

theorem regGet_id {reg : List Instance} {id : String} {i : Instance}
    (h : regGet reg id = some i) : i.ID = id := by
  induction reg with
  | nil => simp [regGet] at h
  | cons j reg ih =>
    by_cases hj : j.ID = id
    · simp [regGet, hj] at h
      subst h
      exact hj
    · simp [regGet, hj] at h
      exact ih h

theorem regGet_mem {reg : List Instance} {id : String} {i : Instance}
    (h : regGet reg id = some i) : i ∈ reg := by
  induction reg with
  | nil => simp [regGet] at h
  | cons j reg ih =>
    by_cases hj : j.ID = id
    · simp [regGet, hj] at h
      simp [h]
    · simp [regGet, hj] at h
      exact List.mem_cons_of_mem _ (ih h)

theorem regGet_eq_none (reg : List Instance) (id : String) :
    regGet reg id = none ↔ id ∉ regKeys reg := by
  induction reg with
  | nil => simp [regGet, regKeys]
  | cons j reg ih =>
    by_cases hj : j.ID = id
    · simp [regGet, regKeys, hj]
    · have h2 : ¬ id = j.ID := fun h => hj h.symm
      simpa [regGet, regKeys, hj, h2] using ih

theorem regGet_of_mem {reg : List Instance} (hn : (regKeys reg).Nodup) {i : Instance}
    (h : i ∈ reg) : regGet reg i.ID = some i := by
  induction reg with
  | nil => simp at h
  | cons j reg ih =>
    simp only [regKeys, List.map_cons, List.nodup_cons] at hn
    rcases List.mem_cons.1 h with rfl | h2
    · simp [regGet]
    · have hne : ¬ j.ID = i.ID := by
        intro he
        exact hn.1 (he ▸ List.mem_map_of_mem (fun i => i.ID) h2)
      simp only [regGet, hne, if_false]
      exact ih hn.2 h2

theorem regGet_regSet (reg : List Instance) (i : Instance) (id : String) :
    regGet (regSet reg i) id = if i.ID = id then some i else regGet reg id := by
  induction reg with
  | nil => simp [regSet, regGet]
  | cons j reg ih =>
    by_cases hj : j.ID = i.ID
    · by_cases hi : i.ID = id
      · simp [regSet, regGet, hj, hi]
      · have h3 : ¬ j.ID = id := fun h => hi (hj ▸ h)
        simp [regSet, regGet, hj, hi]
    · by_cases h3 : j.ID = id
      · subst h3
        have hi : ¬ i.ID = j.ID := fun h => hj h.symm
        simp [regSet, regGet, hj, hi]
      · simp only [regSet, hj, if_false, regGet, h3]
        exact ih

theorem regKeys_regSet (reg : List Instance) (i : Instance) (id : String) :
    id ∈ regKeys (regSet reg i) ↔ id = i.ID ∨ id ∈ regKeys reg := by
  have h1 := regGet_eq_none (regSet reg i) id
  have h2 := regGet_eq_none reg id
  rw [regGet_regSet] at h1
  by_cases hi : i.ID = id
  · simp only [hi, if_true] at h1
    have : id ∈ regKeys (regSet reg i) := by
      by_contra hc
      exact absurd (h1.2 hc) (by simp)
    simp [this, hi]
  · have hi2 : ¬ id = i.ID := fun h => hi h.symm
    simp only [hi, if_false] at h1
    simp only [hi2, false_or]
    constructor
    · intro h
      by_contra hc
      exact (h1.1 (h2.2 hc)) h
    · intro h
      by_contra hc
      exact (h2.1 (h1.2 hc)) h

theorem regKeys_regSet_nodup (reg : List Instance) (i : Instance)
    (hn : (regKeys reg).Nodup) : (regKeys (regSet reg i)).Nodup := by
  induction reg with
  | nil => simp [regSet, regKeys]
  | cons j reg ih =>
    simp only [regKeys, List.map_cons, List.nodup_cons] at hn
    by_cases hj : j.ID = i.ID
    · simp only [regSet, hj, if_true, regKeys, List.map_cons, List.nodup_cons]
      exact ⟨hj ▸ hn.1, hn.2⟩
    · simp only [regSet, hj, if_false, regKeys, List.map_cons, List.nodup_cons]
      refine ⟨?_, ih hn.2⟩
      intro hm
      rcases (regKeys_regSet reg i j.ID).1 hm with h | h
      · exact hj h
      · exact hn.1 h

theorem regGet_regDelete (reg : List Instance) (id k : String) :
    regGet (regDelete reg id) k = if k = id then none else regGet reg k := by
  induction reg with
  | nil => simp [regGet, regDelete]
  | cons j reg ih =>
    simp only [regDelete] at ih
    by_cases h0 : j.ID = id
    · subst h0
      by_cases hk : k = j.ID
      · subst hk
        simpa [regDelete, regGet] using ih
      · have hk2 : ¬ j.ID = k := fun h => hk h.symm
        simpa [regDelete, regGet, hk, hk2] using ih
    · by_cases hk : j.ID = k
      · subst hk
        simp [regDelete, regGet, h0]
      · simp only [regDelete, List.filter_cons, ne_eq, h0, not_false_eq_true, decide_True,
          if_true, regGet, hk, if_false]
        exact ih

theorem regKeys_regDelete_nodup (reg : List Instance) (id : String)
    (hn : (regKeys reg).Nodup) : (regKeys (regDelete reg id)).Nodup := by
  unfold regKeys regDelete
  exact hn.sublist (List.Sublist.map _ (List.filter_sublist reg))

theorem mem_iff_regGet {reg : List Instance} (hn : (regKeys reg).Nodup) (i : Instance) :
    i ∈ reg ↔ regGet reg i.ID = some i :=
  ⟨regGet_of_mem hn, regGet_mem⟩

/-! ## Construction -/

theorem allAddressesMap_fold_get (all : List Address) (m : List (String × Address))
    (k : String) (v : Address)
    (h : mapGet (all.foldl (fun m address => mapSet m (StringValue address.publicIp) address) m) k
      = some v) :
    mapGet m k = some v ∨ (v ∈ all ∧ StringValue v.publicIp = k) := by
  induction all generalizing m with
  | nil => exact Or.inl h
  | cons a all ih =>
    rcases ih _ h with h1 | ⟨h1, h2⟩
    · rw [mapGet_mapSet] at h1
      by_cases hk : k = StringValue a.publicIp
      · simp only [hk, if_true, Option.some.injEq] at h1
        subst h1
        exact Or.inr ⟨List.mem_cons_self _ _, hk.symm⟩
      · simp only [hk, if_false] at h1
        exact Or.inl h1
    · exact Or.inr ⟨List.mem_cons_of_mem _ h1, h2⟩

theorem allAddressesMap_fold_keys (all : List Address) (m : List (String × Address))
    (k : String) :
    k ∈ mapKeys (all.foldl (fun m address => mapSet m (StringValue address.publicIp) address) m)
      ↔ k ∈ mapKeys m ∨ ∃ a ∈ all, StringValue a.publicIp = k := by
  induction all generalizing m with
  | nil => simp
  | cons a all ih =>
    simp only [List.foldl_cons, ih, mapKeys_mapSet, List.mem_cons, exists_eq_or_imp]
    constructor
    · rintro ((h | h) | h)
      · exact Or.inr (Or.inl h.symm)
      · exact Or.inl h
      · exact Or.inr (Or.inr h)
    · rintro (h | h | h)
      · exact Or.inl (Or.inr h)
      · exact Or.inl (Or.inl h.symm)
      · exact Or.inr h

theorem resolvePool_none (all : List (String × Address)) (eips : List String)
    (pool : List (String × Address)) :
    resolvePool all eips pool = none ↔ ∃ e ∈ eips, e ∉ mapKeys all := by
  induction eips generalizing pool with
  | nil => simp [resolvePool]
  | cons e eips ih =>
    cases hg : mapGet all e with
    | none =>
      have hne : e ∉ mapKeys all := by
        intro hm
        have := (mapGet_isSome_iff all e).2 hm
        simp [hg] at this
      simp only [resolvePool, hg, List.mem_cons, exists_eq_or_imp, true_iff]
      exact Or.inl hne
    | some address =>
      have hin : e ∈ mapKeys all := (mapGet_isSome_iff all e).1 (by simp [hg])
      simp only [resolvePool, hg, ih, List.mem_cons, exists_eq_or_imp]
      constructor
      · exact Or.inr
      · rintro (h | h)
        · exact absurd hin h
        · exact h

theorem resolvePool_some (all : List (String × Address)) (eips : List String)
    (pool result : List (String × Address)) (h : resolvePool all eips pool = some result) :
    (∀ k, k ∈ mapKeys result ↔ k ∈ eips ∨ k ∈ mapKeys pool) ∧
    ((mapKeys pool).Nodup → (mapKeys result).Nodup) ∧
    (∀ k v, mapGet result k = some v →
      mapGet pool k = some v ∨ (k ∈ eips ∧ mapGet all k = some v)) := by
  induction eips generalizing pool with
  | nil =>
    simp only [resolvePool, Option.some.injEq] at h
    subst h
    simp
  | cons e eips ih =>
    cases hg : mapGet all e with
    | none => simp [resolvePool, hg] at h
    | some address =>
      simp only [resolvePool, hg] at h
      obtain ⟨h1, h2, h3⟩ := ih _ h
      refine ⟨?_, ?_, ?_⟩
      · intro k
        rw [h1, mapKeys_mapSet, List.mem_cons]
        tauto
      · intro hn
        exact h2 (mapKeys_mapSet_nodup _ _ _ hn)
      · intro k v hk
        rcases h3 k v hk with h4 | ⟨h4, h5⟩
        · rw [mapGet_mapSet] at h4
          by_cases hke : k = e
          · simp only [hke, if_true, Option.some.injEq] at h4
            subst h4
            subst hke
            exact Or.inr ⟨List.mem_cons_self _ _, hg⟩
          · simp only [hke, if_false] at h4
            exact Or.inl h4
        · exact Or.inr ⟨List.mem_cons_of_mem _ h4, h5⟩

theorem NewElasticIPController_pool (describeAddresses : Option (List Address))
    (elasticIPs : List String) :
    ∀ c, NewElasticIPController describeAddresses elasticIPs = some c →
      (mapKeys c.addressPool).Nodup := by
  intro c hc
  cases describeAddresses with
  | none => simp [NewElasticIPController] at hc
  | some all =>
    cases hr : resolvePool (allAddressesMap all) elasticIPs [] with
    | none => simp [NewElasticIPController, hr] at hc
    | some pool =>
      simp only [NewElasticIPController, hr, Option.some.injEq] at hc
      subst hc
      exact (resolvePool_some _ _ _ _ hr).2.1 (by simp [mapKeys])

/-- C7. `NewElasticIPController` returns an error exactly when `DescribeAddresses` fails or a
configured elastic IP is not the public IP of any returned address; when it succeeds the keys of
`addressPool` are the configured elastic IPs and each key maps to a returned address whose public
IP is that key. -/
theorem NewElasticIPController_fail_fast (describeAddresses : Option (List Address))
    (elasticIPs : List String) :
    (NewElasticIPController describeAddresses elasticIPs = none ↔
      (describeAddresses = none ∨
        ∃ all, describeAddresses = some all ∧
          ∃ eip ∈ elasticIPs, ∀ a ∈ all, StringValue a.publicIp ≠ eip)) ∧
    (∀ c, NewElasticIPController describeAddresses elasticIPs = some c →
      (∀ k, k ∈ mapKeys c.addressPool ↔ k ∈ elasticIPs) ∧
      (mapKeys c.addressPool).Nodup ∧
      (∀ k ∈ mapKeys c.addressPool, ∃ address, mapGet c.addressPool k = some address ∧
        (∃ all, describeAddresses = some all ∧ address ∈ all) ∧
        StringValue address.publicIp = k)) := by
  cases describeAddresses with
  | none => simp [NewElasticIPController]
  | some all =>
    have hkeys : ∀ k, k ∈ mapKeys (allAddressesMap all) ↔ ∃ a ∈ all, StringValue a.publicIp = k := by
      intro k
      have := allAddressesMap_fold_keys all [] k
      simpa [allAddressesMap, mapKeys] using this
    constructor
    · cases hr : resolvePool (allAddressesMap all) elasticIPs [] with
      | none =>
        obtain ⟨e, he, hne⟩ := (resolvePool_none _ _ _).1 hr
        simp only [NewElasticIPController, hr, true_iff]
        refine Or.inr ⟨all, rfl, e, he, ?_⟩
        intro a ha hc
        exact hne ((hkeys e).2 ⟨a, ha, hc⟩)
      | some pool =>
        simp only [NewElasticIPController, hr]
        refine ⟨(fun h => by cases h), ?_⟩
        rintro (h | ⟨all2, h2, e, he, hne⟩)
        · cases h
        · cases h2
          have hnone : resolvePool (allAddressesMap all) elasticIPs [] = none := by
            rw [resolvePool_none]
            refine ⟨e, he, ?_⟩
            intro hm
            obtain ⟨a, ha, hae⟩ := (hkeys e).1 hm
            exact hne a ha hae
          rw [hr] at hnone
          cases hnone
    · intro c hc
      cases hr : resolvePool (allAddressesMap all) elasticIPs [] with
      | none => simp [NewElasticIPController, hr] at hc
      | some pool =>
        simp only [NewElasticIPController, hr, Option.some.injEq] at hc
        subst hc
        obtain ⟨h1, h2, h3⟩ := resolvePool_some _ _ _ _ hr
        refine ⟨?_, ?_, ?_⟩
        · intro k
          simpa [mapKeys] using h1 k
        · exact h2 (by simp [mapKeys])
        · intro k hk
          have hsome := (mapGet_isSome_iff pool k).2 hk
          obtain ⟨address, ha⟩ := Option.isSome_iff_exists.1 hsome
          refine ⟨address, ha, ?_⟩
          rcases h3 k address ha with h4 | ⟨_, h5⟩
          · simp [mapGet] at h4
          · have := allAddressesMap_fold_get all [] k address (by simpa [allAddressesMap] using h5)
            rcases this with h6 | ⟨h6, h7⟩
            · simp [mapGet] at h6
            · exact ⟨⟨all, rfl, h6⟩, h7⟩

/-! ## The snapshot loop -/

theorem isMaster_fold (tags : List Tag) (b : Bool) :
    tags.foldl (fun master tag =>
        if StringValue tag.key = "k8s.io/role/master" then true else master) b = true
      ↔ b = true ∨ ∃ t ∈ tags, StringValue t.key = "k8s.io/role/master" := by
  induction tags generalizing b with
  | nil => simp
  | cons t tags ih =>
    simp only [List.foldl_cons, ih, List.mem_cons, exists_eq_or_imp]
    by_cases h : StringValue t.key = "k8s.io/role/master"
    · simp [h]
    · simp [h]

theorem isMaster_iff (tags : List Tag) :
    isMaster tags = true ↔ ∃ t ∈ tags, StringValue t.key = "k8s.io/role/master" := by
  unfold isMaster
  rw [isMaster_fold]
  simp

theorem isMaster_false_iff (tags : List Tag) :
    isMaster tags = false ↔ ∀ t ∈ tags, StringValue t.key ≠ "k8s.io/role/master" := by
  rw [← Bool.not_eq_true, isMaster_iff]
  simp

theorem observe_fold_mem (pool : List (String × Address)) (nis : List NetworkInterface)
    (acc : List String) (a : String) :
    a ∈ nis.foldl (observeInterface pool) acc
      ↔ a ∈ acc ∨ (a ∈ mapKeys pool ∧ a ≠ "" ∧ ∃ ni ∈ nis, interfaceHas a ni = true) := by
  induction nis generalizing acc with
  | nil => simp
  | cons ni nis ih =>
    simp only [List.foldl_cons, ih, List.mem_cons, exists_eq_or_imp]
    cases hassoc : ni.association with
    | none => simp [observeInterface, interfaceHas, hassoc]
    | some association =>
      by_cases h1 : StringValue association.publicIp = ""
      · simp only [observeInterface, hassoc, h1, if_true, interfaceHas, decide_eq_true_eq]
        constructor
        · rintro (h | ⟨h2, h3, h4⟩)
          · exact Or.inl h
          · exact Or.inr ⟨h2, h3, Or.inr h4⟩
        · rintro (h | ⟨h2, h3, h4 | h4⟩)
          · exact Or.inl h
          · exact absurd h4.symm h3
          · exact Or.inr ⟨h2, h3, h4⟩
      · cases hg : mapGet pool (StringValue association.publicIp) with
        | none =>
          have hnot : StringValue association.publicIp ∉ mapKeys pool := by
            intro hm
            have := (mapGet_isSome_iff pool _).2 hm
            simp [hg] at this
          simp only [observeInterface, hassoc, h1, if_false, hg, Option.isNone_none, if_true,
            interfaceHas, decide_eq_true_eq]
          constructor
          · rintro (h | ⟨h3, h4, h5⟩)
            · exact Or.inl h
            · exact Or.inr ⟨h3, h4, Or.inr h5⟩
          · rintro (h | ⟨h3, h4, h5 | h5⟩)
            · exact Or.inl h
            · exact absurd (h5 ▸ h3) hnot
            · exact Or.inr ⟨h3, h4, h5⟩
        | some v =>
          have hin : StringValue association.publicIp ∈ mapKeys pool := by
            rw [← mapGet_isSome_iff, hg]
            rfl
          simp only [observeInterface, hassoc, h1, if_false, hg, Option.isNone_some,
            Bool.false_eq_true, interfaceHas, decide_eq_true_eq, mem_setInsert]
          constructor
          · rintro ((h | h) | ⟨h3, h4, h5⟩)
            · exact Or.inr ⟨h ▸ hin, h ▸ h1, Or.inl h.symm⟩
            · exact Or.inl h
            · exact Or.inr ⟨h3, h4, Or.inr h5⟩
          · rintro (h | ⟨h3, h4, h5 | h5⟩)
            · exact Or.inl (Or.inr h)
            · exact Or.inl (Or.inl h5.symm)
            · exact Or.inr ⟨h3, h4, h5⟩

theorem mem_observedElasticIPs (pool : List (String × Address)) (r : AwsInstance)
    (a : String) :
    a ∈ observedElasticIPs pool r.networkInterfaces
      ↔ a ∈ mapKeys pool ∧ reportsPublicIP r a = true := by
  unfold observedElasticIPs reportsPublicIP
  rw [observe_fold_mem]
  simp

theorem lastRecord_some {snapshot : List AwsInstance} {id : String} {r : AwsInstance}
    (h : lastRecord snapshot id = some r) : r ∈ snapshot ∧ StringValue r.instanceId = id := by
  induction snapshot with
  | nil => simp [lastRecord] at h
  | cons x rest ih =>
    cases hl : lastRecord rest id with
    | some y =>
      simp only [lastRecord, hl, Option.some.injEq] at h
      subst h
      exact ⟨List.mem_cons_of_mem _ (ih hl).1, (ih hl).2⟩
    | none =>
      by_cases hx : StringValue x.instanceId = id
      · simp only [lastRecord, hl, hx, if_true, Option.some.injEq] at h
        subst h
        exact ⟨List.mem_cons_self _ _, hx⟩
      · simp [lastRecord, hl, hx] at h

theorem lastRecord_none (snapshot : List AwsInstance) (id : String) :
    lastRecord snapshot id = none ↔ ∀ r ∈ snapshot, StringValue r.instanceId ≠ id := by
  induction snapshot with
  | nil => simp [lastRecord]
  | cons x rest ih =>
    cases hl : lastRecord rest id with
    | some y =>
      simp only [lastRecord, hl, List.mem_cons, forall_eq_or_imp]
      constructor
      · intro h
        cases h
      · rintro ⟨_, hall⟩
        rw [ih.2 hall] at hl
        cases hl
    | none =>
      rw [ih] at hl
      by_cases hx : StringValue x.instanceId = id
      · simp [lastRecord, (ih.2 hl), hx]
      · simp only [lastRecord, (ih.2 hl), hx, if_false, List.mem_cons, forall_eq_or_imp, true_iff]
        exact ⟨hx, hl⟩

theorem ingestInstance_get (pool : List (String × Address)) (sequence : Int)
    (reg : List Instance) (r : AwsInstance) (id : String) :
    regGet (ingestInstance pool sequence reg r) id
      = if StringValue r.instanceId = id ∧ id ≠ "" then
          some (refreshed pool sequence (regGet reg id) id r)
        else regGet reg id := by
  unfold ingestInstance
  by_cases hempty : StringValue r.instanceId = ""
  · have : ¬ (StringValue r.instanceId = id ∧ id ≠ "") := by
      rintro ⟨h1, h2⟩
      exact h2 (h1 ▸ hempty)
    rw [if_neg this]
    simp [hempty]
  · simp only [hempty, if_false, regGet_regSet]
    cases hg : regGet reg (StringValue r.instanceId) with
    | none =>
      by_cases hid : StringValue r.instanceId = id
      · subst hid
        simp [newInstance, refreshed, hg, hempty]
      · simp [newInstance, hid]
    | some i =>
      have hi := regGet_id hg
      by_cases hid : StringValue r.instanceId = id
      · subst hid
        simp [refreshed, hg, hempty, hi]
      · simp [hid, hi]

theorem ingestInstance_nodup (pool : List (String × Address)) (sequence : Int)
    (reg : List Instance) (r : AwsInstance) (h : (regKeys reg).Nodup) :
    (regKeys (ingestInstance pool sequence reg r)).Nodup := by
  unfold ingestInstance
  by_cases hempty : StringValue r.instanceId = ""
  · simpa [hempty] using h
  · simp only [hempty, if_false]
    exact regKeys_regSet_nodup _ _ h

theorem ingest_nodup (pool : List (String × Address)) (sequence : Int)
    (snapshot : List AwsInstance) (reg : List Instance) (h : (regKeys reg).Nodup) :
    (regKeys (ingest pool sequence reg snapshot)).Nodup := by
  induction snapshot generalizing reg with
  | nil => exact h
  | cons r rest ih =>
    exact ih _ (ingestInstance_nodup pool sequence reg r h)

theorem refreshed_refreshed (pool : List (String × Address)) (sequence : Int)
    (prior : Option Instance) (id : String) (r x : AwsInstance) :
    refreshed pool sequence (some (refreshed pool sequence prior id r)) id x
      = refreshed pool sequence prior id x := by
  cases prior <;> rfl

theorem ingest_get (pool : List (String × Address)) (sequence : Int)
    (snapshot : List AwsInstance) (reg : List Instance) (id : String) :
    regGet (ingest pool sequence reg snapshot) id
      = if id = "" then regGet reg id
        else
          match lastRecord snapshot id with
          | some r => some (refreshed pool sequence (regGet reg id) id r)
          | none => regGet reg id := by
  induction snapshot generalizing reg with
  | nil => simp [ingest, lastRecord]
  | cons x rest ih =>
    have hstep : ingest pool sequence reg (x :: rest)
        = ingest pool sequence (ingestInstance pool sequence reg x) rest := rfl
    rw [hstep, ih, ingestInstance_get]
    by_cases hid : id = ""
    · simp [hid]
    · simp only [hid, if_false, ne_eq, not_false_eq_true, and_true]
      cases hl : lastRecord rest id with
      | some y =>
        simp only [lastRecord, hl]
        by_cases hx : StringValue x.instanceId = id
        · simp only [hx, if_true, refreshed_refreshed]
        · simp only [hx, if_false]
      | none =>
        simp only [lastRecord, hl]
        by_cases hx : StringValue x.instanceId = id
        · simp only [hx, if_true]
        · simp only [hx, if_false]

/-! ## Classification -/

theorem classify_ID (i : Instance) : (classify i).ID = i.ID := by
  unfold classify
  simp only
  split_ifs <;> rfl

theorem classify_sequence (i : Instance) : (classify i).sequence = i.sequence := by
  unfold classify
  simp only
  split_ifs <;> rfl

theorem classify_status (i : Instance) : (classify i).status = i.status := by
  unfold classify
  simp only
  split_ifs <;> rfl

theorem classify_poolNode (i : Instance) : (classify i).poolNode = i.poolNode := by
  unfold classify
  simp only
  split_ifs <;> rfl

theorem classify_elasticIPs (i : Instance) : (classify i).elasticIPs = i.elasticIPs := by
  unfold classify
  simp only
  split_ifs <;> rfl

theorem classify_goodness (i : Instance) :
    (classify i).goodness = if StringValue i.status.state.name = "running" then 1 else 0 := by
  unfold classify
  simp only
  split_ifs <;> simp_all

theorem classify_canHaveElasticIP (i : Instance) :
    (classify i).canHaveElasticIP =
      if StringValue i.status.state.name = "running" then true
      else if StringValue i.status.state.name ∈
          ["pending", "shutting-down", "terminated", "stopping", "stopped"] then false
      else i.canHaveElasticIP := by
  unfold classify
  simp only
  split_ifs <;> simp_all

/-! ## Loops -/

theorem foldl_inv {α β : Type} (f : β → α → β) (I : β → Prop) (l : List α)
    (hI : ∀ b, ∀ x ∈ l, I b → I (f b x)) : ∀ b, I b → I (l.foldl f b) := by
  induction l with
  | nil => intro b hb; exact hb
  | cons x l ih =>
    intro b hb
    exact ih (fun b y hy => hI b y (List.mem_cons_of_mem _ hy)) _
      (hI b x (List.mem_cons_self _ _) hb)

theorem foldl_reach {α β : Type} (f : β → α → β) (A : β → Prop) (trig : α → Prop)
    (l : List α) (hA : ∀ b, ∀ x ∈ l, trig x → A (f b x))
    (hmono : ∀ b, ∀ x ∈ l, A b → A (f b x)) :
    ∀ b, (∃ x ∈ l, trig x) → A (l.foldl f b) := by
  induction l with
  | nil => intro b h; simp at h
  | cons x l ih =>
    intro b h
    obtain ⟨y, hy, hty⟩ := h
    rcases List.mem_cons.1 hy with rfl | hy2
    · exact foldl_inv f A l (fun b z hz => hmono b z (List.mem_cons_of_mem _ hz)) _
        (hA b y (List.mem_cons_self _ _) hty)
    · exact ih (fun b z hz => hA b z (List.mem_cons_of_mem _ hz))
        (fun b z hz => hmono b z (List.mem_cons_of_mem _ hz)) _ ⟨y, hy2, hty⟩

/-! ## The call log -/

theorem pairedFrom_weaken (p : Option Event) (l : List Event) (h : pairedFrom none l) :
    pairedFrom p l := by
  cases l with
  | nil => trivial
  | cons e rest =>
    obtain ⟨h1, h2⟩ := h
    refine ⟨?_, h2⟩
    cases e with
    | describeAddress a r => trivial
    | associateAddress a b c d e => trivial
    | disassociateAddress id a assoc ok =>
      obtain ⟨address, hp, _⟩ := h1
      cases hp

theorem pairedFrom_append (p : Option Event) (l m : List Event) (hl : pairedFrom p l)
    (hm : pairedFrom none m) : pairedFrom p (l ++ m) := by
  induction l generalizing p with
  | nil => exact pairedFrom_weaken p m hm
  | cons e rest ih => exact ⟨hl.1, ih _ hl.2⟩

theorem pairedFrom_lookup (a : String) (result : AddressLookup) :
    pairedFrom none [Event.describeAddress a result] :=
  ⟨trivial, trivial⟩

theorem pairedFrom_request (id a : String) (address : Address) (ok : Bool) :
    pairedFrom none [Event.describeAddress a (.found address),
      Event.disassociateAddress id a (StringValue address.associationId) ok] :=
  ⟨trivial, ⟨address, rfl, rfl⟩, trivial⟩

theorem pairedFrom_associate (id a alloc : String) (ok : Bool) (reg : List Instance) :
    pairedFrom none [Event.associateAddress id a alloc ok reg] :=
  ⟨trivial, trivial⟩

theorem pairedFrom_split (p : Option Event) (log pre post : List Event)
    (id a associationID : String) (ok : Bool) (h : pairedFrom p log)
    (hsplit : log = pre ++ Event.disassociateAddress id a associationID ok :: post) :
    ∃ address, associationID = StringValue address.associationId ∧
      ((pre = [] ∧ p = some (Event.describeAddress a (.found address))) ∨
        ∃ pre2, pre = pre2 ++ [Event.describeAddress a (.found address)]) := by
  induction pre generalizing p log with
  | nil =>
    subst hsplit
    obtain ⟨address, hp, hassoc⟩ := h.1
    exact ⟨address, hassoc, Or.inl ⟨rfl, hp⟩⟩
  | cons e pre ih =>
    subst hsplit
    obtain ⟨address, h1, h2⟩ := ih (some e) _ h.2 rfl
    refine ⟨address, h1, Or.inr ?_⟩
    rcases h2 with ⟨h3, h4⟩ | ⟨pre2, h3⟩
    · cases h4
      exact ⟨[], by rw [h3]; rfl⟩
    · exact ⟨e :: pre2, by rw [h3]; rfl⟩

theorem pairedFrom_explicit (log pre post : List Event) (id a associationID : String)
    (ok : Bool) (h : pairedFrom none log)
    (hsplit : log = pre ++ Event.disassociateAddress id a associationID ok :: post) :
    ∃ pre2 address, pre = pre2 ++ [Event.describeAddress a (.found address)] ∧
      associationID = StringValue address.associationId := by
  obtain ⟨address, h1, h2⟩ := pairedFrom_split none log pre post id a associationID ok h hsplit
  rcases h2 with ⟨_, h3⟩ | ⟨pre2, h3⟩
  · cases h3
  · exact ⟨pre2, address, h3, h1⟩

/-! ## The detach loops -/

theorem detachInterface_skip (cloud : Cloud) (id a : String) (d : Detach)
    (ni : NetworkInterface) (h : d.panicked = true ∨ interfaceHas a ni = false) :
    detachInterface cloud id a d ni = d := by
  unfold detachInterface
  by_cases hp : d.panicked = true
  · simp [hp]
  · rcases h with h | h
    · exact absurd h hp
    · unfold interfaceHas at h
      cases hassoc : ni.association with
      | none => simp [hp]
      | some association =>
        simp only [hassoc, decide_eq_false_iff_not] at h
        simp [hp, h]

theorem detachInterface_failed (cloud : Cloud) (id a : String) (d : Detach)
    (ni : NetworkInterface) (hp : d.panicked = false) (hni : interfaceHas a ni = true)
    (hlook : DescribeAddress (cloud.describeAddresses d.log.length a) = .failed) :
    detachInterface cloud id a d ni
      = { d with log := d.log ++ [Event.describeAddress a .failed] } := by
  unfold detachInterface
  unfold interfaceHas at hni
  cases hassoc : ni.association with
  | none => simp [hassoc] at hni
  | some association =>
    simp only [hassoc, decide_eq_true_eq] at hni
    simp [hp, hni, hlook]

theorem detachInterface_absent (cloud : Cloud) (id a : String) (d : Detach)
    (ni : NetworkInterface) (hp : d.panicked = false) (hni : interfaceHas a ni = true)
    (hlook : DescribeAddress (cloud.describeAddresses d.log.length a) = .absent) :
    detachInterface cloud id a d ni
      = { d with log := d.log ++ [Event.describeAddress a .absent], panicked := true } := by
  unfold detachInterface
  unfold interfaceHas at hni
  cases hassoc : ni.association with
  | none => simp [hassoc] at hni
  | some association =>
    simp only [hassoc, decide_eq_true_eq] at hni
    simp [hp, hni, hlook]

theorem detachInterface_found (cloud : Cloud) (id a : String) (d : Detach)
    (ni : NetworkInterface) (address : Address) (hp : d.panicked = false)
    (hni : interfaceHas a ni = true)
    (hlook : DescribeAddress (cloud.describeAddresses d.log.length a) = .found address) :
    detachInterface cloud id a d ni
      = { elasticIPs :=
            if cloud.disassociateAddress (d.log.length + 1) id a
                (StringValue address.associationId) = true
            then setDelete d.elasticIPs a else d.elasticIPs
          log := d.log ++ [Event.describeAddress a (.found address),
            Event.disassociateAddress id a (StringValue address.associationId)
              (cloud.disassociateAddress (d.log.length + 1) id a
                (StringValue address.associationId))]
          panicked := false } := by
  unfold detachInterface
  unfold interfaceHas at hni
  cases hassoc : ni.association with
  | none => simp [hassoc] at hni
  | some association =>
    simp only [hassoc, decide_eq_true_eq] at hni
    simp only [hp, Bool.false_eq_true, if_false, hni, ne_eq, not_true_eq_false, hlook,
      List.length_append, List.length_singleton, List.append_assoc, List.singleton_append]
    split_ifs <;> rfl

theorem detachInterface_log_mono (cloud : Cloud) (id a : String) (d : Detach)
    (ni : NetworkInterface) (e : Event) (h : e ∈ d.log) :
    e ∈ (detachInterface cloud id a d ni).log := by
  by_cases hskip : d.panicked = true ∨ interfaceHas a ni = false
  · rw [detachInterface_skip _ _ _ _ _ hskip]
    exact h
  · simp only [not_or, Bool.not_eq_true, Bool.not_eq_false] at hskip
    obtain ⟨hp, hni⟩ := hskip
    cases hlook : DescribeAddress (cloud.describeAddresses d.log.length a) with
    | failed =>
      rw [detachInterface_failed _ _ _ _ _ hp hni hlook]
      simp [h]
    | absent =>
      rw [detachInterface_absent _ _ _ _ _ hp hni hlook]
      simp [h]
    | found address =>
      rw [detachInterface_found _ _ _ _ _ address hp hni hlook]
      simp [h]

theorem detachInterface_panicked_mono (cloud : Cloud) (id a : String) (d : Detach)
    (ni : NetworkInterface) (h : (detachInterface cloud id a d ni).panicked = false) :
    d.panicked = false := by
  by_cases hp : d.panicked = true
  · rw [detachInterface_skip _ _ _ _ _ (Or.inl hp)] at h
    exact h
  · simpa using hp

theorem detachInterface_inv (cloud : Cloud) (i : Instance) (L : List Event) (a : String)
    (ha : a ∈ i.elasticIPs) (d : Detach) (ni : NetworkInterface)
    (h : DetachInv cloud i L d) :
    DetachInv cloud i L (detachInterface cloud i.ID a d ni) := by
  by_cases hskip : d.panicked = true ∨ interfaceHas a ni = false
  · rw [detachInterface_skip _ _ _ _ _ hskip]
    exact h
  · simp only [not_or, Bool.not_eq_true, Bool.not_eq_false] at hskip
    obtain ⟨hp, hni⟩ := hskip
    have hpanic := h.panic
    rw [hp] at hpanic
    cases hlook : DescribeAddress (cloud.describeAddresses d.log.length a) with
    | failed =>
      rw [detachInterface_failed _ _ _ _ _ hp hni hlook]
      refine ⟨h.sub, ?_, ?_, ?_, ?_, ?_⟩
      · intro e he
        simp [h.grow e he]
      · intro e he
        simp only [List.mem_append, List.mem_singleton] at he
        rcases he with he | rfl
        · exact h.only e he
        · exact Or.inr ⟨ha, _, hlook.symm⟩
      · intro b hb
        simpa using h.removed b hb
      · simpa [hp] using hpanic
      · exact pairedFrom_append _ _ _ h.paired (pairedFrom_lookup _ _)
    | absent =>
      rw [detachInterface_absent _ _ _ _ _ hp hni hlook]
      refine ⟨h.sub, ?_, ?_, ?_, ?_, ?_⟩
      · intro e he
        simp [h.grow e he]
      · intro e he
        simp only [List.mem_append, List.mem_singleton] at he
        rcases he with he | rfl
        · exact h.only e he
        · exact Or.inr ⟨ha, _, hlook.symm⟩
      · intro b hb
        simpa using h.removed b hb
      · simp only [true_iff]
        exact ⟨a, by simp⟩
      · exact pairedFrom_append _ _ _ h.paired (pairedFrom_lookup _ _)
    | found address =>
      rw [detachInterface_found _ _ _ _ _ address hp hni hlook]
      refine ⟨?_, ?_, ?_, ?_, ?_, ?_⟩
      · intro b hb
        simp only at hb
        split_ifs at hb
        · exact h.sub b ((mem_setDelete _ _ _).1 hb).1
        · exact h.sub b hb
      · intro e he
        simp [h.grow e he]
      · intro e he
        simp only [List.mem_append, List.mem_cons, List.mem_singleton, List.mem_nil_iff,
          or_false] at he
        rcases he with he | rfl | rfl
        · exact h.only e he
        · exact Or.inr ⟨ha, _, hlook.symm⟩
        · exact Or.inr ⟨rfl, ha, _, rfl⟩
      · intro b hb
        have hrem := h.removed b hb
        cases hok : cloud.disassociateAddress (d.log.length + 1) i.ID a
            (StringValue address.associationId) with
        | true =>
          simp only [if_true, mem_setDelete, not_and_or, List.mem_append, List.mem_cons,
            List.mem_singleton, Event.disassociateAddress.injEq, true_and, and_true,
            reduceCtorEq, false_or, List.mem_nil_iff, or_false, ne_eq, not_not]
          rw [hrem]
          constructor
          · rintro (⟨x, hx⟩ | hba)
            · exact ⟨x, Or.inl hx⟩
            · exact ⟨_, Or.inr ⟨hba, rfl⟩⟩
          · rintro ⟨x, hx | ⟨hx, _⟩⟩
            · exact Or.inl ⟨x, hx⟩
            · exact Or.inr hx
        | false =>
          simpa using hrem
      · simpa [hp] using hpanic
      · exact pairedFrom_append _ _ _ h.paired (pairedFrom_request _ _ _ _)

theorem detachInterface_attempt (cloud : Cloud) (i : Instance) (a : String) (d : Detach)
    (ni : NetworkInterface) (hni : interfaceHas a ni = true)
    (h : (detachInterface cloud i.ID a d ni).panicked = false) :
    Attempted i a (detachInterface cloud i.ID a d ni).log := by
  have hp := detachInterface_panicked_mono _ _ _ _ _ h
  cases hlook : DescribeAddress (cloud.describeAddresses d.log.length a) with
  | failed =>
    rw [detachInterface_failed _ _ _ _ _ hp hni hlook]
    exact ⟨.failed, by simp, fun _ hc => by cases hc⟩
  | absent =>
    rw [detachInterface_absent _ _ _ _ _ hp hni hlook] at h
    simp at h
  | found address =>
    rw [detachInterface_found _ _ _ _ _ address hp hni hlook]
    refine ⟨.found address, by simp, ?_⟩
    intro address2 h2
    cases h2
    exact ⟨cloud.disassociateAddress (d.log.length + 1) i.ID a
      (StringValue address.associationId), by simp⟩

theorem detachAddress_inv (cloud : Cloud) (i : Instance) (L : List Event) (a : String)
    (ha : a ∈ i.elasticIPs) (d : Detach) (h : DetachInv cloud i L d) :
    DetachInv cloud i L (detachAddress cloud i d a) := by
  unfold detachAddress
  exact foldl_inv _ (DetachInv cloud i L) _
    (fun b ni _ hb => detachInterface_inv cloud i L a ha b ni hb) d h

theorem detachAddress_log_mono (cloud : Cloud) (i : Instance) (a : String) (d : Detach)
    (e : Event) (h : e ∈ d.log) : e ∈ (detachAddress cloud i d a).log := by
  unfold detachAddress
  exact foldl_inv _ (fun b => e ∈ b.log) _
    (fun b ni _ hb => detachInterface_log_mono cloud i.ID a b ni e hb) d h

theorem detachAddress_panicked_mono (cloud : Cloud) (i : Instance) (a : String) (d : Detach)
    (h : (detachAddress cloud i d a).panicked = false) : d.panicked = false := by
  unfold detachAddress at h
  exact foldl_inv _ (fun b => b.panicked = false → d.panicked = false) _
    (fun b ni _ hb hf => hb (detachInterface_panicked_mono cloud i.ID a b ni hf)) d id h

theorem Attempted_mono (i : Instance) (a : String) (log log2 : List Event)
    (hsub : ∀ e ∈ log, e ∈ log2) (h : Attempted i a log) : Attempted i a log2 := by
  obtain ⟨result, h1, h2⟩ := h
  refine ⟨result, hsub _ h1, ?_⟩
  intro address hr
  obtain ⟨ok, hok⟩ := h2 address hr
  exact ⟨ok, hsub _ hok⟩

theorem detachAddress_attempt (cloud : Cloud) (i : Instance) (a : String) (d : Detach)
    (hni : ∃ ni ∈ i.status.networkInterfaces, interfaceHas a ni = true)
    (h : (detachAddress cloud i d a).panicked = false) :
    Attempted i a (detachAddress cloud i d a).log := by
  unfold detachAddress at h ⊢
  exact foldl_reach (detachInterface cloud i.ID a)
    (fun b => b.panicked = false → Attempted i a b.log)
    (fun ni => interfaceHas a ni = true) _
    (fun b ni _ hni hf => detachInterface_attempt cloud i a b ni hni hf)
    (fun b ni _ hb hf =>
      Attempted_mono i a _ _ (fun e he => detachInterface_log_mono cloud i.ID a b ni e he)
        (hb (detachInterface_panicked_mono cloud i.ID a b ni hf)))
    d hni h

theorem detachAll_inv (cloud : Cloud) (ord : RangeOrder) (i : Instance) (L : List Event)
    (hL1 : ∀ a associationID ok, Event.disassociateAddress i.ID a associationID ok ∉ L)
    (hL2 : ∀ a, Event.describeAddress a .absent ∉ L) (hL3 : pairedFrom none L) :
    DetachInv cloud i L (detachAll cloud ord i L) := by
  unfold detachAll
  refine foldl_inv _ (DetachInv cloud i L) _ ?_ _ ?_
  · intro b a ha hb
    exact detachAddress_inv cloud i L a (((ord.perm _ _).mem_iff).1 ha) b hb
  · refine ⟨fun a ha => ha, fun e he => he, fun e he => Or.inl he, ?_, ?_, hL3⟩
    · intro a ha
      simp only [ha, not_true_eq_false, false_iff, not_exists]
      intro x
      exact hL1 a x true
    · simp only [Bool.false_eq_true, false_iff, not_exists]
      exact hL2

theorem detachAll_attempt (cloud : Cloud) (ord : RangeOrder) (i : Instance) (L : List Event)
    (a : String) (ha : a ∈ i.elasticIPs)
    (hni : ∃ ni ∈ i.status.networkInterfaces, interfaceHas a ni = true)
    (h : (detachAll cloud ord i L).panicked = false) :
    Attempted i a (detachAll cloud ord i L).log := by
  unfold detachAll at h ⊢
  exact foldl_reach (detachAddress cloud i)
    (fun b => b.panicked = false → Attempted i a b.log)
    (fun x => x = a) _
    (fun b x _ hx hf => by
      subst hx
      exact detachAddress_attempt cloud i x b hni hf)
    (fun b x _ hb hf =>
      Attempted_mono i a _ _ (fun e he => detachAddress_log_mono cloud i x b e he)
        (hb (detachAddress_panicked_mono cloud i x b hf)))
    _ ⟨a, ((ord.perm _ _).mem_iff).2 ha, rfl⟩ h

theorem DetachEvent_congr (cloud : Cloud) (i j : Instance) (e : Event) (hid : i.ID = j.ID)
    (hips : i.elasticIPs = j.elasticIPs) (h : DetachEvent cloud i e) : DetachEvent cloud j e := by
  cases e with
  | describeAddress a r =>
    simp only [DetachEvent] at h ⊢
    rw [← hips]
    exact h
  | disassociateAddress id a assoc ok =>
    simp only [DetachEvent] at h ⊢
    rw [← hips, ← hid]
    exact h
  | associateAddress a b c d e => exact h

theorem detachIfIneligible_eligible (cloud : Cloud) (ord : RangeOrder) (i : Instance)
    (L : List Event) (h : i.eligible = true ∨ i.elasticIPs = []) :
    detachIfIneligible cloud ord i L = { elasticIPs := i.elasticIPs, log := L, panicked := false } := by
  unfold detachIfIneligible
  unfold Instance.eligible at h
  rcases h with h | h
  · simp [h]
  · simp [h]

theorem detachIfIneligible_inv (cloud : Cloud) (ord : RangeOrder) (i : Instance)
    (L : List Event)
    (hL1 : ∀ a associationID ok, Event.disassociateAddress i.ID a associationID ok ∉ L)
    (hL2 : ∀ a, Event.describeAddress a .absent ∉ L) (hL3 : pairedFrom none L) :
    DetachInv cloud i L (detachIfIneligible cloud ord i L) := by
  unfold detachIfIneligible
  simp only
  split_ifs with h
  · exact detachAll_inv cloud ord i L hL1 hL2 hL3
  · refine ⟨fun a ha => ha, fun e he => he, fun e he => Or.inl he, ?_, ?_, hL3⟩
    · intro a ha
      simp only [ha, not_true_eq_false, false_iff, not_exists]
      intro x
      exact hL1 a x true
    · simp only [Bool.false_eq_true, false_iff, not_exists]
      exact hL2

theorem detachIfIneligible_attempt (cloud : Cloud) (ord : RangeOrder) (i : Instance)
    (L : List Event) (a : String) (helig : i.eligible = false) (ha : a ∈ i.elasticIPs)
    (hni : ∃ ni ∈ i.status.networkInterfaces, interfaceHas a ni = true)
    (h : (detachIfIneligible cloud ord i L).panicked = false) :
    Attempted i a (detachIfIneligible cloud ord i L).log := by
  unfold detachIfIneligible at h ⊢
  unfold Instance.eligible at helig
  have hne : i.elasticIPs.length ≠ 0 := by
    intro h0
    rw [List.length_eq_zero] at h0
    rw [h0] at ha
    cases ha
  simp only [helig, Bool.not_false, Bool.true_and, ne_eq, hne, not_false_eq_true, decide_True,
    if_true] at h ⊢
  exact detachAll_attempt cloud ord i L a ha hni h

theorem recordHolder_keys (ord : RangeOrder) (i : Instance) (m : List (String × String))
    (a : String) : a ∈ mapKeys (recordHolder ord i m) ↔ a ∈ mapKeys m ∨ a ∈ i.elasticIPs := by
  unfold recordHolder
  rw [← (ord.perm (.holder i.ID) i.elasticIPs).mem_iff]
  generalize ord.order (.holder i.ID) i.elasticIPs = l
  induction l generalizing m with
  | nil => simp
  | cons x l ih =>
    simp only [List.foldl_cons, ih, mapKeys_mapSet, List.mem_cons]
    tauto

theorem mem_regSet_iff {reg : List Instance} (hn : (regKeys reg).Nodup) (i j : Instance) :
    j ∈ regSet reg i ↔ j = i ∨ (j ∈ reg ∧ j.ID ≠ i.ID) := by
  rw [mem_iff_regGet (regKeys_regSet_nodup reg i hn), regGet_regSet, mem_iff_regGet hn]
  by_cases h : i.ID = j.ID
  · simp only [h, if_true, Option.some.injEq, ne_eq, not_true_eq_false, and_false, or_false]
    exact eq_comm
  · have h2 : ¬ j.ID = i.ID := fun hc => h hc.symm
    simp only [h, if_false, ne_eq, h2, not_false_eq_true, and_true]
    constructor
    · exact Or.inr
    · rintro (rfl | h3)
      · exact absurd rfl h
      · exact h3

theorem mem_regDelete_iff (reg : List Instance) (id : String) (j : Instance) :
    j ∈ regDelete reg id ↔ j ∈ reg ∧ j.ID ≠ id := by
  simp [regDelete]

theorem sweepInstance_skip (cloud : Cloud) (ord : RangeOrder) (sequence : Int) (s : Pass)
    (id : String) (h : s.panicked = true ∨ regGet s.instances id = none) :
    sweepInstance cloud ord sequence s id = s := by
  unfold sweepInstance
  by_cases hp : s.panicked = true
  · simp [hp]
  · rcases h with h | h
    · exact absurd h hp
    · simp [hp, h]

theorem sweepInstance_stale (cloud : Cloud) (ord : RangeOrder) (sequence : Int) (s : Pass)
    (id : String) (i : Instance) (hp : s.panicked = false) (hg : regGet s.instances id = some i)
    (hs : i.sequence ≠ sequence) :
    sweepInstance cloud ord sequence s id = { s with instances := regDelete s.instances id } := by
  unfold sweepInstance
  simp [hp, hg, hs]

theorem sweepInstance_fresh (cloud : Cloud) (ord : RangeOrder) (sequence : Int) (s : Pass)
    (id : String) (i : Instance) (hp : s.panicked = false) (hg : regGet s.instances id = some i)
    (hs : i.sequence = sequence) :
    sweepInstance cloud ord sequence s id =
      { instances := regSet s.instances
          { classify i with
            elasticIPs := (detachIfIneligible cloud ord (classify i) s.log).elasticIPs }
        log := (detachIfIneligible cloud ord (classify i) s.log).log
        panicked := (detachIfIneligible cloud ord (classify i) s.log).panicked
        addressMap :=
          if (detachIfIneligible cloud ord (classify i) s.log).panicked = true then s.addressMap
          else recordHolder ord
            { classify i with
              elasticIPs := (detachIfIneligible cloud ord (classify i) s.log).elasticIPs }
            s.addressMap } := by
  unfold sweepInstance
  simp only [hp, Bool.false_eq_true, if_false, hg, hs, ne_eq, not_true_eq_false]
  split_ifs with h
  · simp [h]
  · simp [h]

/-! ## The loop over the registry -/

theorem sweepInstance_inv_skip (cloud : Cloud) (sequence : Int) (reg0 : List Instance)
    (id : String) (todo : List String) (s : Pass)
    (hskip : s.panicked = true ∨ regGet s.instances id = none)
    (h : SweepInv cloud sequence reg0 (id :: todo) s) :
    SweepInv cloud sequence reg0 todo s := by
  have hne : s.panicked = false → ∀ j ∈ s.instances, j.ID ≠ id := by
    intro hp j hj hc
    rcases hskip with h1 | h1
    · rw [hp] at h1
      cases h1
    · rw [regGet_eq_none] at h1
      exact h1 (hc ▸ List.mem_map_of_mem (fun i => i.ID) hj)
  have hnone : s.panicked = false → regGet s.instances id = none := by
    intro hp
    rcases hskip with h1 | h1
    · rw [hp] at h1
      cases h1
    · exact h1
  have hweak : ∀ k, k ≠ id → k ∉ todo → k ∉ id :: todo := by
    intro k h1 h2 hc
    rcases List.mem_cons.1 hc with h3 | h3
    · exact h1 h3
    · exact h2 h3
  refine ⟨h.keys, fun k hk => h.untouched k (List.mem_cons_of_mem _ hk), h.absent, ?_, ?_, ?_,
    h.panic, h.paired, ?_⟩
  · intro hp k j hk hg hst
    by_cases hkid : k = id
    · rw [hkid]
      exact hnone hp
    · exact h.stale hp k j (hweak k hkid hk) hg hst
  · intro hp k j hk hg hfresh
    by_cases hkid : k = id
    · have h1 := h.untouched id (List.mem_cons_self _ _)
      rw [hnone hp, ← hkid, hg] at h1
      cases h1
    · exact h.settled hp k j (hweak k hkid hk) hg hfresh
  · intro e he
    obtain ⟨j, h1, h2, h3⟩ := h.only e he
    exact ⟨j, h1, fun hc => h2 (List.mem_cons_of_mem _ hc), h3⟩
  · intro hp a
    rw [h.holders hp a]
    constructor
    · rintro ⟨j, h1, h2, h3⟩
      exact ⟨j, h1, fun hc => h2 (List.mem_cons_of_mem _ hc), h3⟩
    · rintro ⟨j, h1, h2, h3⟩
      exact ⟨j, h1, hweak _ (hne hp j h1) h2, h3⟩

theorem sweepInstance_inv_stale (cloud : Cloud) (sequence : Int) (reg0 : List Instance)
    (id : String) (todo : List String) (s : Pass) (i : Instance) (hid : id ∉ todo)
    (hg : regGet s.instances id = some i)
    (hs : i.sequence ≠ sequence) (h : SweepInv cloud sequence reg0 (id :: todo) s) :
    SweepInv cloud sequence reg0 todo { s with instances := regDelete s.instances id } := by
  have hg0 : regGet reg0 id = some i := by
    rw [← h.untouched id (List.mem_cons_self _ _)]
    exact hg
  have hweak : ∀ k, k ≠ id → k ∉ todo → k ∉ id :: todo := by
    intro k h1 h2 hc
    rcases List.mem_cons.1 hc with h3 | h3
    · exact h1 h3
    · exact h2 h3
  refine ⟨regKeys_regDelete_nodup _ _ h.keys, ?_, ?_, ?_, ?_, ?_, h.panic, h.paired, ?_⟩
  · intro k hk
    have hkid : k ≠ id := fun hc => hid (hc ▸ hk)
    simp only [regGet_regDelete, hkid, if_false]
    exact h.untouched k (List.mem_cons_of_mem _ hk)
  · intro k hk
    simp only [regGet_regDelete]
    split_ifs
    · rfl
    · exact h.absent k hk
  · intro hp k j hk hgk hst
    simp only [regGet_regDelete]
    split_ifs with hkid
    · rfl
    · exact h.stale hp k j (hweak k hkid hk) hgk hst
  · intro hp k j hk hgk hfresh
    by_cases hkid : k = id
    · rw [hkid, hg0] at hgk
      cases hgk
      exact absurd hfresh hs
    · simp only [regGet_regDelete, hkid, if_false]
      exact h.settled hp k j (hweak k hkid hk) hgk hfresh
  · intro e he
    obtain ⟨j, h1, h2, h3⟩ := h.only e he
    exact ⟨j, h1, fun hc => h2 (List.mem_cons_of_mem _ hc), h3⟩
  · intro hp a
    rw [h.holders hp a]
    constructor
    · rintro ⟨j, h1, h2, h3⟩
      refine ⟨j, (mem_regDelete_iff _ _ _).2 ⟨h1, ?_⟩, fun hc => h2 (List.mem_cons_of_mem _ hc), h3⟩
      intro hc
      exact h2 (hc ▸ List.mem_cons_self _ _)
    · rintro ⟨j, h1, h2, h3⟩
      obtain ⟨h4, h5⟩ := (mem_regDelete_iff _ _ _).1 h1
      exact ⟨j, h4, hweak _ h5 h2, h3⟩

theorem Attempted_classify (i : Instance) (a : String) (log : List Event) :
    Attempted (classify i) a log ↔ Attempted i a log := by
  unfold Attempted
  rw [classify_ID]

theorem sweepInstance_inv_fresh (cloud : Cloud) (sequence : Int) (reg0 : List Instance)
    (id : String) (todo : List String) (s : Pass) (i : Instance) (d : Detach)
    (amap : List (String × String)) (hid : id ∉ todo)
    (hp : s.panicked = false) (hg : regGet s.instances id = some i)
    (hs : i.sequence = sequence) (h : SweepInv cloud sequence reg0 (id :: todo) s)
    (hd : DetachInv cloud (classify i) s.log d)
    (helig : (classify i).eligible = true →
      d = { elasticIPs := (classify i).elasticIPs, log := s.log, panicked := false })
    (hatt : (classify i).eligible = false → d.panicked = false →
      ∀ a ∈ (classify i).elasticIPs,
        (∃ ni ∈ (classify i).status.networkInterfaces, interfaceHas a ni = true) →
        Attempted (classify i) a d.log)
    (hamap : d.panicked = false →
      ∀ a, a ∈ mapKeys amap ↔ a ∈ mapKeys s.addressMap ∨ a ∈ d.elasticIPs) :
    SweepInv cloud sequence reg0 todo
      { instances := regSet s.instances { classify i with elasticIPs := d.elasticIPs }
        log := d.log
        panicked := d.panicked
        addressMap := amap } := by
  have hg0 : regGet reg0 id = some i := by
    rw [← h.untouched id (List.mem_cons_self _ _)]
    exact hg
  have hiid : i.ID = id := regGet_id hg
  have hcid : (classify i).ID = id := by rw [classify_ID, hiid]
  have hweak : ∀ k, k ≠ id → k ∉ todo → k ∉ id :: todo := by
    intro k h1 h2 hc
    rcases List.mem_cons.1 hc with h3 | h3
    · exact h1 h3
    · exact h2 h3
  have hget : ∀ k, k ≠ id →
      regGet (regSet s.instances { classify i with elasticIPs := d.elasticIPs }) k
        = regGet s.instances k := by
    intro k hk
    rw [regGet_regSet]
    have : ¬ (classify i).ID = k := fun hc => hk (hc ▸ hcid.symm ▸ rfl)
    simp only [this, if_false]
  refine ⟨regKeys_regSet_nodup _ _ h.keys, ?_, ?_, ?_, ?_, ?_, hd.panic, hd.paired, ?_⟩
  · intro k hk
    have hkid : k ≠ id := fun hc => hid (hc ▸ hk)
    rw [hget k hkid]
    exact h.untouched k (List.mem_cons_of_mem _ hk)
  · intro k hk
    have hkid : k ≠ id := by
      intro hc
      rw [hc, hg0] at hk
      cases hk
    rw [hget k hkid]
    exact h.absent k hk
  · intro _ k j hk hgk hst
    have hkid : k ≠ id := by
      intro hc
      rw [hc, hg0] at hgk
      cases hgk
      exact hst hs
    rw [hget k hkid]
    exact h.stale hp k j (hweak k hkid hk) hgk hst
  · intro hp2 k j hk hgk hfresh
    simp only at hp2
    by_cases hkid : k = id
    · rw [hkid, hg0] at hgk
      cases hgk
      refine ⟨{ classify i with elasticIPs := d.elasticIPs }, ?_, ?_⟩
      · rw [hkid, regGet_regSet]
        simp only [hcid, if_true]
      · refine ⟨rfl, ?_, ?_, ?_, ?_⟩
        · intro a ha
          have := hd.sub a ha
          rwa [classify_elasticIPs] at this
        · intro he
          rw [helig he, classify_elasticIPs]
        · intro a ha
          have := hd.removed a (by rwa [classify_elasticIPs])
          rwa [classify_ID] at this
        · intro he a ha hni
          rw [← Attempted_classify]
          exact hatt he hp2 a (by rwa [classify_elasticIPs]) (by rwa [classify_status])
    · obtain ⟨j2, hj2, hset⟩ := h.settled hp k j (hweak k hkid hk) hgk hfresh
      refine ⟨j2, by rw [hget k hkid]; exact hj2, hset.same, hset.sub, hset.keep, ?_, ?_⟩
      · intro a ha
        rw [hset.removed a ha]
        constructor
        · rintro ⟨x, hx⟩
          exact ⟨x, hd.grow _ hx⟩
        · rintro ⟨x, hx⟩
          rcases hd.only _ hx with h1 | h1
          · exact ⟨x, h1⟩
          · simp only [DetachEvent] at h1
            exact absurd (h1.1.trans hcid) (by rw [regGet_id hgk]; exact hkid)
      · intro he a ha hni
        exact Attempted_mono j a _ _ hd.grow (hset.attempted he a ha hni)
  · intro e he
    have hold : e ∈ s.log → ∃ j, j ∈ reg0 ∧ j.ID ∉ todo ∧ j.sequence = sequence ∧
        (classify j).eligible = false ∧ DetachEvent cloud j e := by
      intro he2
      obtain ⟨j, h1, h2, h3⟩ := h.only e he2
      exact ⟨j, h1, fun hc => h2 (List.mem_cons_of_mem _ hc), h3⟩
    cases hel : (classify i).eligible with
    | true =>
      rw [helig hel] at he
      exact hold he
    | false =>
      rcases hd.only e he with h1 | h1
      · exact hold h1
      · exact ⟨i, regGet_mem hg0, by rw [hiid]; exact hid, hs, hel,
          DetachEvent_congr cloud _ _ e (classify_ID i) (classify_elasticIPs i) h1⟩
  · intro hp2 a
    simp only at hp2
    rw [hamap hp2 a, h.holders hp a]
    constructor
    · rintro (⟨j, h1, h2, h3⟩ | h1)
      · have hjid : j.ID ≠ id := fun hc => h2 (hc ▸ List.mem_cons_self _ _)
        refine ⟨j, (mem_regSet_iff h.keys _ _).2 (Or.inr ⟨h1, ?_⟩),
          fun hc => h2 (List.mem_cons_of_mem _ hc), h3⟩
        simpa [hcid] using hjid
      · refine ⟨{ classify i with elasticIPs := d.elasticIPs },
          (mem_regSet_iff h.keys _ _).2 (Or.inl rfl), ?_, h1⟩
        simpa [hcid] using hid
    · rintro ⟨j, h1, h2, h3⟩
      rcases (mem_regSet_iff h.keys _ _).1 h1 with h4 | ⟨h4, h5⟩
      · rw [h4] at h3
        exact Or.inr h3
      · refine Or.inl ⟨j, h4, hweak _ ?_ h2, h3⟩
        simpa [hcid] using h5

theorem sweepInstance_inv (cloud : Cloud) (ord : RangeOrder) (sequence : Int)
    (reg0 : List Instance) (id : String) (todo : List String) (s : Pass) (hid : id ∉ todo)
    (h : SweepInv cloud sequence reg0 (id :: todo) s) :
    SweepInv cloud sequence reg0 todo (sweepInstance cloud ord sequence s id) := by
  by_cases hskip : s.panicked = true ∨ regGet s.instances id = none
  · rw [sweepInstance_skip _ _ _ _ _ hskip]
    exact sweepInstance_inv_skip cloud sequence reg0 id todo s hskip h
  · simp only [not_or, Bool.not_eq_true] at hskip
    obtain ⟨hp, hsome⟩ := hskip
    obtain ⟨i, hg⟩ := Option.ne_none_iff_exists'.1 hsome
    by_cases hs : i.sequence = sequence
    · rw [sweepInstance_fresh _ _ _ _ _ i hp hg hs]
      have hcid : (classify i).ID = id := by rw [classify_ID, regGet_id hg]
      have hL1 : ∀ a associationID ok,
          Event.disassociateAddress (classify i).ID a associationID ok ∉ s.log := by
        intro a x ok hc
        obtain ⟨j, _, h2, _, _, h5⟩ := h.only _ hc
        simp only [DetachEvent] at h5
        exact h2 (h5.1 ▸ hcid ▸ List.mem_cons_self _ _)
      have hL2 : ∀ a, Event.describeAddress a .absent ∉ s.log := by
        intro a hc
        have := h.panic.2 ⟨a, hc⟩
        rw [hp] at this
        cases this
      refine sweepInstance_inv_fresh cloud sequence reg0 id todo s i _ _ hid hp hg hs h
        (detachIfIneligible_inv cloud ord (classify i) s.log hL1 hL2 h.paired) ?_ ?_ ?_
      · intro he
        exact detachIfIneligible_eligible cloud ord _ _ (Or.inl he)
      · intro he hpd a ha hni
        exact detachIfIneligible_attempt cloud ord _ _ a he ha hni hpd
      · intro hpd a
        simp only [hpd, Bool.false_eq_true, if_false]
        rw [recordHolder_keys]
    · rw [sweepInstance_stale _ _ _ _ _ i hp hg hs]
      exact sweepInstance_inv_stale cloud sequence reg0 id todo s i hid hg hs h

theorem sweep_fold_inv (cloud : Cloud) (ord : RangeOrder) (sequence : Int)
    (reg0 : List Instance) (todo : List String) (s : Pass) (hn : todo.Nodup)
    (h : SweepInv cloud sequence reg0 todo s) :
    SweepInv cloud sequence reg0 [] (todo.foldl (sweepInstance cloud ord sequence) s) := by
  induction todo generalizing s with
  | nil => exact h
  | cons id todo ih =>
    rw [List.nodup_cons] at hn
    exact ih _ hn.2 (sweepInstance_inv cloud ord sequence reg0 id todo s hn.1 h)

theorem sweep_inv (cloud : Cloud) (ord : RangeOrder) (sequence : Int) (reg0 : List Instance)
    (hn : (regKeys reg0).Nodup) :
    SweepInv cloud sequence reg0 [] (sweep cloud ord sequence reg0) := by
  unfold sweep
  have hperm := ord.perm .registry (regKeys reg0)
  have hin : ∀ id j, regGet reg0 id = some j → id ∈ ord.order .registry (regKeys reg0) := by
    intro id j hj
    rw [hperm.mem_iff]
    by_contra hc
    rw [(regGet_eq_none reg0 id).2 hc] at hj
    cases hj
  refine sweep_fold_inv cloud ord sequence reg0 _ _ (hperm.nodup_iff.2 hn) ?_
  refine ⟨hn, fun _ _ => rfl, fun _ h => h, ?_, ?_, ?_, ?_, trivial, ?_⟩
  · intro _ id j hid hj _
    exact absurd (hin id j hj) hid
  · intro _ id j hid hj _
    exact absurd (hin id j hj) hid
  · intro e he
    cases he
  · simp
  · intro _ a
    simp only [mapKeys, List.map_nil, List.not_mem_nil, false_iff, not_exists, not_and]
    intro j hj hnot
    exact absurd (hin j.ID j (regGet_of_mem hn hj)) hnot

/-! ## Picking an instance -/

theorem better_eq (chosen : Option Instance) (i : Instance) :
    better chosen i =
      if i.candidate = true then
        match chosen with
        | none => some i
        | some best => if i.goodness > best.goodness then some i else some best
      else chosen := by
  unfold better Instance.candidate
  cases h1 : i.poolNode <;> cases h2 : i.canHaveElasticIP <;> cases h3 : i.elasticIPs <;> simp

theorem better_some (chosen : Option Instance) (i c : Instance) (h : better chosen i = some c) :
    (chosen = some c ∨ (c = i ∧ i.candidate = true)) ∧
    (∀ b, chosen = some b → b.goodness ≤ c.goodness) ∧
    (i.candidate = true → i.goodness ≤ c.goodness) := by
  rw [better_eq] at h
  by_cases hc : i.candidate = true
  · simp only [hc, if_true] at h
    cases chosen with
    | none =>
      simp only [Option.some.injEq] at h
      subst h
      exact ⟨Or.inr ⟨rfl, hc⟩, (fun b hb => by cases hb), fun _ => le_refl _⟩
    | some best =>
      simp only at h
      split_ifs at h with hg
      · simp only [Option.some.injEq] at h
        subst h
        refine ⟨Or.inr ⟨rfl, hc⟩, ?_, fun _ => le_refl _⟩
        intro b hb
        cases hb
        exact le_of_lt hg
      · simp only [Option.some.injEq] at h
        subst h
        refine ⟨Or.inl rfl, ?_, fun _ => not_lt.1 hg⟩
        intro b hb
        cases hb
        exact le_refl _
  · rw [if_neg hc] at h
    refine ⟨Or.inl h, ?_, fun h2 => absurd h2 hc⟩
    intro b hb
    rw [h] at hb
    cases hb
    exact le_refl _

theorem better_none (chosen : Option Instance) (i : Instance) (h : better chosen i = none) :
    chosen = none ∧ i.candidate = false := by
  rw [better_eq] at h
  by_cases hc : i.candidate = true
  · simp only [hc, if_true] at h
    cases chosen with
    | none => cases h
    | some best =>
      simp only at h
      split_ifs at h
  · rw [if_neg hc] at h
    exact ⟨h, by simpa using hc⟩

theorem pick_fold_some (reg : List Instance) (l : List String) (ch : Option Instance)
    (c : Instance)
    (h : l.foldl (fun chosen id =>
        match regGet reg id with
        | none => chosen
        | some i => better chosen i) ch = some c) :
    (ch = some c ∨ (c ∈ reg ∧ c.candidate = true)) ∧
    (∀ b, ch = some b → b.goodness ≤ c.goodness) ∧
    (∀ id ∈ l, ∀ j, regGet reg id = some j → j.candidate = true → j.goodness ≤ c.goodness) := by
  induction l generalizing ch with
  | nil =>
    simp only [List.foldl_nil] at h
    refine ⟨Or.inl h, ?_, fun _ hid => by cases hid⟩
    intro b hb
    rw [h] at hb
    cases hb
    exact le_refl _
  | cons x l ih =>
    simp only [List.foldl_cons] at h
    obtain ⟨h1, h2, h3⟩ := ih _ h
    cases hg : regGet reg x with
    | none =>
      simp only [hg] at h1 h2
      refine ⟨h1, h2, ?_⟩
      intro id hid j hj hc
      rcases List.mem_cons.1 hid with rfl | hid2
      · rw [hg] at hj
        cases hj
      · exact h3 id hid2 j hj hc
    | some i =>
      simp only [hg] at h1 h2
      refine ⟨?_, ?_, ?_⟩
      · rcases h1 with h1 | h1
        · rcases (better_some ch i c h1).1 with h4 | ⟨h4, h5⟩
          · exact Or.inl h4
          · exact Or.inr ⟨h4 ▸ regGet_mem hg, h4 ▸ h5⟩
        · exact Or.inr h1
      · intro b hb
        cases hbt : better ch i with
        | none =>
          have := (better_none ch i hbt).1
          rw [this] at hb
          cases hb
        | some m =>
          exact le_trans ((better_some ch i m hbt).2.1 b hb) (h2 m hbt)
      · intro id hid j hj hc
        rcases List.mem_cons.1 hid with rfl | hid2
        · rw [hg] at hj
          cases hj
          cases hbt : better ch i with
          | none =>
            have := (better_none ch i hbt).2
            rw [hc] at this
            cases this
          | some m =>
            exact le_trans ((better_some ch i m hbt).2.2 hc) (h2 m hbt)
        · exact h3 id hid2 j hj hc

theorem pick_fold_none (reg : List Instance) (l : List String) (ch : Option Instance)
    (h : l.foldl (fun chosen id =>
        match regGet reg id with
        | none => chosen
        | some i => better chosen i) ch = none) :
    ch = none ∧ ∀ id ∈ l, ∀ j, regGet reg id = some j → j.candidate = false := by
  induction l generalizing ch with
  | nil =>
    simp only [List.foldl_nil] at h
    exact ⟨h, fun _ hid => by cases hid⟩
  | cons x l ih =>
    simp only [List.foldl_cons] at h
    obtain ⟨h1, h2⟩ := ih _ h
    cases hg : regGet reg x with
    | none =>
      simp only [hg] at h1
      refine ⟨h1, ?_⟩
      intro id hid j hj
      rcases List.mem_cons.1 hid with rfl | hid2
      · rw [hg] at hj
        cases hj
      · exact h2 id hid2 j hj
    | some i =>
      simp only [hg] at h1
      refine ⟨(better_none ch i h1).1, ?_⟩
      intro id hid j hj
      rcases List.mem_cons.1 hid with rfl | hid2
      · rw [hg] at hj
        cases hj
        exact (better_none ch i h1).2
      · exact h2 id hid2 j hj

theorem pick_some (ord : RangeOrder) (eip : String) (reg : List Instance)
    (hn : (regKeys reg).Nodup) (c : Instance) (h : pick ord eip reg = some c) :
    c ∈ reg ∧ c.candidate = true ∧ ∀ j ∈ reg, j.candidate = true → j.goodness ≤ c.goodness := by
  unfold pick at h
  obtain ⟨h1, _, h3⟩ := pick_fold_some reg _ none c h
  rcases h1 with h1 | h1
  · cases h1
  · refine ⟨h1.1, h1.2, ?_⟩
    intro j hj hc
    refine h3 j.ID ?_ j (regGet_of_mem hn hj) hc
    rw [(ord.perm _ _).mem_iff]
    exact List.mem_map_of_mem (fun i => i.ID) hj

theorem pick_none (ord : RangeOrder) (eip : String) (reg : List Instance)
    (hn : (regKeys reg).Nodup) (h : pick ord eip reg = none) :
    ∀ j ∈ reg, j.candidate = false := by
  unfold pick at h
  obtain ⟨_, h2⟩ := pick_fold_none reg _ none h
  intro j hj
  refine h2 j.ID ?_ j (regGet_of_mem hn hj)
  rw [(ord.perm _ _).mem_iff]
  exact List.mem_map_of_mem (fun i => i.ID) hj

theorem pick_eq_none (ord : RangeOrder) (eip : String) (reg : List Instance)
    (h : ∀ j ∈ reg, j.candidate = false) : pick ord eip reg = none := by
  cases hp : pick ord eip reg with
  | none => rfl
  | some c =>
    unfold pick at hp
    obtain ⟨h1, _, _⟩ := pick_fold_some reg _ none c hp
    rcases h1 with h1 | h1
    · cases h1
    · rw [h c h1.1] at h1
      cases h1.2

/-! ## The loop over the pool -/

theorem assignAddress_skip (cloud : Cloud) (ord : RangeOrder) (pool : List (String × Address))
    (s : Pass) (eip : String)
    (h : mapGet pool eip = none ∨ (mapGet s.addressMap eip).isSome = true ∨
      pick ord eip s.instances = none) :
    assignAddress cloud ord pool s eip = s := by
  unfold assignAddress
  cases hg : mapGet pool eip with
  | none => rfl
  | some address =>
    simp only
    by_cases hm : (mapGet s.addressMap eip).isSome = true
    · simp [hm]
    · rcases h with h | h | h
      · rw [hg] at h
        cases h
      · exact absurd h hm
      · simp [hm, h]

theorem assignAddress_call (cloud : Cloud) (ord : RangeOrder) (pool : List (String × Address))
    (s : Pass) (eip : String) (address : Address) (chosen : Instance)
    (hg : mapGet pool eip = some address) (hm : (mapGet s.addressMap eip).isSome = false)
    (hpick : pick ord eip s.instances = some chosen) :
    assignAddress cloud ord pool s eip =
      { s with
        log := s.log ++ [Event.associateAddress chosen.ID eip
          (StringValue address.allocationId)
          (cloud.associateAddress s.log.length chosen.ID eip (StringValue address.allocationId))
          s.instances]
        instances :=
          if cloud.associateAddress s.log.length chosen.ID eip
              (StringValue address.allocationId) = true
          then regSet s.instances { chosen with elasticIPs := setInsert chosen.elasticIPs eip }
          else s.instances } := by
  unfold assignAddress
  simp only [hg, hm, Bool.false_eq_true, if_false, hpick]
  split_ifs <;> rfl

theorem same_iff (j0 j : Instance) (ips : List String) :
    j = { j0 with elasticIPs := ips } ↔
      j.ID = j0.ID ∧ j.sequence = j0.sequence ∧ j.status = j0.status ∧
      j.poolNode = j0.poolNode ∧ j.canHaveElasticIP = j0.canHaveElasticIP ∧
      j.goodness = j0.goodness ∧ j.elasticIPs = ips := by
  cases j
  cases j0
  simp

theorem Grown_weaken {pool : List (String × Address)} {amap : List (String × String)}
    {e : String} {todo : List String} {j0 j : Instance} (h : Grown pool amap (e :: todo) j0 j) :
    Grown pool amap todo j0 j := by
  refine ⟨h.same, h.sub, h.fixed, ?_⟩
  intro a ha hna
  obtain ⟨h1, h2, h3, h4⟩ := h.given a ha hna
  exact ⟨h1, fun hc => h2 (List.mem_cons_of_mem _ hc), h3, h4⟩

theorem AssignInv_weaken {cloud : Cloud} {pool : List (String × Address)} {s0 s : Pass}
    {e : String} {todo : List String} (h : AssignInv cloud pool s0 (e :: todo) s) :
    AssignInv cloud pool s0 todo s := by
  refine ⟨h.keys, h.amap, h.panicked, h.gone, ?_, h.grow, h.only, h.paired, h.unique⟩
  intro id j0 hj0
  obtain ⟨j, h1, h2⟩ := h.grown id j0 hj0
  exact ⟨j, h1, Grown_weaken h2⟩

theorem AssignInv_origin {cloud : Cloud} {pool : List (String × Address)} {s0 s : Pass}
    {todo : List String} (h : AssignInv cloud pool s0 todo s) (j : Instance)
    (hj : j ∈ s.instances) :
    ∃ j0, regGet s0.instances j.ID = some j0 ∧ Grown pool s0.addressMap todo j0 j := by
  have hg := regGet_of_mem h.keys hj
  cases h0 : regGet s0.instances j.ID with
  | none =>
    rw [h.gone _ h0] at hg
    cases hg
  | some j0 =>
    obtain ⟨j2, h1, h2⟩ := h.grown _ j0 h0
    rw [hg] at h1
    cases h1
    exact ⟨j0, rfl, h2⟩

theorem AssignInv_unheld {cloud : Cloud} {pool : List (String × Address)} {s0 s : Pass}
    {todo : List String} (h : AssignInv cloud pool s0 todo s)
    (hhold : ∀ a, a ∈ mapKeys s0.addressMap ↔ ∃ j ∈ s0.instances, a ∈ j.elasticIPs)
    (a : String) (ha : a ∈ todo) (hm : a ∉ mapKeys s0.addressMap) :
    ∀ j ∈ s.instances, a ∉ j.elasticIPs := by
  intro j hj hc
  obtain ⟨j0, h0, hG⟩ := AssignInv_origin h j hj
  by_cases h1 : a ∈ j0.elasticIPs
  · exact hm ((hhold a).2 ⟨j0, regGet_mem h0, h1⟩)
  · exact (hG.given a hc h1).2.1 ha

theorem assignAddress_inv (cloud : Cloud) (ord : RangeOrder) (pool : List (String × Address))
    (s0 : Pass) (e : String) (todo : List String) (s : Pass)
    (hhold : ∀ a, a ∈ mapKeys s0.addressMap ↔ ∃ j ∈ s0.instances, a ∈ j.elasticIPs)
    (he : e ∉ todo) (h : AssignInv cloud pool s0 (e :: todo) s) :
    AssignInv cloud pool s0 todo (assignAddress cloud ord pool s e) := by
  by_cases hskip : mapGet pool e = none ∨ (mapGet s.addressMap e).isSome = true ∨
      pick ord e s.instances = none
  · rw [assignAddress_skip _ _ _ _ _ hskip]
    exact AssignInv_weaken h
  · simp only [not_or, Bool.not_eq_true] at hskip
    obtain ⟨hpool, hm, hpick⟩ := hskip
    obtain ⟨address, hg⟩ := Option.ne_none_iff_exists'.1 hpool
    obtain ⟨chosen, hch⟩ := Option.ne_none_iff_exists'.1 hpick
    rw [assignAddress_call _ _ _ _ _ address chosen hg hm hch]
    obtain ⟨hcmem, hcand, hmax⟩ := pick_some ord e s.instances h.keys chosen hch
    have hepool : e ∈ mapKeys pool := by
      rw [← mapGet_isSome_iff, hg]
      rfl
    have hemap : e ∉ mapKeys s0.addressMap := by
      intro hc
      rw [← h.amap, ← mapGet_isSome_iff, hm] at hc
      cases hc
    have hunheld := AssignInv_unheld h hhold e (List.mem_cons_self _ _) hemap
    have hnil : chosen.elasticIPs = [] := by
      unfold Instance.candidate at hcand
      simp only [Bool.and_eq_true, List.isEmpty_iff] at hcand
      exact hcand.2
    have hlog : ∀ x ∈ s.log ++ [Event.associateAddress chosen.ID e
        (StringValue address.allocationId)
        (cloud.associateAddress s.log.length chosen.ID e (StringValue address.allocationId))
        s.instances], x ∈ s0.log ∨ AssignEvent cloud pool s0 x := by
      intro x hx
      simp only [List.mem_append, List.mem_singleton] at hx
      rcases hx with hx | rfl
      · exact h.only x hx
      · refine Or.inr ⟨hepool, hemap, ⟨address, hg, rfl⟩, ⟨_, rfl⟩, ⟨chosen, hcmem, rfl, hcand, hmax⟩, ?_⟩
        intro j hj
        obtain ⟨j0, h0, hG⟩ := AssignInv_origin h j hj
        exact ⟨j0, regGet_mem h0, hG.same⟩
    have hgrow : ∀ x ∈ s0.log, x ∈ s.log ++ [Event.associateAddress chosen.ID e
        (StringValue address.allocationId)
        (cloud.associateAddress s.log.length chosen.ID e (StringValue address.allocationId))
        s.instances] := by
      intro x hx
      simp [h.grow x hx]
    have hpaired := pairedFrom_append none s.log _ h.paired
      (pairedFrom_associate chosen.ID e (StringValue address.allocationId)
        (cloud.associateAddress s.log.length chosen.ID e (StringValue address.allocationId))
        s.instances)
    have hw := AssignInv_weaken h
    cases hok : cloud.associateAddress s.log.length chosen.ID e
        (StringValue address.allocationId) with
    | false =>
      simp only [Bool.false_eq_true, if_false]
      rw [hok] at hlog hgrow hpaired
      exact ⟨hw.keys, hw.amap, hw.panicked, hw.gone, hw.grown, hgrow, hlog, hpaired, hw.unique⟩
    | true =>
      simp only [if_true]
      rw [hok] at hlog hgrow hpaired
      have hins : setInsert chosen.elasticIPs e = [e] := by
        rw [hnil]
        rfl
      rw [hins]
      have hcget : regGet s.instances chosen.ID = some chosen := regGet_of_mem h.keys hcmem
      refine ⟨regKeys_regSet_nodup _ _ h.keys, h.amap, h.panicked, ?_, ?_, hgrow, hlog, hpaired,
        ?_⟩
      · intro id hid
        rw [regGet_regSet]
        have hne : ¬ chosen.ID = id := by
          intro hc
          have := h.gone _ hid
          rw [← hc, hcget] at this
          cases this
        rw [if_neg hne]
        exact h.gone id hid
      · intro id j0 hj0
        rw [regGet_regSet]
        obtain ⟨j, hj, hG⟩ := h.grown id j0 hj0
        by_cases hc : chosen.ID = id
        · subst hc
          rw [if_pos rfl]
          rw [hcget] at hj
          cases hj
          have hsame := (same_iff j0 chosen chosen.elasticIPs).1 hG.same
          have h0nil : j0.elasticIPs = [] := by
            rw [List.eq_nil_iff_forall_not_mem]
            intro a ha
            have := hG.sub a ha
            rw [hnil] at this
            cases this
          refine ⟨_, rfl, ?_, ?_, ?_, ?_⟩
          · rw [same_iff]
            exact ⟨hsame.1, hsame.2.1, hsame.2.2.1, hsame.2.2.2.1, hsame.2.2.2.2.1,
              hsame.2.2.2.2.2.1, rfl⟩
          · intro a ha
            rw [h0nil] at ha
            cases ha
          · intro hc0
            unfold Instance.candidate at hc0 hcand
            rw [← hsame.2.2.2.1, ← hsame.2.2.2.2.1, h0nil] at hc0
            rw [hnil] at hcand
            rw [hcand] at hc0
            cases hc0
          · intro a ha _
            simp only [List.mem_singleton] at ha
            subst ha
            exact ⟨hepool, he, hemap, rfl⟩
        · rw [if_neg hc]
          exact ⟨j, hj, Grown_weaken hG⟩
      · intro a ha j1 hj1 j2 hj2 h1 h2
        rcases (mem_regSet_iff h.keys _ _).1 hj1 with h3 | ⟨h3, _⟩
        · rcases (mem_regSet_iff h.keys _ _).1 hj2 with h4 | ⟨h4, _⟩
          · rw [h3, h4]
          · rw [h3] at h1
            simp only [List.mem_singleton] at h1
            exact absurd (h1 ▸ h2) (hunheld j2 h4)
        · rcases (mem_regSet_iff h.keys _ _).1 hj2 with h4 | ⟨h4, _⟩
          · rw [h4] at h2
            simp only [List.mem_singleton] at h2
            exact absurd (h2 ▸ h1) (hunheld j1 h3)
          · exact h.unique a ha j1 h3 j2 h4 h1 h2

theorem assign_fold_inv (cloud : Cloud) (ord : RangeOrder) (pool : List (String × Address))
    (s0 : Pass) (todo : List String) (s : Pass)
    (hhold : ∀ a, a ∈ mapKeys s0.addressMap ↔ ∃ j ∈ s0.instances, a ∈ j.elasticIPs)
    (hn : todo.Nodup) (h : AssignInv cloud pool s0 todo s) :
    AssignInv cloud pool s0 [] (todo.foldl (assignAddress cloud ord pool) s) := by
  induction todo generalizing s with
  | nil => exact h
  | cons e todo ih =>
    rw [List.nodup_cons] at hn
    exact ih _ hn.2 (assignAddress_inv cloud ord pool s0 e todo s hhold hn.1 h)

theorem AssignInv_init (cloud : Cloud) (pool : List (String × Address)) (s0 : Pass)
    (todo : List String)
    (hhold : ∀ a, a ∈ mapKeys s0.addressMap ↔ ∃ j ∈ s0.instances, a ∈ j.elasticIPs)
    (hn0 : (regKeys s0.instances).Nodup) (hp : pairedFrom none s0.log) :
    AssignInv cloud pool s0 todo s0 := by
  refine ⟨hn0, rfl, rfl, fun _ h => h, ?_, fun _ h => h, fun _ h => Or.inl h, hp, ?_⟩
  · intro id j0 hj0
    exact ⟨j0, hj0, rfl, fun _ h => h, fun _ => rfl, fun a ha hna => absurd ha hna⟩
  · intro a ha j1 hj1 j2 _ h1 _
    exact absurd ((hhold a).2 ⟨j1, hj1, h1⟩) ha

theorem assign_inv (cloud : Cloud) (ord : RangeOrder) (pool : List (String × Address))
    (s0 : Pass)
    (hhold : ∀ a, a ∈ mapKeys s0.addressMap ↔ ∃ j ∈ s0.instances, a ∈ j.elasticIPs)
    (hn0 : (regKeys s0.instances).Nodup) (hp : pairedFrom none s0.log)
    (hpool : (mapKeys pool).Nodup) :
    AssignInv cloud pool s0 [] (assign cloud ord pool s0) := by
  unfold assign
  exact assign_fold_inv cloud ord pool s0 _ s0 hhold
    ((ord.perm .pool (mapKeys pool)).nodup_iff.2 hpool)
    (AssignInv_init cloud pool s0 _ hhold hn0 hp)

/-! ## One pass -/

theorem nextSequence_ne (n : Int) : nextSequence n ≠ n := by
  unfold nextSequence
  split_ifs with h
  · rw [h]
    decide
  · omega

theorem runOnce_error (cloud : Cloud) (ord : RangeOrder) (c : ElasticIPController)
    (h : cloud.describeInstances = none) :
    runOnce cloud ord c = { c := c, log := [], exit := .returnedError } := by
  unfold runOnce
  rw [h]

theorem runOnce_panicked (cloud : Cloud) (ord : RangeOrder) (c : ElasticIPController)
    (snapshot : List AwsInstance) (h : cloud.describeInstances = some snapshot)
    (hp : (sweep cloud ord (nextSequence c.sequence)
      (ingest c.addressPool (nextSequence c.sequence) c.instances snapshot)).panicked = true) :
    runOnce cloud ord c =
      { c := { c with
          instances := (sweep cloud ord (nextSequence c.sequence)
            (ingest c.addressPool (nextSequence c.sequence) c.instances snapshot)).instances
          sequence := nextSequence c.sequence }
        log := (sweep cloud ord (nextSequence c.sequence)
          (ingest c.addressPool (nextSequence c.sequence) c.instances snapshot)).log
        exit := .panicked } := by
  unfold runOnce
  simp only [h, hp, if_true]

theorem runOnce_returned (cloud : Cloud) (ord : RangeOrder) (c : ElasticIPController)
    (snapshot : List AwsInstance) (h : cloud.describeInstances = some snapshot)
    (hp : (sweep cloud ord (nextSequence c.sequence)
      (ingest c.addressPool (nextSequence c.sequence) c.instances snapshot)).panicked = false) :
    runOnce cloud ord c =
      { c := { c with
          instances := (assign cloud ord c.addressPool (sweep cloud ord (nextSequence c.sequence)
            (ingest c.addressPool (nextSequence c.sequence) c.instances snapshot))).instances
          sequence := nextSequence c.sequence }
        log := (assign cloud ord c.addressPool (sweep cloud ord (nextSequence c.sequence)
          (ingest c.addressPool (nextSequence c.sequence) c.instances snapshot))).log
        exit := .returnedNil } := by
  unfold runOnce
  simp only [h, hp, Bool.false_eq_true, if_false]

theorem ingest_mem (c : ElasticIPController) (hc : Inv c) (sequence : Int)
    (snapshot : List AwsInstance) (j : Instance)
    (hj : j ∈ ingest c.addressPool sequence c.instances snapshot) :
    (j ∈ c.instances ∧ (j.ID = "" ∨ lastRecord snapshot j.ID = none)) ∨
    (j.ID ≠ "" ∧ ∃ r, lastRecord snapshot j.ID = some r ∧
      j = refreshed c.addressPool sequence (regGet c.instances j.ID) j.ID r) := by
  have hg := regGet_of_mem (ingest_nodup c.addressPool sequence snapshot c.instances hc.keys) hj
  rw [ingest_get] at hg
  by_cases hid : j.ID = ""
  · rw [if_pos hid] at hg
    exact Or.inl ⟨regGet_mem hg, Or.inl hid⟩
  · rw [if_neg hid] at hg
    cases hl : lastRecord snapshot j.ID with
    | none =>
      rw [hl] at hg
      exact Or.inl ⟨regGet_mem hg, Or.inr rfl⟩
    | some r =>
      rw [hl] at hg
      simp only [Option.some.injEq] at hg
      exact Or.inr ⟨hid, r, rfl, hg.symm⟩

theorem ingest_poolNode (c : ElasticIPController) (hc : Inv c) (sequence : Int)
    (snapshot : List AwsInstance) (j : Instance)
    (hj : j ∈ ingest c.addressPool sequence c.instances snapshot) :
    j.poolNode = !(isMaster j.status.tags) := by
  rcases ingest_mem c hc sequence snapshot j hj with ⟨h1, _⟩ | ⟨_, r, _, h2⟩
  · exact hc.poolNode j h1
  · rw [h2]
    rfl

theorem ingest_fresh (c : ElasticIPController) (hc : Inv c) (snapshot : List AwsInstance)
    (j : Instance)
    (hj : j ∈ ingest c.addressPool (nextSequence c.sequence) c.instances snapshot)
    (hs : j.sequence = nextSequence c.sequence) :
    j.ID ≠ "" ∧ ∃ r, lastRecord snapshot j.ID = some r ∧
      j = refreshed c.addressPool (nextSequence c.sequence) (regGet c.instances j.ID) j.ID r := by
  rcases ingest_mem c hc _ snapshot j hj with ⟨h1, _⟩ | h
  · have := hc.stamped j h1
    rw [hs] at this
    exact absurd this (nextSequence_ne _)
  · exact h

theorem ingest_kept (c : ElasticIPController) (sequence : Int) (snapshot : List AwsInstance)
    (id : String) (r : AwsInstance) (hid : id ≠ "") (hl : lastRecord snapshot id = some r) :
    regGet (ingest c.addressPool sequence c.instances snapshot) id
      = some (refreshed c.addressPool sequence (regGet c.instances id) id r) := by
  rw [ingest_get, if_neg hid, hl]

theorem sweep_origin {cloud : Cloud} {sequence : Int} {reg0 : List Instance} {s : Pass}
    (h : SweepInv cloud sequence reg0 [] s) (hp : s.panicked = false) (j2 : Instance)
    (hj : j2 ∈ s.instances) :
    ∃ j, regGet reg0 j2.ID = some j ∧ j.sequence = sequence ∧ Settled j j2 s.log := by
  have hg := regGet_of_mem h.keys hj
  cases h0 : regGet reg0 j2.ID with
  | none =>
    rw [h.absent _ h0] at hg
    cases hg
  | some j =>
    by_cases hs : j.sequence = sequence
    · obtain ⟨j3, h3, hset⟩ := h.settled hp _ j (List.not_mem_nil _) h0 hs
      rw [hg] at h3
      cases h3
      exact ⟨j, rfl, hs, hset⟩
    · rw [h.stale hp _ j (List.not_mem_nil _) h0 hs] at hg
      cases hg

theorem sweep_holders {cloud : Cloud} {sequence : Int} {reg0 : List Instance} {s : Pass}
    (h : SweepInv cloud sequence reg0 [] s) (hp : s.panicked = false) (a : String) :
    a ∈ mapKeys s.addressMap ↔ ∃ j ∈ s.instances, a ∈ j.elasticIPs := by
  rw [h.holders hp a]
  constructor
  · rintro ⟨j, h1, _, h3⟩
    exact ⟨j, h1, h3⟩
  · rintro ⟨j, h1, h3⟩
    exact ⟨j, h1, List.not_mem_nil _, h3⟩

theorem sweep_poolNode {cloud : Cloud} {sequence : Int} {reg0 : List Instance} {s : Pass}
    (h : SweepInv cloud sequence reg0 [] s) (hp : s.panicked = false)
    (hreg : ∀ j ∈ reg0, j.poolNode = !(isMaster j.status.tags)) (j2 : Instance)
    (hj : j2 ∈ s.instances) : j2.poolNode = !(isMaster j2.status.tags) := by
  obtain ⟨j, h1, _, hset⟩ := sweep_origin h hp j2 hj
  have hsame := (same_iff (classify j) j2 j2.elasticIPs).1 hset.same
  rw [hsame.2.2.2.1, hsame.2.2.1, classify_poolNode, classify_status]
  exact hreg j (regGet_mem h1)

theorem assign_prefix_inv (cloud : Cloud) (ord : RangeOrder) (pool : List (String × Address))
    (s0 : Pass) (done todo : List String) (s : Pass)
    (hhold : ∀ a, a ∈ mapKeys s0.addressMap ↔ ∃ j ∈ s0.instances, a ∈ j.elasticIPs)
    (hn : (done ++ todo).Nodup) (h : AssignInv cloud pool s0 (done ++ todo) s) :
    AssignInv cloud pool s0 todo (done.foldl (assignAddress cloud ord pool) s) := by
  induction done generalizing s with
  | nil => exact h
  | cons e done ih =>
    rw [List.cons_append, List.nodup_cons] at hn
    exact ih _ hn.2 (assignAddress_inv cloud ord pool s0 e _ s hhold hn.1 h)

theorem candidate_iff (j : Instance) (hj : j.poolNode = !(isMaster j.status.tags)) :
    j.candidate = true ↔
      (∀ t ∈ j.status.tags, StringValue t.key ≠ "k8s.io/role/master") ∧
      j.canHaveElasticIP = true ∧ j.elasticIPs = [] := by
  unfold Instance.candidate
  rw [hj, ← isMaster_false_iff]
  simp only [Bool.and_eq_true, Bool.not_eq_true', List.isEmpty_iff, and_assoc]

theorem runOnce_of_panicked (cloud : Cloud) (ord : RangeOrder) (c : ElasticIPController)
    (snapshot : List AwsInstance) (h : cloud.describeInstances = some snapshot)
    (hp : (swept cloud ord c snapshot).panicked = true) :
    runOnce cloud ord c =
      { c := { c with
          instances := (swept cloud ord c snapshot).instances
          sequence := nextSequence c.sequence }
        log := (swept cloud ord c snapshot).log
        exit := .panicked } :=
  runOnce_panicked cloud ord c snapshot h hp

theorem runOnce_of_returned (cloud : Cloud) (ord : RangeOrder) (c : ElasticIPController)
    (snapshot : List AwsInstance) (h : cloud.describeInstances = some snapshot)
    (hp : (swept cloud ord c snapshot).panicked = false) :
    runOnce cloud ord c =
      { c := { c with
          instances := (assign cloud ord c.addressPool (swept cloud ord c snapshot)).instances
          sequence := nextSequence c.sequence }
        log := (assign cloud ord c.addressPool (swept cloud ord c snapshot)).log
        exit := .returnedNil } :=
  runOnce_returned cloud ord c snapshot h hp

theorem swept_inv (cloud : Cloud) (ord : RangeOrder) (c : ElasticIPController) (hc : Inv c)
    (snapshot : List AwsInstance) :
    SweepInv cloud (nextSequence c.sequence) (ingested c snapshot) []
      (swept cloud ord c snapshot) :=
  sweep_inv cloud ord _ _ (ingest_nodup _ _ _ _ hc.keys)

theorem assigned_inv (cloud : Cloud) (ord : RangeOrder) (c : ElasticIPController) (hc : Inv c)
    (snapshot : List AwsInstance) (hp : (swept cloud ord c snapshot).panicked = false) :
    AssignInv cloud c.addressPool (swept cloud ord c snapshot) []
      (assign cloud ord c.addressPool (swept cloud ord c snapshot)) :=
  assign_inv cloud ord c.addressPool _
    (sweep_holders (swept_inv cloud ord c hc snapshot) hp)
    (swept_inv cloud ord c hc snapshot).keys (swept_inv cloud ord c hc snapshot).paired hc.pool

theorem swept_poolNode (cloud : Cloud) (ord : RangeOrder) (c : ElasticIPController)
    (hc : Inv c) (snapshot : List AwsInstance)
    (hp : (swept cloud ord c snapshot).panicked = false) (j : Instance)
    (hj : j ∈ (swept cloud ord c snapshot).instances) :
    j.poolNode = !(isMaster j.status.tags) :=
  sweep_poolNode (swept_inv cloud ord c hc snapshot) hp
    (fun j hj => ingest_poolNode c hc _ snapshot j hj) j hj

theorem runOnce_log_cases (cloud : Cloud) (ord : RangeOrder) (c : ElasticIPController)
    (hc : Inv c) (e : Event) (he : e ∈ (runOnce cloud ord c).log) :
    ∃ snapshot, cloud.describeInstances = some snapshot ∧
      ((∃ j, j ∈ ingested c snapshot ∧ j.sequence = nextSequence c.sequence ∧
          (classify j).eligible = false ∧ DetachEvent cloud j e) ∨
        ((swept cloud ord c snapshot).panicked = false ∧
          AssignEvent cloud c.addressPool (swept cloud ord c snapshot) e)) := by
  cases hd : cloud.describeInstances with
  | none =>
    rw [runOnce_error cloud ord c hd] at he
    cases he
  | some snapshot =>
    refine ⟨snapshot, rfl, ?_⟩
    have hsw := swept_inv cloud ord c hc snapshot
    have hfrom : e ∈ (swept cloud ord c snapshot).log →
        ∃ j, j ∈ ingested c snapshot ∧ j.sequence = nextSequence c.sequence ∧
          (classify j).eligible = false ∧ DetachEvent cloud j e := by
      intro h1
      obtain ⟨j, h2, _, h4, h5, h6⟩ := hsw.only e h1
      exact ⟨j, h2, h4, h5, h6⟩
    cases hp : (swept cloud ord c snapshot).panicked with
    | true =>
      rw [runOnce_of_panicked cloud ord c snapshot hd hp] at he
      exact Or.inl (hfrom he)
    | false =>
      rw [runOnce_of_returned cloud ord c snapshot hd hp] at he
      rcases (assigned_inv cloud ord c hc snapshot hp).only e he with h1 | h1
      · exact Or.inl (hfrom h1)
      · exact Or.inr ⟨rfl, h1⟩

/-- C1. Every `AssociateAddress` call of a pass targets an instance that, in the registry at
the moment of the call, carries no master tag, has `canHaveElasticIP`, holds no address, and has
a goodness at least that of every other such instance.  And when, at the moment an address of
the pool is handled, no instance of the registry satisfies the three conditions, the loop body
makes no call and leaves the state as it is, so the address stays unassigned. -/
theorem assign_candidate_selection (cloud : Cloud) (ord : RangeOrder)
    (c : ElasticIPController) (hc : Inv c) :
    (∀ id eip allocationID ok reg,
      Event.associateAddress id eip allocationID ok reg ∈ (runOnce cloud ord c).log →
      ∃ i ∈ reg, i.ID = id ∧ notMasterTagged i ∧ i.canHaveElasticIP = true ∧
        i.elasticIPs = [] ∧
        ∀ j ∈ reg, notMasterTagged j → j.canHaveElasticIP = true → j.elasticIPs = [] →
          j.goodness ≤ i.goodness) ∧
    (∀ snapshot done eip todo, cloud.describeInstances = some snapshot →
      (swept cloud ord c snapshot).panicked = false →
      ord.order .pool (mapKeys c.addressPool) = done ++ eip :: todo →
      (∀ j ∈ (done.foldl (assignAddress cloud ord c.addressPool)
            (swept cloud ord c snapshot)).instances,
        ¬ (notMasterTagged j ∧ j.canHaveElasticIP = true ∧ j.elasticIPs = [])) →
      assignAddress cloud ord c.addressPool
          (done.foldl (assignAddress cloud ord c.addressPool) (swept cloud ord c snapshot)) eip
        = done.foldl (assignAddress cloud ord c.addressPool) (swept cloud ord c snapshot)) := by
  constructor
  · intro id eip allocationID ok reg he
    obtain ⟨snapshot, _, h1 | ⟨hp, h1⟩⟩ := runOnce_log_cases cloud ord c hc _ he
    · obtain ⟨j, _, _, _, h2⟩ := h1
      exact absurd h2 (by simp [DetachEvent])
    · obtain ⟨_, _, _, _, ⟨i, hi, hid, hcand, hmax⟩, hreg⟩ := h1
      have hpn : ∀ j ∈ reg, j.poolNode = !(isMaster j.status.tags) := by
        intro j hj
        obtain ⟨j0, hj0, hsame⟩ := hreg j hj
        have h3 := (same_iff j0 j j.elasticIPs).1 hsame
        rw [h3.2.2.2.1, h3.2.2.1]
        exact swept_poolNode cloud ord c hc snapshot hp j0 hj0
      obtain ⟨h4, h5, h6⟩ := (candidate_iff i (hpn i hi)).1 hcand
      refine ⟨i, hi, hid, h4, h5, h6, ?_⟩
      intro j hj h7 h8 h9
      exact hmax j hj ((candidate_iff j (hpn j hj)).2 ⟨h7, h8, h9⟩)
  · intro snapshot done eip todo _ hp hsplit hnone
    have hpre := assign_prefix_inv cloud ord c.addressPool (swept cloud ord c snapshot) done
      (eip :: todo) (swept cloud ord c snapshot)
      (sweep_holders (swept_inv cloud ord c hc snapshot) hp)
      (by
        rw [← hsplit]
        exact (ord.perm .pool (mapKeys c.addressPool)).nodup_iff.2 hc.pool)
      (AssignInv_init cloud c.addressPool _ _
        (sweep_holders (swept_inv cloud ord c hc snapshot) hp)
        (swept_inv cloud ord c hc snapshot).keys (swept_inv cloud ord c hc snapshot).paired)
    refine assignAddress_skip _ _ _ _ _ (Or.inr (Or.inr (pick_eq_none _ _ _ ?_)))
    intro j hj
    obtain ⟨j0, hj0, hG⟩ := AssignInv_origin hpre j hj
    have h3 := (same_iff j0 j j.elasticIPs).1 hG.same
    have hpn : j.poolNode = !(isMaster j.status.tags) := by
      rw [h3.2.2.2.1, h3.2.2.1]
      exact swept_poolNode cloud ord c hc snapshot hp j0 (regGet_mem hj0)
    by_contra hcon
    exact hnone j hj ((candidate_iff j hpn).1 (by simpa using hcon))

theorem swept_no_panic (cloud : Cloud) (ord : RangeOrder) (c : ElasticIPController)
    (hc : Inv c) (snapshot : List AwsInstance)
    (hfound : ∀ n ip, DescribeAddress (cloud.describeAddresses n ip) ≠ .absent) :
    (swept cloud ord c snapshot).panicked = false := by
  have hsw := swept_inv cloud ord c hc snapshot
  cases hp : (swept cloud ord c snapshot).panicked with
  | false => rfl
  | true =>
    obtain ⟨a, ha⟩ := hsw.panic.1 hp
    obtain ⟨j, _, _, _, _, h5⟩ := hsw.only _ ha
    obtain ⟨_, n, hn⟩ := h5
    exact absurd hn.symm (hfound n a)

theorem runOnce_exit (cloud : Cloud) (ord : RangeOrder) (c : ElasticIPController)
    (snapshot : List AwsInstance) (hd : cloud.describeInstances = some snapshot) :
    ((runOnce cloud ord c).exit = .returnedNil ↔ (swept cloud ord c snapshot).panicked = false) ∧
    ((runOnce cloud ord c).exit = .panicked ↔ (swept cloud ord c snapshot).panicked = true) := by
  cases hp : (swept cloud ord c snapshot).panicked with
  | true =>
    rw [runOnce_of_panicked cloud ord c snapshot hd hp]
    simp
  | false =>
    rw [runOnce_of_returned cloud ord c snapshot hd hp]
    simp

theorem runOnce_returns (cloud : Cloud) (ord : RangeOrder) (c : ElasticIPController)
    (hc : Inv c) (snapshot : List AwsInstance) (hd : cloud.describeInstances = some snapshot)
    (hfound : ∀ n ip, DescribeAddress (cloud.describeAddresses n ip) ≠ .absent) :
    (runOnce cloud ord c).exit = .returnedNil :=
  (runOnce_exit cloud ord c snapshot hd).1.2 (swept_no_panic cloud ord c hc snapshot hfound)

theorem returned_lineage (cloud : Cloud) (ord : RangeOrder) (c : ElasticIPController)
    (hc : Inv c) (snapshot : List AwsInstance)
    (hp : (swept cloud ord c snapshot).panicked = false) (j : Instance)
    (hj : j ∈ (assign cloud ord c.addressPool (swept cloud ord c snapshot)).instances) :
    ∃ j0 r, regGet (swept cloud ord c snapshot).instances j.ID = some j0 ∧
      Grown c.addressPool (swept cloud ord c snapshot).addressMap [] j0 j ∧
      j.ID ≠ "" ∧ lastRecord snapshot j.ID = some r ∧
      regGet (ingested c snapshot) j.ID
        = some (refreshed c.addressPool (nextSequence c.sequence) (regGet c.instances j.ID)
            j.ID r) ∧
      Settled (refreshed c.addressPool (nextSequence c.sequence) (regGet c.instances j.ID)
        j.ID r) j0 (swept cloud ord c snapshot).log := by
  obtain ⟨j0, h0, hG⟩ := AssignInv_origin (assigned_inv cloud ord c hc snapshot hp) j hj
  obtain ⟨jj, h1, h2, hset⟩ := sweep_origin (swept_inv cloud ord c hc snapshot) hp j0
    (regGet_mem h0)
  have hid0 : j0.ID = j.ID := regGet_id h0
  rw [hid0] at h1
  have hidj : jj.ID = j.ID := regGet_id h1
  obtain ⟨h3, r, h4, h5⟩ := ingest_fresh c hc snapshot jj (regGet_mem h1) h2
  rw [hidj] at h3 h4 h5
  rw [h5] at h1 hset
  exact ⟨j0, r, h0, hG, h3, h4, h1, hset⟩

theorem returned_kept (cloud : Cloud) (ord : RangeOrder) (c : ElasticIPController)
    (hc : Inv c) (snapshot : List AwsInstance)
    (hp : (swept cloud ord c snapshot).panicked = false) (id : String) (r : AwsInstance)
    (hid : id ≠ "") (hl : lastRecord snapshot id = some r) :
    ∃ j0 j, regGet (swept cloud ord c snapshot).instances id = some j0 ∧
      Settled (refreshed c.addressPool (nextSequence c.sequence) (regGet c.instances id) id r)
        j0 (swept cloud ord c snapshot).log ∧
      regGet (assign cloud ord c.addressPool (swept cloud ord c snapshot)).instances id
        = some j ∧
      Grown c.addressPool (swept cloud ord c snapshot).addressMap [] j0 j := by
  have hg := ingest_kept c (nextSequence c.sequence) snapshot id r hid hl
  obtain ⟨j0, h0, hset⟩ := (swept_inv cloud ord c hc snapshot).settled hp id _
    (List.not_mem_nil _) hg rfl
  obtain ⟨j, h1, hG⟩ := (assigned_inv cloud ord c hc snapshot hp).grown id j0 h0
  exact ⟨j0, j, h0, hset, h1, hG⟩

theorem lastRecord_isSome_iff (snapshot : List AwsInstance) (id : String) :
    (∃ r, lastRecord snapshot id = some r) ↔ id ∈ snapshotIds snapshot := by
  unfold snapshotIds
  rw [List.mem_map]
  constructor
  · rintro ⟨r, hr⟩
    exact ⟨r, lastRecord_some hr⟩
  · rintro ⟨r, hr, hid⟩
    cases hl : lastRecord snapshot id with
    | some x => exact ⟨x, rfl⟩
    | none => exact absurd hid ((lastRecord_none snapshot id).1 hl r hr)

/-- C8. After a pass whose `DescribeInstances` call succeeded and which ran to its end, the
identifiers in the registry are exactly the non-empty `InstanceId` values of the snapshot and
every record carries the controller's current sequence; the pass runs to its end whenever no
address lookup comes back without an address. -/
theorem registry_garbage_collection (cloud : Cloud) (ord : RangeOrder)
    (c : ElasticIPController) (snapshot : List AwsInstance) (hc : Inv c)
    (hd : cloud.describeInstances = some snapshot) :
    ((runOnce cloud ord c).exit = .returnedNil →
      (∀ id, id ∈ regKeys (runOnce cloud ord c).c.instances ↔
        id ≠ "" ∧ id ∈ snapshotIds snapshot) ∧
      (∀ j ∈ (runOnce cloud ord c).c.instances, j.sequence = (runOnce cloud ord c).c.sequence)) ∧
    ((∀ n ip, DescribeAddress (cloud.describeAddresses n ip) ≠ .absent) →
      (runOnce cloud ord c).exit = .returnedNil) := by
  refine ⟨?_, runOnce_returns cloud ord c hc snapshot hd⟩
  intro hexit
  have hp := (runOnce_exit cloud ord c snapshot hd).1.1 hexit
  rw [runOnce_of_returned cloud ord c snapshot hd hp]
  simp only
  constructor
  · intro id
    constructor
    · intro hid
      rw [regKeys, List.mem_map] at hid
      obtain ⟨j, hj, rfl⟩ := hid
      obtain ⟨_, r, _, _, h3, h4, _, _⟩ := returned_lineage cloud ord c hc snapshot hp j hj
      exact ⟨h3, (lastRecord_isSome_iff snapshot j.ID).1 ⟨r, h4⟩⟩
    · rintro ⟨h1, h2⟩
      obtain ⟨r, hr⟩ := (lastRecord_isSome_iff snapshot id).2 h2
      obtain ⟨_, j, _, _, h3, _⟩ := returned_kept cloud ord c hc snapshot hp id r h1 hr
      have := regGet_id h3
      rw [← this]
      exact List.mem_map_of_mem (fun i => i.ID) (regGet_mem h3)
  · intro j hj
    obtain ⟨j0, r, _, hG, _, _, _, hset⟩ := returned_lineage cloud ord c hc snapshot hp j hj
    have h1 := (same_iff j0 j j.elasticIPs).1 hG.same
    have h2 := (same_iff (classify _) j0 j0.elasticIPs).1 hset.same
    rw [h1.2.1, h2.2.1, classify_sequence]
    rfl

/-- C9. After a pass that ran to its end, every snapshot record with a non-empty identifier has
a registry record, and every registry record has as `status` the last snapshot record of its
identifier; its `canHaveElasticIP` is true when that state is `running`, false when it is one of
the five other known states, and otherwise the value the record had before the pass (false when
the registry had no record for the identifier); its goodness is 1 when running and 0 otherwise. -/
theorem eligibility_classification (cloud : Cloud) (ord : RangeOrder)
    (c : ElasticIPController) (snapshot : List AwsInstance) (hc : Inv c)
    (hd : cloud.describeInstances = some snapshot)
    (hexit : (runOnce cloud ord c).exit = .returnedNil) :
    (∀ r ∈ snapshot, StringValue r.instanceId ≠ "" →
      ∃ j ∈ (runOnce cloud ord c).c.instances, j.ID = StringValue r.instanceId) ∧
    (∀ j ∈ (runOnce cloud ord c).c.instances,
      lastRecord snapshot j.ID = some j.status ∧
      j.canHaveElasticIP =
        classifiedCanHave (StringValue j.status.state.name) (priorCanHave c.instances j.ID) ∧
      j.goodness = if StringValue j.status.state.name = "running" then 1 else 0) := by
  have hp := (runOnce_exit cloud ord c snapshot hd).1.1 hexit
  rw [runOnce_of_returned cloud ord c snapshot hd hp]
  simp only
  constructor
  · intro r hr hid
    obtain ⟨x, hx⟩ := (lastRecord_isSome_iff snapshot _).2
      (List.mem_map_of_mem (fun r => StringValue r.instanceId) hr)
    obtain ⟨_, j, _, _, h3, _⟩ := returned_kept cloud ord c hc snapshot hp _ x hid hx
    exact ⟨j, regGet_mem h3, regGet_id h3⟩
  · intro j hj
    obtain ⟨j0, r, _, hG, _, hl, _, hset⟩ := returned_lineage cloud ord c hc snapshot hp j hj
    have h1 := (same_iff j0 j j.elasticIPs).1 hG.same
    have h2 := (same_iff (classify _) j0 j0.elasticIPs).1 hset.same
    have hstatus : j.status = r := by
      rw [h1.2.2.1, h2.2.2.1, classify_status]
      rfl
    refine ⟨by rw [hstatus]; exact hl, ?_, ?_⟩
    · rw [h1.2.2.2.2.1, h2.2.2.2.2.1, classify_canHaveElasticIP, hstatus]
      unfold classifiedCanHave priorCanHave refreshed
      simp only
    · rw [h1.2.2.2.2.2.1, h2.2.2.2.2.2.1, classify_goodness, hstatus]
      rfl

theorem swept_reported (cloud : Cloud) (ord : RangeOrder) (c : ElasticIPController)
    (hc : Inv c) (snapshot : List AwsInstance)
    (hp : (swept cloud ord c snapshot).panicked = false) (j : Instance)
    (hj : j ∈ (swept cloud ord c snapshot).instances) (a : String) (ha : a ∈ j.elasticIPs) :
    a ∈ mapKeys c.addressPool ∧ ∃ r ∈ snapshot, StringValue r.instanceId = j.ID ∧
      j.status = r ∧ reportsPublicIP r a = true := by
  obtain ⟨jj, h1, h2, hset⟩ := sweep_origin (swept_inv cloud ord c hc snapshot) hp j hj
  obtain ⟨_, r, h4, h5⟩ := ingest_fresh c hc snapshot jj (regGet_mem h1) h2
  rw [regGet_id h1] at h4 h5
  have ha2 := hset.sub a ha
  rw [h5] at ha2
  have h6 := (mem_observedElasticIPs c.addressPool r a).1 ha2
  have h7 := (same_iff (classify jj) j j.elasticIPs).1 hset.same
  refine ⟨h6.1, r, (lastRecord_some h4).1, (lastRecord_some h4).2, ?_, h6.2⟩
  rw [h7.2.2.1, classify_status, h5]
  rfl

theorem swept_single_holder (cloud : Cloud) (ord : RangeOrder) (c : ElasticIPController)
    (hc : Inv c) (snapshot : List AwsInstance)
    (hp : (swept cloud ord c snapshot).panicked = false)
    (hsingle : singleReport c.addressPool snapshot) :
    singleOwnership (swept cloud ord c snapshot).instances := by
  intro a j1 hj1 j2 hj2 h1 h2
  obtain ⟨hpool, r1, hr1, hid1, _, hrep1⟩ := swept_reported cloud ord c hc snapshot hp j1 hj1 a h1
  obtain ⟨_, r2, hr2, hid2, _, hrep2⟩ := swept_reported cloud ord c hc snapshot hp j2 hj2 a h2
  have hid := hsingle a hpool r1 hr1 r2 hr2 hrep1 hrep2
  rw [hid1, hid2] at hid
  have hk := (swept_inv cloud ord c hc snapshot).keys
  have g1 := regGet_of_mem hk hj1
  have g2 := regGet_of_mem hk hj2
  rw [hid, g2] at g1
  cases g1
  rfl

theorem returned_single_holder (cloud : Cloud) (ord : RangeOrder) (c : ElasticIPController)
    (hc : Inv c) (snapshot : List AwsInstance)
    (hp : (swept cloud ord c snapshot).panicked = false)
    (hsingle : singleReport c.addressPool snapshot) :
    singleOwnership (assign cloud ord c.addressPool (swept cloud ord c snapshot)).instances := by
  intro a j1 hj1 j2 hj2 h1 h2
  have hA := assigned_inv cloud ord c hc snapshot hp
  by_cases ha : a ∈ mapKeys (swept cloud ord c snapshot).addressMap
  · obtain ⟨j01, g1, hG1⟩ := AssignInv_origin hA j1 hj1
    obtain ⟨j02, g2, hG2⟩ := AssignInv_origin hA j2 hj2
    have m1 : a ∈ j01.elasticIPs := by
      by_contra hcon
      exact (hG1.given a h1 hcon).2.2.1 ha
    have m2 : a ∈ j02.elasticIPs := by
      by_contra hcon
      exact (hG2.given a h2 hcon).2.2.1 ha
    have heq := swept_single_holder cloud ord c hc snapshot hp hsingle a j01 (regGet_mem g1)
      j02 (regGet_mem g2) m1 m2
    have hid : j1.ID = j2.ID := by
      rw [← regGet_id g1, ← regGet_id g2, heq]
    have k1 := regGet_of_mem hA.keys hj1
    have k2 := regGet_of_mem hA.keys hj2
    rw [hid, k2] at k1
    cases k1
    rfl
  · exact hA.unique a ha j1 hj1 j2 hj2 h1 h2

/-- C4, as amended. At the end of a pass whose snapshot reports no pool address on more than
one instance, whatever the outcome of the cloud calls, no address is contained in the
`elasticIPs` of more than one record of the registry. -/
theorem single_ownership (cloud : Cloud) (ord : RangeOrder) (c : ElasticIPController)
    (snapshot : List AwsInstance) (hc : Inv c)
    (hd : cloud.describeInstances = some snapshot)
    (hsingle : singleReport c.addressPool snapshot)
    (hexit : (runOnce cloud ord c).exit = .returnedNil) :
    singleOwnership (runOnce cloud ord c).c.instances := by
  have hp := (runOnce_exit cloud ord c snapshot hd).1.1 hexit
  rw [runOnce_of_returned cloud ord c snapshot hd hp]
  exact returned_single_holder cloud ord c hc snapshot hp hsingle

theorem inv_ctl1 : Inv ctl1 :=
  ⟨by decide, by decide, by decide, by decide⟩

theorem lastRecord_of_wellIdentified (snapshot : List AwsInstance)
    (hn : (snapshotIds snapshot).Nodup) (r : AwsInstance) (hr : r ∈ snapshot) :
    lastRecord snapshot (StringValue r.instanceId) = some r := by
  induction snapshot with
  | nil => cases hr
  | cons x rest ih =>
    simp only [snapshotIds, List.map_cons, List.nodup_cons] at hn
    rcases List.mem_cons.1 hr with rfl | hr2
    · have hnone : lastRecord rest (StringValue r.instanceId) = none := by
        rw [lastRecord_none]
        intro y hy hc
        exact hn.1 (hc ▸ List.mem_map_of_mem (fun r => StringValue r.instanceId) hy)
      simp [lastRecord, hnone]
    · simp [lastRecord, ih hn.2 hr2]

theorem classify_running_eligible (j : Instance)
    (hr : StringValue j.status.state.name = "running") (hpn : j.poolNode = true) :
    (classify j).eligible = true := by
  unfold Instance.eligible
  rw [classify_poolNode, classify_canHaveElasticIP, hpn, if_pos hr]
  rfl

theorem assign_all_held (cloud : Cloud) (ord : RangeOrder) (pool : List (String × Address))
    (s : Pass) (h : ∀ a ∈ mapKeys pool, a ∈ mapKeys s.addressMap) :
    assign cloud ord pool s = s := by
  unfold assign
  have hl : ∀ a ∈ ord.order .pool (mapKeys pool), a ∈ mapKeys s.addressMap := by
    intro a ha
    exact h a (((ord.perm _ _).mem_iff).1 ha)
  generalize ord.order .pool (mapKeys pool) = l at hl
  induction l with
  | nil => rfl
  | cons x l ih =>
    rw [List.foldl_cons, assignAddress_skip _ _ _ _ _
      (Or.inr (Or.inl ((mapGet_isSome_iff _ _).2 (hl x (List.mem_cons_self _ _)))))]
    exact ih (fun a ha => hl a (List.mem_cons_of_mem _ ha))

theorem reportsPoolAddress_iff (pool : List (String × Address)) (r : AwsInstance) :
    reportsPoolAddress pool r = true ↔ ∃ a ∈ mapKeys pool, reportsPublicIP r a = true := by
  unfold reportsPoolAddress
  rw [List.any_eq_true]

/-- C2, as amended. When the records of the snapshot carry non-empty, pairwise distinct
identifiers, every address of the pool is reported as bound to an instance that is running and
not master-tagged, and no other instance reports a pool address, the pass makes no cloud call
at all, so neither `AssociateAddress` nor `DisassociateAddress`, and returns nil. -/
theorem converged_no_mutation (cloud : Cloud) (ord : RangeOrder) (c : ElasticIPController)
    (snapshot : List AwsInstance) (hc : Inv c)
    (hd : cloud.describeInstances = some snapshot) (hw : wellIdentified snapshot)
    (hconv : converged c.addressPool snapshot) :
    (runOnce cloud ord c).log = [] ∧ (runOnce cloud ord c).exit = .returnedNil := by
  have hsw := swept_inv cloud ord c hc snapshot
  have hlog : (swept cloud ord c snapshot).log = [] := by
    rw [List.eq_nil_iff_forall_not_mem]
    intro e he
    obtain ⟨j, h1, _, h3, h4, h5⟩ := hsw.only e he
    obtain ⟨_, r, h6, h7⟩ := ingest_fresh c hc snapshot j h1 h3
    have hheld : ∃ a, a ∈ j.elasticIPs := by
      cases e with
      | describeAddress a res => exact ⟨a, h5.1⟩
      | disassociateAddress id a x ok => exact ⟨a, h5.2.1⟩
      | associateAddress a b c d e => exact absurd h5 (by simp [DetachEvent])
    obtain ⟨a, ha⟩ := hheld
    rw [h7] at ha
    have h8 := (mem_observedElasticIPs c.addressPool r a).1 ha
    have h9 := hconv.2 r (lastRecord_some h6).1
      ((reportsPoolAddress_iff _ _).2 ⟨a, h8.1, h8.2⟩)
    have h10 : (classify j).eligible = true := by
      apply classify_running_eligible
      · rw [h7]
        simpa [isRunning] using h9.1
      · rw [h7]
        simp [refreshed, h9.2]
    rw [h10] at h4
    cases h4
  have hp : (swept cloud ord c snapshot).panicked = false := by
    cases hpan : (swept cloud ord c snapshot).panicked with
    | false => rfl
    | true =>
      obtain ⟨a, ha⟩ := hsw.panic.1 hpan
      rw [hlog] at ha
      cases ha
  have hheld : ∀ a ∈ mapKeys c.addressPool,
      a ∈ mapKeys (swept cloud ord c snapshot).addressMap := by
    intro a ha
    obtain ⟨r, hr, h1, h2, h3⟩ := hconv.1 a ha
    have hid : StringValue r.instanceId ≠ "" := by
      intro hcon
      exact hw.2 (hcon ▸ List.mem_map_of_mem (fun r => StringValue r.instanceId) hr)
    obtain ⟨j0, _, g0, hset, _, _⟩ := returned_kept cloud ord c hc snapshot hp _ r hid
      (lastRecord_of_wellIdentified snapshot hw.1 r hr)
    have helig : (classify (refreshed c.addressPool (nextSequence c.sequence)
        (regGet c.instances (StringValue r.instanceId)) (StringValue r.instanceId) r)).eligible
          = true := by
      apply classify_running_eligible
      · simpa [isRunning, refreshed] using h2
      · simp [refreshed, h3]
    rw [sweep_holders hsw hp]
    refine ⟨j0, regGet_mem g0, ?_⟩
    rw [hset.keep helig]
    exact (mem_observedElasticIPs c.addressPool r a).2 ⟨ha, h1⟩
  rw [runOnce_of_returned cloud ord c snapshot hd hp, assign_all_held cloud ord _ _ hheld]
  exact ⟨hlog, rfl⟩

/-- C2 as stated fails: a snapshot may report the pool address on a record without identifier,
or on the first of two records with the same identifier; the claim's condition holds, the
registry records no holder and the pass calls `AssociateAddress`. -/
theorem converged_no_mutation_counterexample :
    (Inv ctl1 ∧
      converged ctl1.addressPool [awsNameless ["1.2.3.4"], awsRunning "i-2" []] ∧
      ((runOnce (happyCloud [awsNameless ["1.2.3.4"], awsRunning "i-2" []]) storedOrder
        ctl1).log.any (Event.associates "i-2" "1.2.3.4")) = true) ∧
    (converged ctl1.addressPool [awsRunning "i-1" ["1.2.3.4"], awsRunning "i-1" []] ∧
      ((runOnce (happyCloud [awsRunning "i-1" ["1.2.3.4"], awsRunning "i-1" []]) storedOrder
        ctl1).log.any (Event.associates "i-1" "1.2.3.4")) = true) := by
  refine ⟨⟨inv_ctl1, ?_, by decide⟩, ?_, by decide⟩
  · unfold converged
    decide
  · unfold converged
    decide

/-- Witness of C2: one running instance holds the pool address. -/
theorem converged_no_mutation_witness :
    Inv ctl1 ∧ wellIdentified [awsRunning "i-1" ["1.2.3.4"], awsInState "i-2" "stopped" []] ∧
    converged ctl1.addressPool [awsRunning "i-1" ["1.2.3.4"], awsInState "i-2" "stopped" []] ∧
    (runOnce (happyCloud [awsRunning "i-1" ["1.2.3.4"], awsInState "i-2" "stopped" []])
        storedOrder ctl1).log = [] ∧
    (runOnce (happyCloud [awsRunning "i-1" ["1.2.3.4"], awsInState "i-2" "stopped" []])
        storedOrder ctl1).exit = .returnedNil :=
  have hw : wellIdentified [awsRunning "i-1" ["1.2.3.4"], awsInState "i-2" "stopped" []] := by
    unfold wellIdentified
    decide
  have hconv : converged ctl1.addressPool
      [awsRunning "i-1" ["1.2.3.4"], awsInState "i-2" "stopped" []] := by
    unfold converged
    decide
  ⟨inv_ctl1, hw, hconv,
    converged_no_mutation (happyCloud [awsRunning "i-1" ["1.2.3.4"], awsInState "i-2" "stopped" []])
      storedOrder ctl1 _ inv_ctl1 rfl hw hconv⟩

/-- Witness of C1: a free running instance, a master-tagged one and one address, with the
maps visited in reverse order. -/
theorem assign_candidate_selection_witness :
    Inv ctl1 ∧
    ((runOnce (happyCloud [awsRunning "i-1" [], awsMaster "i-2" []]) reverseOrder
        ctl1).log.any (Event.associates "i-1" "1.2.3.4")) = true ∧
    (∀ id eip allocationID ok reg,
      Event.associateAddress id eip allocationID ok reg ∈
        (runOnce (happyCloud [awsRunning "i-1" [], awsMaster "i-2" []]) reverseOrder ctl1).log →
      ∃ i ∈ reg, i.ID = id ∧ notMasterTagged i ∧ i.canHaveElasticIP = true ∧
        i.elasticIPs = [] ∧
        ∀ j ∈ reg, notMasterTagged j → j.canHaveElasticIP = true → j.elasticIPs = [] →
          j.goodness ≤ i.goodness) :=
  ⟨inv_ctl1, by decide,
    (assign_candidate_selection (happyCloud [awsRunning "i-1" [], awsMaster "i-2" []])
      reverseOrder ctl1 inv_ctl1).1⟩

/-- C4 as stated fails: when the snapshot reports the pool address on two running instances,
both records hold it at the end of the pass. -/
theorem single_ownership_counterexample :
    (runOnce (happyCloud [awsRunning "i-1" ["1.2.3.4"], awsRunning "i-2" ["1.2.3.4"]])
      storedOrder ctl1).exit = .returnedNil ∧
    ∃ j1 ∈ (runOnce (happyCloud [awsRunning "i-1" ["1.2.3.4"], awsRunning "i-2" ["1.2.3.4"]])
        storedOrder ctl1).c.instances,
      ∃ j2 ∈ (runOnce (happyCloud [awsRunning "i-1" ["1.2.3.4"], awsRunning "i-2" ["1.2.3.4"]])
          storedOrder ctl1).c.instances,
        j1.ID = "i-1" ∧ j2.ID = "i-2" ∧ "1.2.3.4" ∈ j1.elasticIPs ∧ "1.2.3.4" ∈ j2.elasticIPs := by
  decide

/-- Witness of C4: the address moves from a stopped instance to a running one. -/
theorem single_ownership_witness :
    Inv ctl1 ∧
    singleReport ctl1.addressPool [awsInState "i-1" "stopped" ["1.2.3.4"], awsRunning "i-2" []] ∧
    (runOnce (happyCloud [awsInState "i-1" "stopped" ["1.2.3.4"], awsRunning "i-2" []])
      storedOrder ctl1).exit = .returnedNil ∧
    singleOwnership
      (runOnce (happyCloud [awsInState "i-1" "stopped" ["1.2.3.4"], awsRunning "i-2" []])
        storedOrder ctl1).c.instances :=
  have hs : singleReport ctl1.addressPool
      [awsInState "i-1" "stopped" ["1.2.3.4"], awsRunning "i-2" []] := by
    unfold singleReport
    decide
  ⟨inv_ctl1, hs, by decide,
    single_ownership (happyCloud [awsInState "i-1" "stopped" ["1.2.3.4"], awsRunning "i-2" []])
      storedOrder ctl1 _ inv_ctl1 rfl hs (by decide)⟩

/-- C6. The code panics where the claim promises a nil return: the snapshot shows a stopped
instance holding the pool address and the lookup of the address returns no address, so
`address.AssociationId` dereferences nil. -/
theorem absent_address_panics :
    DescribeAddress (some []) = .absent ∧
    (runOnce (forgetfulCloud [awsInState "i-1" "stopped" ["1.2.3.4"]]) storedOrder ctl1).log
      = [Event.describeAddress "1.2.3.4" .absent] ∧
    (runOnce (forgetfulCloud [awsInState "i-1" "stopped" ["1.2.3.4"]]) storedOrder ctl1).exit
      = .panicked := by
  decide

/-- Witness of C8: an unnamed record is skipped, a vanished instance is removed. -/
theorem registry_garbage_collection_witness :
    Inv ctl1 ∧
    regKeys (runOnce (happyCloud [awsNameless [], awsRunning "i-2" []]) storedOrder
      (runOnce (happyCloud [awsRunning "i-1" []]) storedOrder ctl1).c).c.instances = ["i-2"] ∧
    ((runOnce (happyCloud [awsNameless [], awsRunning "i-2" []]) storedOrder ctl1).exit
        = .returnedNil →
      (∀ id, id ∈ regKeys (runOnce (happyCloud [awsNameless [], awsRunning "i-2" []])
          storedOrder ctl1).c.instances ↔
        id ≠ "" ∧ id ∈ snapshotIds [awsNameless [], awsRunning "i-2" []]) ∧
      (∀ j ∈ (runOnce (happyCloud [awsNameless [], awsRunning "i-2" []]) storedOrder
          ctl1).c.instances,
        j.sequence = (runOnce (happyCloud [awsNameless [], awsRunning "i-2" []]) storedOrder
          ctl1).c.sequence)) :=
  ⟨inv_ctl1, by decide,
    (registry_garbage_collection (happyCloud [awsNameless [], awsRunning "i-2" []]) storedOrder
      ctl1 _ inv_ctl1 rfl).1⟩

/-- Witness of C9: a running, a stopped and an unknown state. -/
theorem eligibility_classification_witness :
    Inv ctl1 ∧
    (runOnce (happyCloud [awsRunning "i-1" [], awsInState "i-2" "stopped" [],
        awsInState "i-3" "rebooting" []]) storedOrder ctl1).exit = .returnedNil ∧
    ((runOnce (happyCloud [awsRunning "i-1" [], awsInState "i-2" "stopped" [],
        awsInState "i-3" "rebooting" []]) storedOrder ctl1).c.instances.map
      (fun j => (j.ID, j.canHaveElasticIP, j.goodness)))
      = [("i-1", true, 1), ("i-2", false, 0), ("i-3", false, 0)] ∧
    (∀ j ∈ (runOnce (happyCloud [awsRunning "i-1" [], awsInState "i-2" "stopped" [],
        awsInState "i-3" "rebooting" []]) storedOrder ctl1).c.instances,
      lastRecord [awsRunning "i-1" [], awsInState "i-2" "stopped" [],
        awsInState "i-3" "rebooting" []] j.ID = some j.status ∧
      j.canHaveElasticIP =
        classifiedCanHave (StringValue j.status.state.name) (priorCanHave ctl1.instances j.ID) ∧
      j.goodness = if StringValue j.status.state.name = "running" then 1 else 0) :=
  ⟨inv_ctl1, by decide, by decide,
    (eligibility_classification (happyCloud [awsRunning "i-1" [], awsInState "i-2" "stopped" [],
      awsInState "i-3" "rebooting" []]) storedOrder ctl1 _ inv_ctl1 rfl (by decide)).2⟩

theorem Attempted_congr (i j : Instance) (a : String) (log : List Event) (hid : i.ID = j.ID)
    (h : Attempted i a log) : Attempted j a log := by
  unfold Attempted at h ⊢
  rw [← hid]
  exact h

theorem reportsPublicIP_interface (r : AwsInstance) (a : String)
    (h : reportsPublicIP r a = true) :
    ∃ ni ∈ r.networkInterfaces, interfaceHas a ni = true := by
  unfold reportsPublicIP at h
  simp only [Bool.and_eq_true, List.any_eq_true] at h
  exact h.2

theorem returned_record (cloud : Cloud) (ord : RangeOrder) (c : ElasticIPController)
    (hc : Inv c) (snapshot : List AwsInstance)
    (hp : (swept cloud ord c snapshot).panicked = false) (j : Instance)
    (hj : j ∈ (assign cloud ord c.addressPool (swept cloud ord c snapshot)).instances) :
    ∃ j0 jj, regGet (swept cloud ord c snapshot).instances j.ID = some j0 ∧
      Grown c.addressPool (swept cloud ord c snapshot).addressMap [] j0 j ∧
      jj ∈ ingested c snapshot ∧ jj.sequence = nextSequence c.sequence ∧ jj.ID = j.ID ∧
      jj.status = j.status ∧ lastRecord snapshot j.ID = some j.status ∧
      jj.elasticIPs = observedElasticIPs c.addressPool j.status.networkInterfaces ∧
      (classify jj).eligible = j.eligible ∧ j0.eligible = j.eligible ∧
      Settled jj j0 (swept cloud ord c snapshot).log := by
  obtain ⟨j0, r, h0, hG, _, hl, hg, hset⟩ := returned_lineage cloud ord c hc snapshot hp j hj
  have h1 := (same_iff j0 j j.elasticIPs).1 hG.same
  have h2 := (same_iff (classify _) j0 j0.elasticIPs).1 hset.same
  have hstatus : j.status = r := by
    rw [h1.2.2.1, h2.2.2.1, classify_status]
    rfl
  have he0 : j0.eligible = j.eligible := by
    unfold Instance.eligible
    rw [h1.2.2.2.1, h1.2.2.2.2.1]
  refine ⟨j0, _, h0, hG, regGet_mem hg, rfl, rfl, hstatus.symm, by rw [hstatus]; exact hl,
    by rw [hstatus]; rfl, ?_, he0, hset⟩
  rw [← he0]
  unfold Instance.eligible
  rw [h2.2.2.2.1, h2.2.2.2.2.1]

/-- C5. When every `DescribeAddress` lookup returns an address, the pass runs to its end and
requests `DisassociateAddress(i, a, assoc)` exactly for the pairs where `i` is a registry
instance (its status is the record of `i` in the snapshot) that is not effectively eligible
after classification, `a` is in the pool and that record reports `a` as the public IP of one of
its network-interface associations; each request comes right after a lookup of `a` and passes
the association identifier of the address that the lookup returned.  When the identifiers of
the snapshot are pairwise distinct the record of `i` is any snapshot record with that
identifier. -/
theorem detach_on_ineligibility (cloud : Cloud) (ord : RangeOrder) (c : ElasticIPController)
    (snapshot : List AwsInstance) (hc : Inv c)
    (hd : cloud.describeInstances = some snapshot)
    (hfound : ∀ n ip, ∃ address, DescribeAddress (cloud.describeAddresses n ip) = .found address) :
    (runOnce cloud ord c).exit = .returnedNil ∧
    (∀ j ∈ (runOnce cloud ord c).c.instances, lastRecord snapshot j.ID = some j.status) ∧
    (∀ id a,
      (∃ associationID ok,
        Event.disassociateAddress id a associationID ok ∈ (runOnce cloud ord c).log) ↔
      ∃ j ∈ (runOnce cloud ord c).c.instances, j.ID = id ∧ j.eligible = false ∧
        a ∈ mapKeys c.addressPool ∧ reportsPublicIP j.status a = true) ∧
    (∀ pre post id a associationID ok,
      (runOnce cloud ord c).log
        = pre ++ Event.disassociateAddress id a associationID ok :: post →
      ∃ pre2 address, pre = pre2 ++ [Event.describeAddress a (.found address)] ∧
        associationID = StringValue address.associationId) ∧
    ((snapshotIds snapshot).Nodup → ∀ id a,
      (∃ associationID ok,
        Event.disassociateAddress id a associationID ok ∈ (runOnce cloud ord c).log) ↔
      ∃ r ∈ snapshot, StringValue r.instanceId = id ∧ a ∈ mapKeys c.addressPool ∧
        reportsPublicIP r a = true ∧
        ∃ j ∈ (runOnce cloud ord c).c.instances, j.ID = id ∧ j.eligible = false) := by
  have hnoabs : ∀ n ip, DescribeAddress (cloud.describeAddresses n ip) ≠ .absent := by
    intro n ip hcon
    obtain ⟨address, h⟩ := hfound n ip
    rw [hcon] at h
    cases h
  have hp := swept_no_panic cloud ord c hc snapshot hnoabs
  have hsw := swept_inv cloud ord c hc snapshot
  have hA := assigned_inv cloud ord c hc snapshot hp
  have hlogc := runOnce_log_cases cloud ord c hc
  rw [runOnce_of_returned cloud ord c snapshot hd hp] at hlogc ⊢
  simp only at hlogc ⊢
  have hrec : ∀ j ∈ (assign cloud ord c.addressPool (swept cloud ord c snapshot)).instances,
      lastRecord snapshot j.ID = some j.status := by
    intro j hj
    obtain ⟨_, _, _, _, _, _, _, _, h, _⟩ := returned_record cloud ord c hc snapshot hp j hj
    exact h
  have hiff : ∀ id a,
      (∃ associationID ok, Event.disassociateAddress id a associationID ok ∈
        (assign cloud ord c.addressPool (swept cloud ord c snapshot)).log) ↔
      ∃ j ∈ (assign cloud ord c.addressPool (swept cloud ord c snapshot)).instances,
        j.ID = id ∧ j.eligible = false ∧ a ∈ mapKeys c.addressPool ∧
          reportsPublicIP j.status a = true := ?_
  refine ⟨trivial, hrec, hiff, ?_, ?_⟩
  rotate_left 2
  · intro id a
    constructor
    · rintro ⟨x, ok, he⟩
      obtain ⟨snap2, hd2, h1 | ⟨_, h1⟩⟩ := hlogc _ he
      · rw [hd] at hd2
        cases hd2
        obtain ⟨jj, h2, h3, h4, h5, h6, _⟩ := h1
        obtain ⟨h7, r, h8, h9⟩ := ingest_fresh c hc snapshot jj h2 h3
        obtain ⟨j0, j, g0, hset, g1, hG⟩ := returned_kept cloud ord c hc snapshot hp jj.ID r h7 h8
        obtain ⟨_, jj2, _, _, _, _, hid2, hst2, _, hips2, hel2, _, _⟩ :=
          returned_record cloud ord c hc snapshot hp j (regGet_mem g1)
        have hjid : j.ID = jj.ID := regGet_id g1
        have hjj : jj2 = jj := by
          have k1 := regGet_of_mem (ingest_nodup _ _ _ _ hc.keys) h2
          have k2 := regGet_of_mem (ingest_nodup _ _ _ _ hc.keys) (by assumption : jj2 ∈ _)
          rw [hid2, hjid] at k2
          rw [k1] at k2
          cases k2
          rfl
        subst hjj
        rw [hips2] at h6
        have h10 := (mem_observedElasticIPs c.addressPool j.status a).1 h6
        exact ⟨j, regGet_mem g1, by rw [hjid, h5], by rw [← hel2]; exact h4, h10.1, h10.2⟩
      · exact absurd h1 (by simp [AssignEvent])
    · rintro ⟨j, hj, hid, hel, hpool, hrep⟩
      obtain ⟨j0, jj, _, _, _, _, hjid, hst, _, hips, hel2, _, hset⟩ :=
        returned_record cloud ord c hc snapshot hp j hj
      have ha : a ∈ jj.elasticIPs := by
        rw [hips]
        exact (mem_observedElasticIPs c.addressPool j.status a).2 ⟨hpool, hrep⟩
      obtain ⟨result, hres, hreq⟩ := hset.attempted (by rw [hel2]; exact hel) a ha
        (by rw [hst]; exact reportsPublicIP_interface j.status a hrep)
      obtain ⟨_, _, _, _, _, hev⟩ := hsw.only _ hres
      obtain ⟨_, n, hn⟩ := hev
      obtain ⟨address, haddr⟩ := hfound n a
      rw [haddr] at hn
      obtain ⟨ok, hok⟩ := hreq address hn
      rw [hjid, hid] at hok
      exact ⟨_, ok, hA.grow _ hok⟩
  · intro pre post id a x ok hsplit
    exact pairedFrom_explicit _ pre post id a x ok hA.paired hsplit
  · intro hn id a
    rw [hiff id a]
    constructor
    · rintro ⟨j, hj, hid, hel, hpool, hrep⟩
      have h1 := lastRecord_some (hrec j hj)
      exact ⟨j.status, h1.1, h1.2.trans hid, hpool, hrep, j, hj, hid, hel⟩
    · rintro ⟨r, hr, hid, hpool, hrep, j, hj, hjid, hel⟩
      have h1 := hrec j hj
      have h2 := lastRecord_of_wellIdentified snapshot hn r hr
      rw [hid, ← hjid, h1] at h2
      cases h2
      exact ⟨j, hj, hjid, hel, hpool, hrep⟩

/-- Witness of C5: a stopped instance holds the pool address, a running one is free. -/
theorem detach_on_ineligibility_witness :
    Inv ctl1 ∧
    (runOnce (happyCloud [awsInState "i-1" "stopped" ["1.2.3.4"], awsRunning "i-2" []])
      storedOrder ctl1).log.map (Event.disassociates "i-1" "1.2.3.4") = [false, true, false] ∧
    (∀ id a,
      (∃ associationID ok, Event.disassociateAddress id a associationID ok ∈
        (runOnce (happyCloud [awsInState "i-1" "stopped" ["1.2.3.4"], awsRunning "i-2" []])
          storedOrder ctl1).log) ↔
      ∃ j ∈ (runOnce (happyCloud [awsInState "i-1" "stopped" ["1.2.3.4"], awsRunning "i-2" []])
          storedOrder ctl1).c.instances,
        j.ID = id ∧ j.eligible = false ∧ a ∈ mapKeys ctl1.addressPool ∧
          reportsPublicIP j.status a = true) :=
  ⟨inv_ctl1, by decide,
    (detach_on_ineligibility
      (happyCloud [awsInState "i-1" "stopped" ["1.2.3.4"], awsRunning "i-2" []]) storedOrder ctl1
      _ inv_ctl1 rfl (fun _ _ => ⟨_, rfl⟩)).2.2.1⟩

/-- C10. After a pass that ran to its end, for an instance `i` that is not effectively eligible
and an address `a` of the pool that the snapshot reports on it: if a `DisassociateAddress`
request for `(i, a)` succeeded then `a` is not in `i.elasticIPs`; if none succeeded (the lookup
failed or the request failed) then `a` is still in `i.elasticIPs` and no `AssociateAddress` call
was made for `a`; and in either case the lookup, and the request when the lookup found an
address, were made for every such pair, so a failure does not stop the pass.  The pass runs to
its end whenever no lookup comes back without an address. -/
theorem detach_bookkeeping (cloud : Cloud) (ord : RangeOrder) (c : ElasticIPController)
    (snapshot : List AwsInstance) (hc : Inv c)
    (hd : cloud.describeInstances = some snapshot) :
    ((∀ n ip, DescribeAddress (cloud.describeAddresses n ip) ≠ .absent) →
      (runOnce cloud ord c).exit = .returnedNil) ∧
    ((runOnce cloud ord c).exit = .returnedNil →
      ∀ j ∈ (runOnce cloud ord c).c.instances, j.eligible = false →
        ∀ a ∈ mapKeys c.addressPool, reportsPublicIP j.status a = true →
          ((∃ associationID, Event.disassociateAddress j.ID a associationID true ∈
              (runOnce cloud ord c).log) → a ∉ j.elasticIPs) ∧
          ((∀ associationID ok, Event.disassociateAddress j.ID a associationID ok ∈
              (runOnce cloud ord c).log → ok = false) →
            a ∈ j.elasticIPs ∧
            ∀ id allocationID ok reg,
              Event.associateAddress id a allocationID ok reg ∉ (runOnce cloud ord c).log) ∧
          Attempted j a (runOnce cloud ord c).log) := by
  refine ⟨runOnce_returns cloud ord c hc snapshot hd, ?_⟩
  intro hexit
  have hp := (runOnce_exit cloud ord c snapshot hd).1.1 hexit
  have hsw := swept_inv cloud ord c hc snapshot
  have hA := assigned_inv cloud ord c hc snapshot hp
  rw [runOnce_of_returned cloud ord c snapshot hd hp]
  simp only
  intro j hj hel a hpool hrep
  obtain ⟨j0, jj, g0, hG, _, _, hjid, hst, _, hips, hel2, hel0, hset⟩ :=
    returned_record cloud ord c hc snapshot hp j hj
  have hfix : j = j0 := by
    apply hG.fixed
    unfold Instance.candidate
    unfold Instance.eligible at hel0 hel
    rw [hel] at hel0
    rw [hel0]
    rfl
  have ha : a ∈ jj.elasticIPs := by
    rw [hips]
    exact (mem_observedElasticIPs c.addressPool j.status a).2 ⟨hpool, hrep⟩
  have hrem := hset.removed a ha
  rw [← hfix, hjid] at hrem
  have hback : ∀ x ok, Event.disassociateAddress j.ID a x ok ∈
      (assign cloud ord c.addressPool (swept cloud ord c snapshot)).log →
      Event.disassociateAddress j.ID a x ok ∈ (swept cloud ord c snapshot).log := by
    intro x ok he
    rcases hA.only _ he with h1 | h1
    · exact h1
    · exact absurd h1 (by simp [AssignEvent])
  refine ⟨?_, ?_, ?_⟩
  · rintro ⟨x, hx⟩
    exact hrem.2 ⟨x, hback x true hx⟩
  · intro hall
    have hin : a ∈ j.elasticIPs := by
      by_contra hcon
      obtain ⟨x, hx⟩ := hrem.1 hcon
      have := hall x true (hA.grow _ hx)
      cases this
    refine ⟨hin, ?_⟩
    intro id alloc ok reg he
    rcases hA.only _ he with h1 | h1
    · obtain ⟨_, _, _, _, _, h2⟩ := hsw.only _ h1
      exact absurd h2 (by simp [DetachEvent])
    · apply h1.2.1
      rw [sweep_holders hsw hp]
      exact ⟨j0, regGet_mem g0, hfix ▸ hin⟩
  · have hatt := hset.attempted (by rw [hel2]; exact hel) a ha
      (by rw [hst]; exact reportsPublicIP_interface j.status a hrep)
    exact Attempted_congr jj j a _ hjid (Attempted_mono jj a _ _ hA.grow hatt)

/-- Witness of C10: the request to detach the address from a stopped instance fails. -/
theorem detach_bookkeeping_witness :
    Inv ctl1 ∧
    (runOnce (stubbornCloud [awsInState "i-1" "stopped" ["1.2.3.4"], awsRunning "i-2" []])
      storedOrder ctl1).log =
      [Event.describeAddress "1.2.3.4"
          (.found ⟨some "1.2.3.4", some "eipalloc-1", some "eipassoc-1"⟩),
        Event.disassociateAddress "i-1" "1.2.3.4" "eipassoc-1" false] ∧
    ((runOnce (stubbornCloud [awsInState "i-1" "stopped" ["1.2.3.4"], awsRunning "i-2" []])
        storedOrder ctl1).exit = .returnedNil →
      ∀ j ∈ (runOnce (stubbornCloud [awsInState "i-1" "stopped" ["1.2.3.4"], awsRunning "i-2" []])
          storedOrder ctl1).c.instances, j.eligible = false →
        ∀ a ∈ mapKeys ctl1.addressPool, reportsPublicIP j.status a = true →
          ((∃ associationID, Event.disassociateAddress j.ID a associationID true ∈
              (runOnce (stubbornCloud
                [awsInState "i-1" "stopped" ["1.2.3.4"], awsRunning "i-2" []])
                storedOrder ctl1).log) → a ∉ j.elasticIPs) ∧
          ((∀ associationID ok, Event.disassociateAddress j.ID a associationID ok ∈
              (runOnce (stubbornCloud
                [awsInState "i-1" "stopped" ["1.2.3.4"], awsRunning "i-2" []])
                storedOrder ctl1).log → ok = false) →
            a ∈ j.elasticIPs ∧
            ∀ id allocationID ok reg,
              Event.associateAddress id a allocationID ok reg ∉
                (runOnce (stubbornCloud
                  [awsInState "i-1" "stopped" ["1.2.3.4"], awsRunning "i-2" []])
                  storedOrder ctl1).log) ∧
          Attempted j a
            (runOnce (stubbornCloud [awsInState "i-1" "stopped" ["1.2.3.4"], awsRunning "i-2" []])
              storedOrder ctl1).log) :=
  ⟨inv_ctl1, by decide,
    (detach_bookkeeping
      (stubbornCloud [awsInState "i-1" "stopped" ["1.2.3.4"], awsRunning "i-2" []]) storedOrder
      ctl1 _ inv_ctl1 rfl).2⟩

/-! ## Convergence -/

theorem countP_regSet (p : Instance → Bool) (reg : List Instance) (i : Instance) :
    reg.countP p ≤ (regSet reg i).countP p + 1 := by
  induction reg with
  | nil => simp [regSet]
  | cons x reg ih =>
    unfold regSet
    split_ifs with h
    · simp only [List.countP_cons]
      split_ifs <;> omega
    · simp only [List.countP_cons]
      omega

theorem heldIn_of_addressMap (cloud : Cloud) (pool : List (String × Address)) (s0 s : Pass)
    (todo : List String) (h : AssignInv cloud pool s0 todo s)
    (hhold : ∀ a, a ∈ mapKeys s0.addressMap ↔ ∃ j ∈ s0.instances, a ∈ j.elasticIPs)
    (hn0 : (regKeys s0.instances).Nodup)
    (a : String) (ha : a ∈ mapKeys s0.addressMap) : heldIn s.instances a := by
  obtain ⟨j0, hj0, h1⟩ := (hhold a).1 ha
  obtain ⟨j, hj, hG⟩ := h.grown j0.ID j0 (regGet_of_mem hn0 hj0)
  exact ⟨j, regGet_mem hj, hG.sub a h1⟩

theorem assignAddress_all (cloud : Cloud) (ord : RangeOrder) (pool : List (String × Address))
    (s0 : Pass) (e : String) (todo : List String) (s : Pass)
    (hhold : ∀ a, a ∈ mapKeys s0.addressMap ↔ ∃ j ∈ s0.instances, a ∈ j.elasticIPs)
    (hn0 : (regKeys s0.instances).Nodup)
    (h : AssignInv cloud pool s0 (e :: todo) s) (he : e ∈ mapKeys pool)
    (hassoc : ∀ n id a x, cloud.associateAddress n id a x = true)
    (hcand : 1 ≤ s.instances.countP Instance.candidate) :
    heldIn (assignAddress cloud ord pool s e).instances e ∧
    (∀ a, heldIn s.instances a → heldIn (assignAddress cloud ord pool s e).instances a) ∧
    s.instances.countP Instance.candidate
      ≤ (assignAddress cloud ord pool s e).instances.countP Instance.candidate + 1 := by
  obtain ⟨address, hg⟩ := Option.isSome_iff_exists.1 ((mapGet_isSome_iff pool e).2 he)
  by_cases hm : (mapGet s.addressMap e).isSome = true
  · rw [assignAddress_skip _ _ _ _ _ (Or.inr (Or.inl hm))]
    refine ⟨?_, fun _ h => h, Nat.le_succ _⟩
    apply heldIn_of_addressMap cloud pool s0 s _ h hhold hn0
    rw [← h.amap, ← mapGet_isSome_iff]
    exact hm
  · simp only [Bool.not_eq_true] at hm
    cases hpick : pick ord e s.instances with
    | none =>
      have hall := pick_none ord e s.instances h.keys hpick
      have : s.instances.countP Instance.candidate = 0 := by
        rw [List.countP_eq_zero]
        intro j hj
        rw [hall j hj]
        simp
      omega
    | some chosen =>
      rw [assignAddress_call _ _ _ _ _ address chosen hg hm hpick]
      simp only [hassoc, if_true]
      obtain ⟨hcmem, hcc, _⟩ := pick_some ord e s.instances h.keys chosen hpick
      have hnil : chosen.elasticIPs = [] := by
        unfold Instance.candidate at hcc
        simp only [Bool.and_eq_true, List.isEmpty_iff] at hcc
        exact hcc.2
      refine ⟨?_, ?_, countP_regSet _ _ _⟩
      · exact ⟨_, (mem_regSet_iff h.keys _ _).2 (Or.inl rfl), by simp [mem_setInsert]⟩
      · rintro a ⟨j, hj, ha⟩
        refine ⟨j, (mem_regSet_iff h.keys _ _).2 (Or.inr ⟨hj, ?_⟩), ha⟩
        intro hid
        have k1 := regGet_of_mem h.keys hj
        have k2 := regGet_of_mem h.keys hcmem
        simp only at hid
        rw [hid, k2] at k1
        cases k1
        rw [hnil] at ha
        cases ha

theorem assign_fold_all (cloud : Cloud) (ord : RangeOrder) (pool : List (String × Address))
    (s0 : Pass) (todo : List String) (s : Pass)
    (hhold : ∀ a, a ∈ mapKeys s0.addressMap ↔ ∃ j ∈ s0.instances, a ∈ j.elasticIPs)
    (hn0 : (regKeys s0.instances).Nodup)
    (hassoc : ∀ n id a x, cloud.associateAddress n id a x = true)
    (hn : todo.Nodup) (hin : ∀ a ∈ todo, a ∈ mapKeys pool)
    (h : AssignInv cloud pool s0 todo s)
    (hcount : todo.length ≤ s.instances.countP Instance.candidate) :
    ∀ a, a ∈ todo ∨ heldIn s.instances a →
      heldIn (todo.foldl (assignAddress cloud ord pool) s).instances a := by
  induction todo generalizing s with
  | nil =>
    intro a ha
    rcases ha with ha | ha
    · cases ha
    · exact ha
  | cons e todo ih =>
    rw [List.nodup_cons] at hn
    simp only [List.length_cons] at hcount
    obtain ⟨h1, h2, h3⟩ := assignAddress_all cloud ord pool s0 e todo s hhold hn0 h
      (hin e (List.mem_cons_self _ _)) hassoc (by omega)
    have hnext := ih (assignAddress cloud ord pool s e) hn.2
      (fun a ha => hin a (List.mem_cons_of_mem _ ha))
      (assignAddress_inv cloud ord pool s0 e todo s hhold hn.1 h) (by omega)
    intro a ha
    rw [List.foldl_cons]
    rcases ha with ha | ha
    · rcases List.mem_cons.1 ha with rfl | ha2
      · exact hnext a (Or.inr h1)
      · exact hnext a (Or.inl ha2)
    · exact hnext a (Or.inr (h2 a ha))

theorem swept_free_candidate (cloud : Cloud) (ord : RangeOrder) (c : ElasticIPController)
    (hc : Inv c) (snapshot : List AwsInstance)
    (hp : (swept cloud ord c snapshot).panicked = false) (hw : wellIdentified snapshot)
    (r : AwsInstance) (hr : r ∈ snapshot) (hfree : freeRunning c.addressPool r = true) :
    ∃ j ∈ (swept cloud ord c snapshot).instances,
      j.ID = StringValue r.instanceId ∧ j.candidate = true := by
  have hid : StringValue r.instanceId ≠ "" := by
    intro hcon
    exact hw.2 (hcon ▸ List.mem_map_of_mem (fun r => StringValue r.instanceId) hr)
  obtain ⟨j0, _, g0, hset, _, _⟩ := returned_kept cloud ord c hc snapshot hp _ r hid
    (lastRecord_of_wellIdentified snapshot hw.1 r hr)
  unfold freeRunning at hfree
  simp only [Bool.and_eq_true, Bool.not_eq_true'] at hfree
  obtain ⟨⟨h1, h2⟩, h3⟩ := hfree
  have helig : (classify (refreshed c.addressPool (nextSequence c.sequence)
      (regGet c.instances (StringValue r.instanceId)) (StringValue r.instanceId) r)).eligible
        = true := by
    apply classify_running_eligible
    · simpa [isRunning, refreshed] using h1
    · simp [refreshed, h2]
  have hsame := (same_iff (classify _) j0 j0.elasticIPs).1 hset.same
  have hnil : j0.elasticIPs = [] := by
    rw [List.eq_nil_iff_forall_not_mem]
    intro a ha
    have h4 := hset.sub a ha
    have h5 := (mem_observedElasticIPs c.addressPool r a).1 h4
    have h6 := (reportsPoolAddress_iff c.addressPool r).2 ⟨a, h5.1, h5.2⟩
    rw [h3] at h6
    cases h6
  refine ⟨j0, regGet_mem g0, regGet_id g0, ?_⟩
  unfold Instance.candidate
  unfold Instance.eligible at helig
  rw [hsame.2.2.2.1, hsame.2.2.2.2.1, helig, hnil]
  rfl

theorem swept_candidate_count (cloud : Cloud) (ord : RangeOrder) (c : ElasticIPController)
    (hc : Inv c) (snapshot : List AwsInstance)
    (hp : (swept cloud ord c snapshot).panicked = false) (hw : wellIdentified snapshot) :
    (snapshot.filter (freeRunning c.addressPool)).length
      ≤ (swept cloud ord c snapshot).instances.countP Instance.candidate := by
  have hnodup : ((snapshot.filter (freeRunning c.addressPool)).map
      (fun r => StringValue r.instanceId)).Nodup :=
    hw.1.sublist (List.Sublist.map _ (List.filter_sublist snapshot))
  have hsub : ((snapshot.filter (freeRunning c.addressPool)).map
      (fun r => StringValue r.instanceId)) ⊆
      (((swept cloud ord c snapshot).instances.filter Instance.candidate).map
        (fun j => j.ID)) := by
    intro id hid
    rw [List.mem_map] at hid
    obtain ⟨r, hr, rfl⟩ := hid
    rw [List.mem_filter] at hr
    obtain ⟨j, hj, h1, h2⟩ := swept_free_candidate cloud ord c hc snapshot hp hw r hr.1 hr.2
    rw [List.mem_map]
    exact ⟨j, List.mem_filter.2 ⟨hj, h2⟩, h1⟩
  have := (List.subperm_of_subset hnodup hsub).length_le
  simpa [List.countP_eq_length_filter] using this

theorem returned_holder_eligible (cloud : Cloud) (ord : RangeOrder) (c : ElasticIPController)
    (hc : Inv c) (snapshot : List AwsInstance)
    (hp : (swept cloud ord c snapshot).panicked = false) (hcloud : obliging cloud)
    (j : Instance)
    (hj : j ∈ (assign cloud ord c.addressPool (swept cloud ord c snapshot)).instances)
    (a : String) (ha : a ∈ j.elasticIPs) : j.eligible = true := by
  have hsw := swept_inv cloud ord c hc snapshot
  obtain ⟨j0, jj, g0, hG, _, _, hjid, hst, _, hips, hel2, hel0, hset⟩ :=
    returned_record cloud ord c hc snapshot hp j hj
  cases hel : j.eligible with
  | true => rfl
  | false =>
    exfalso
    have hfix : j = j0 := by
      apply hG.fixed
      unfold Instance.candidate
      unfold Instance.eligible at hel0 hel
      rw [hel] at hel0
      rw [hel0]
      rfl
    have ha0 : a ∈ j0.elasticIPs := hfix ▸ ha
    have hajj := hset.sub a ha0
    have hrep := (mem_observedElasticIPs c.addressPool j.status a).1 (hips ▸ hajj)
    obtain ⟨result, hres, hreq⟩ := hset.attempted (by rw [hel2]; exact hel) a hajj
      (by rw [hst]; exact reportsPublicIP_interface j.status a hrep.2)
    obtain ⟨_, _, _, _, _, hev⟩ := hsw.only _ hres
    obtain ⟨_, n, hn⟩ := hev
    obtain ⟨address, haddr⟩ := hcloud.1 n a
    rw [haddr] at hn
    obtain ⟨ok, hok⟩ := hreq address hn
    obtain ⟨_, _, _, _, _, hev2⟩ := hsw.only _ hok
    obtain ⟨_, _, m, hm⟩ := hev2
    rw [hcloud.2.1] at hm
    subst hm
    exact (hset.removed a hajj).2 ⟨_, hok⟩ ha0

/-- C3, as amended. When the records of the snapshot carry non-empty, pairwise distinct
identifiers, no pool address is reported on more than one instance, at least as many instances
are running, not master-tagged and free of pool addresses as the pool has addresses, and every
cloud call of the pass succeeds, then the pass returns nil and at its end every pool address is
held by exactly one registry instance, which is a pool node that can have an elastic IP.  With
pool `1.2.3.4` and the single instance `i-1` the log is the one call
`AssociateAddress(i-1, 1.2.3.4, allocationID of the pool entry)`. -/
theorem convergence_in_one_pass (cloud : Cloud) (ord : RangeOrder) (c : ElasticIPController)
    (snapshot : List AwsInstance) (hc : Inv c)
    (hd : cloud.describeInstances = some snapshot) (hw : wellIdentified snapshot)
    (hsingle : singleReport c.addressPool snapshot)
    (hcount : (mapKeys c.addressPool).length
      ≤ (snapshot.filter (freeRunning c.addressPool)).length)
    (hcloud : obliging cloud) :
    (runOnce cloud ord c).exit = .returnedNil ∧
    (∀ a ∈ mapKeys c.addressPool, ∃ j ∈ (runOnce cloud ord c).c.instances,
      a ∈ j.elasticIPs ∧ j.poolNode = true ∧ j.canHaveElasticIP = true ∧
      ∀ j2 ∈ (runOnce cloud ord c).c.instances, a ∈ j2.elasticIPs → j2 = j) ∧
    (∀ address r, c.addressPool = [("1.2.3.4", address)] → snapshot = [r] →
      StringValue r.instanceId = "i-1" →
      ∃ reg, (runOnce cloud ord c).log =
        [Event.associateAddress "i-1" "1.2.3.4" (StringValue address.allocationId) true reg]) := by
  have hnoabs : ∀ n ip, DescribeAddress (cloud.describeAddresses n ip) ≠ .absent := by
    intro n ip hcon
    obtain ⟨address, h⟩ := hcloud.1 n ip
    rw [hcon] at h
    cases h
  have hp := swept_no_panic cloud ord c hc snapshot hnoabs
  have hsw := swept_inv cloud ord c hc snapshot
  have hhold := sweep_holders hsw hp
  have hperm := ord.perm .pool (mapKeys c.addressPool)
  have hheld : ∀ a ∈ mapKeys c.addressPool,
      heldIn (assign cloud ord c.addressPool (swept cloud ord c snapshot)).instances a := by
    intro a ha
    unfold assign
    refine assign_fold_all cloud ord c.addressPool (swept cloud ord c snapshot) _ _ hhold
      hsw.keys hcloud.2.2 (hperm.nodup_iff.2 hc.pool) (fun x hx => hperm.mem_iff.1 hx)
      (AssignInv_init cloud c.addressPool _ _ hhold hsw.keys hsw.paired) ?_ a
      (Or.inl (hperm.mem_iff.2 ha))
    rw [hperm.length_eq]
    exact le_trans hcount (swept_candidate_count cloud ord c hc snapshot hp hw)
  rw [runOnce_of_returned cloud ord c snapshot hd hp]
  simp only
  refine ⟨trivial, ?_, ?_⟩
  · intro a ha
    obtain ⟨j, hj, haj⟩ := hheld a ha
    have hel := returned_holder_eligible cloud ord c hc snapshot hp hcloud j hj a haj
    unfold Instance.eligible at hel
    rw [Bool.and_eq_true] at hel
    refine ⟨j, hj, haj, hel.1, hel.2, ?_⟩
    intro j2 hj2 h2
    exact returned_single_holder cloud ord c hc snapshot hp hsingle a j2 hj2 j hj h2 haj
  · intro address r hpool hsnap hid
    have hkeys : mapKeys c.addressPool = ["1.2.3.4"] := by
      rw [hpool]
      rfl
    have hfree : freeRunning c.addressPool r = true := by
      by_contra hcon
      rw [hkeys, hsnap] at hcount
      simp [List.filter, hcon] at hcount
    have hrfree : ∀ a ∈ mapKeys c.addressPool, reportsPublicIP r a = false := by
      intro a ha
      unfold freeRunning at hfree
      simp only [Bool.and_eq_true, Bool.not_eq_true'] at hfree
      by_contra hcon
      have := (reportsPoolAddress_iff c.addressPool r).2 ⟨a, ha, by simpa using hcon⟩
      rw [hfree.2] at this
      cases this
    have hunheld : ∀ j ∈ (swept cloud ord c snapshot).instances,
        ∀ a, a ∉ j.elasticIPs := by
      intro j hj a ha
      obtain ⟨h1, r2, h2, _, _, h3⟩ := swept_reported cloud ord c hc snapshot hp j hj a ha
      rw [hsnap, List.mem_singleton] at h2
      rw [h2, hrfree a h1] at h3
      cases h3
    have hlog : (swept cloud ord c snapshot).log = [] := by
      rw [List.eq_nil_iff_forall_not_mem]
      intro e he
      obtain ⟨jj, h1, _, h3, h4, h5⟩ := hsw.only e he
      obtain ⟨h6, r2, h7, h8⟩ := ingest_fresh c hc snapshot jj h1 h3
      obtain ⟨j0, _, g0, hset, _, _⟩ := returned_kept cloud ord c hc snapshot hp _ r2 h6 h7
      have hr2 : r2 = r := by
        have := (lastRecord_some h7).1
        rw [hsnap, List.mem_singleton] at this
        exact this
      have hel : (classify jj).eligible = true := by
        unfold freeRunning at hfree
        simp only [Bool.and_eq_true, Bool.not_eq_true'] at hfree
        apply classify_running_eligible
        · rw [h8, hr2]
          simpa [isRunning, refreshed] using hfree.1.1
        · rw [h8, hr2]
          simp [refreshed, hfree.1.2]
      rw [hel] at h4
      cases h4
    have horder : ord.order .pool (mapKeys c.addressPool) = ["1.2.3.4"] := by
      rw [hkeys] at hperm ⊢
      exact List.perm_singleton.1 hperm
    have hget : mapGet c.addressPool "1.2.3.4" = some address := by
      rw [hpool]
      simp [mapGet]
    have hm : (mapGet (swept cloud ord c snapshot).addressMap "1.2.3.4").isSome = false := by
      cases hx : (mapGet (swept cloud ord c snapshot).addressMap "1.2.3.4").isSome with
      | false => rfl
      | true =>
        obtain ⟨j, hj, haj⟩ := (hhold "1.2.3.4").1 ((mapGet_isSome_iff _ _).1 hx)
        exact absurd haj (hunheld j hj _)
    unfold assign
    rw [horder, List.foldl_cons, List.foldl_nil]
    cases hpick : pick ord "1.2.3.4" (swept cloud ord c snapshot).instances with
    | none =>
      have hh := hheld "1.2.3.4" (by rw [hkeys]; exact List.mem_singleton_self _)
      unfold assign at hh
      rw [horder, List.foldl_cons, List.foldl_nil,
        assignAddress_skip _ _ _ _ _ (Or.inr (Or.inr hpick))] at hh
      obtain ⟨j, hj, haj⟩ := hh
      exact absurd haj (hunheld j hj _)
    | some chosen =>
      rw [assignAddress_call _ _ _ _ _ address chosen hget hm hpick]
      simp only [hlog, List.nil_append, hcloud.2.2]
      obtain ⟨hcmem, _, _⟩ := pick_some ord _ _ hsw.keys chosen hpick
      obtain ⟨jj, h1, h2, _⟩ := sweep_origin hsw hp chosen hcmem
      obtain ⟨_, r2, h7, _⟩ := ingest_fresh c hc snapshot jj (regGet_mem h1) h2
      rw [regGet_id h1] at h7
      have h8 := lastRecord_some h7
      rw [hsnap, List.mem_singleton] at h8
      rw [h8.1, hid] at h8
      rw [← h8.2]
      exact ⟨_, rfl⟩

/-- C3 as stated fails: the only free running instance of the snapshot has no identifier, so
the registry has no candidate and the pool address stays unassigned; likewise when the two
free records carry the same identifier and the pool has two addresses. -/
theorem convergence_in_one_pass_counterexample :
    (obliging (happyCloud [awsNameless []]) ∧
      singleReport ctl1.addressPool [awsNameless []] ∧
      (mapKeys ctl1.addressPool).length ≤ ([awsNameless []].filter
        (freeRunning ctl1.addressPool)).length ∧
      (runOnce (happyCloud [awsNameless []]) storedOrder ctl1).exit = .returnedNil ∧
      (runOnce (happyCloud [awsNameless []]) storedOrder ctl1).c.instances = []) ∧
    (singleReport ctl2.addressPool [awsRunning "i-1" [], awsRunning "i-1" []] ∧
      (mapKeys ctl2.addressPool).length ≤ ([awsRunning "i-1" [], awsRunning "i-1" []].filter
        (freeRunning ctl2.addressPool)).length ∧
      (runOnce (happyCloud [awsRunning "i-1" [], awsRunning "i-1" []]) storedOrder ctl2).exit
        = .returnedNil ∧
      (runOnce (happyCloud [awsRunning "i-1" [], awsRunning "i-1" []]) storedOrder
        ctl2).c.instances.map (fun j => (j.ID, j.elasticIPs)) = [("i-1", ["1.2.3.4"])]) := by
  refine ⟨⟨⟨fun _ _ => ⟨_, rfl⟩, fun _ _ _ _ => rfl, fun _ _ _ _ => rfl⟩, ?_, by decide,
    by decide, by decide⟩, ?_, by decide, by decide, by decide⟩
  · unfold singleReport
    decide
  · unfold singleReport
    decide

/-- Witness of C3: the scenario of the claim, and a pass that moves the address from a
stopped instance to the free running one. -/
theorem convergence_in_one_pass_witness :
    Inv ctl1 ∧ obliging (happyCloud [awsInState "i-0" "stopped" ["1.2.3.4"], awsRunning "i-1" []]) ∧
    (runOnce (happyCloud [awsRunning "i-1" []]) storedOrder ctl1).log.map
      (Event.associates "i-1" "1.2.3.4") = [true] ∧
    (runOnce (happyCloud [awsInState "i-0" "stopped" ["1.2.3.4"], awsRunning "i-1" []])
      storedOrder ctl1).exit = .returnedNil ∧
    (∀ a ∈ mapKeys ctl1.addressPool,
      ∃ j ∈ (runOnce (happyCloud [awsInState "i-0" "stopped" ["1.2.3.4"], awsRunning "i-1" []])
          storedOrder ctl1).c.instances,
        a ∈ j.elasticIPs ∧ j.poolNode = true ∧ j.canHaveElasticIP = true ∧
        ∀ j2 ∈ (runOnce (happyCloud [awsInState "i-0" "stopped" ["1.2.3.4"], awsRunning "i-1" []])
            storedOrder ctl1).c.instances, a ∈ j2.elasticIPs → j2 = j) :=
  have hcloud : obliging
      (happyCloud [awsInState "i-0" "stopped" ["1.2.3.4"], awsRunning "i-1" []]) :=
    ⟨fun _ _ => ⟨_, rfl⟩, fun _ _ _ _ => rfl, fun _ _ _ _ => rfl⟩
  have hw : wellIdentified [awsInState "i-0" "stopped" ["1.2.3.4"], awsRunning "i-1" []] := by
    unfold wellIdentified
    decide
  have hs : singleReport ctl1.addressPool
      [awsInState "i-0" "stopped" ["1.2.3.4"], awsRunning "i-1" []] := by
    unfold singleReport
    decide
  have h := convergence_in_one_pass
    (happyCloud [awsInState "i-0" "stopped" ["1.2.3.4"], awsRunning "i-1" []]) storedOrder ctl1
    _ inv_ctl1 rfl hw hs (by decide) hcloud
  ⟨inv_ctl1, hcloud, by decide, h.1, h.2.1⟩

/-! ## The invariant is kept -/

theorem NewElasticIPController_inv (describeAddresses : Option (List Address))
    (elasticIPs : List String) (c : ElasticIPController)
    (h : NewElasticIPController describeAddresses elasticIPs = some c) : Inv c := by
  have hpool := ((NewElasticIPController_pool describeAddresses elasticIPs) c h)
  unfold NewElasticIPController at h
  cases describeAddresses with
  | none => cases h
  | some all =>
    simp only at h
    cases hr : resolvePool (allAddressesMap all) elasticIPs [] with
    | none =>
      rw [hr] at h
      cases h
    | some pool =>
      rw [hr] at h
      simp only [Option.some.injEq] at h
      subst h
      exact ⟨by simp [regKeys], by simp, by simp, hpool⟩

theorem runOnce_inv (cloud : Cloud) (ord : RangeOrder) (c : ElasticIPController) (hc : Inv c)
    (hexit : (runOnce cloud ord c).exit ≠ .panicked) : Inv (runOnce cloud ord c).c := by
  cases hd : cloud.describeInstances with
  | none =>
    rw [runOnce_error cloud ord c hd]
    exact hc
  | some snapshot =>
    have hp : (swept cloud ord c snapshot).panicked = false := by
      cases hx : (swept cloud ord c snapshot).panicked with
      | false => rfl
      | true => exact absurd ((runOnce_exit cloud ord c snapshot hd).2.2 hx) hexit
    have hA := assigned_inv cloud ord c hc snapshot hp
    rw [runOnce_of_returned cloud ord c snapshot hd hp]
    refine ⟨hA.keys, ?_, ?_, hc.pool⟩
    · intro j hj
      obtain ⟨j0, jj, _, hG, _, h2, _, _, _, _, _, _, hset⟩ :=
        returned_record cloud ord c hc snapshot hp j hj
      have h3 := (same_iff j0 j j.elasticIPs).1 hG.same
      have h4 := (same_iff (classify jj) j0 j0.elasticIPs).1 hset.same
      simp only
      rw [h3.2.1, h4.2.1, classify_sequence, h2]
    · intro j hj
      obtain ⟨j0, hj0, hG⟩ := AssignInv_origin hA j hj
      have h3 := (same_iff j0 j j.elasticIPs).1 hG.same
      rw [h3.2.2.2.1, h3.2.2.1]
      exact swept_poolNode cloud ord c hc snapshot hp j0 (regGet_mem hj0)

/-! ## A failed pass -/

/-- C11. When `DescribeInstances` fails, `runOnce` returns the error (the only error return of
the function, `return err` right after the call), logs no cloud call, so no `DescribeAddress`,
`AssociateAddress` or `DisassociateAddress`, and leaves the controller as it was: the registry
with every record and its held set, the sequence counter and the address pool. -/
theorem pass_failure_atomic (cloud : Cloud) (ord : RangeOrder) (c : ElasticIPController)
    (h : cloud.describeInstances = none) :
    (runOnce cloud ord c).exit = .returnedError ∧
    (runOnce cloud ord c).log = [] ∧
    (runOnce cloud ord c).c = c ∧
    (runOnce cloud ord c).c.instances = c.instances ∧
    (runOnce cloud ord c).c.sequence = c.sequence ∧
    (runOnce cloud ord c).c.addressPool = c.addressPool := by
  unfold runOnce
  rw [h]
  exact ⟨rfl, rfl, rfl, rfl, rfl, rfl⟩

/-- Witness of C11: the registry holds `i-1` with the pool address when the call fails. -/
theorem pass_failure_atomic_witness :
    downCloud.describeInstances = none ∧
    ctlBound.instances.map (fun j => (j.ID, j.sequence, j.elasticIPs))
      = [("i-1", 1, ["1.2.3.4"])] ∧
    (runOnce downCloud storedOrder ctlBound).exit = .returnedError ∧
    (runOnce downCloud storedOrder ctlBound).log = [] ∧
    (runOnce downCloud storedOrder ctlBound).c = ctlBound :=
  ⟨rfl, by decide, (pass_failure_atomic downCloud storedOrder ctlBound rfl).1,
    (pass_failure_atomic downCloud storedOrder ctlBound rfl).2.1,
    (pass_failure_atomic downCloud storedOrder ctlBound rfl).2.2.1⟩

/-! ## Maximal assignment -/

theorem associateCalls_append (l m : List Event) :
    associateCalls (l ++ m) = associateCalls l ++ associateCalls m := by
  induction l with
  | nil => rfl
  | cons e l ih =>
    cases e <;> simp [associateCalls, ih]

theorem associateCalls_eq_nil (l : List Event)
    (h : ∀ id a allocationID ok reg, Event.associateAddress id a allocationID ok reg ∉ l) :
    associateCalls l = [] := by
  induction l with
  | nil => rfl
  | cons e l ih =>
    have hl : ∀ id a allocationID ok reg,
        Event.associateAddress id a allocationID ok reg ∉ l := by
      intro id a x ok reg hc
      exact h id a x ok reg (List.mem_cons_of_mem _ hc)
    cases e with
    | describeAddress a r => simpa [associateCalls] using ih hl
    | disassociateAddress id a x ok => simpa [associateCalls] using ih hl
    | associateAddress id a x ok reg => exact absurd (List.mem_cons_self _ _) (h id a x ok reg)

theorem mem_associateCalls (l : List Event) (id a : String) :
    (id, a) ∈ associateCalls l ↔
      ∃ allocationID ok reg, Event.associateAddress id a allocationID ok reg ∈ l := by
  induction l with
  | nil => simp [associateCalls]
  | cons e l ih =>
    cases e with
    | describeAddress b r => simp [associateCalls, ih]
    | disassociateAddress i b x ok => simp [associateCalls, ih]
    | associateAddress i b x ok reg =>
      simp only [associateCalls, List.mem_cons, Prod.mk.injEq, ih, Event.associateAddress.injEq]
      constructor
      · rintro (⟨h1, h2⟩ | ⟨x2, ok2, reg2, h⟩)
        · exact ⟨x, ok, reg, Or.inl ⟨h1, h2, rfl, rfl, rfl⟩⟩
        · exact ⟨x2, ok2, reg2, Or.inr h⟩
      · rintro ⟨x2, ok2, reg2, ⟨h1, h2, _⟩ | h⟩
        · exact Or.inl ⟨h1, h2⟩
        · exact Or.inr ⟨x2, ok2, reg2, h⟩

theorem countP_regSet_candidate (reg : List Instance) (chosen i : Instance)
    (hg : regGet reg i.ID = some chosen) (hc : chosen.candidate = true)
    (hi : i.candidate = false) :
    (regSet reg i).countP Instance.candidate + 1 = reg.countP Instance.candidate := by
  induction reg with
  | nil => simp [regGet] at hg
  | cons x reg ih =>
    by_cases hx : x.ID = i.ID
    · simp only [regGet, hx, if_true, Option.some.injEq] at hg
      subst hg
      simp [regSet, hx, List.countP_cons, hc, hi]
    · simp only [regGet, hx, if_false] at hg
      have := ih hg
      simp only [regSet, hx, if_false, List.countP_cons]
      omega

theorem MaxInv_skip_held (pool : List (String × Address)) (amap : List (String × String))
    (reg0 : List Instance) (m : Nat) (e : String) (todo : List String) (s : Pass)
    (hmax : MaxInv pool amap reg0 m (e :: todo) s) (hin : e ∈ mapKeys amap)
    (hheld : heldIn s.instances e) : MaxInv pool amap reg0 m todo s := by
  refine ⟨?_, hmax.used, ?_, hmax.chosen, hmax.ids, hmax.eips, ?_⟩
  · have := hmax.count
    rw [List.filter_cons_of_neg (by simpa using hin)] at this
    exact this
  · intro call hcall
    obtain ⟨h1, h2, h3⟩ := hmax.visited call hcall
    exact ⟨fun hc => h1 (List.mem_cons_of_mem _ hc), h2, h3⟩
  · rcases hmax.final with h1 | h1
    · refine Or.inl ?_
      intro a ha hat
      by_cases hae : a = e
      · rw [hae]
        exact hheld
      · refine h1 a ha ?_
        intro hc
        rcases List.mem_cons.1 hc with h2 | h2
        · exact hae h2
        · exact hat h2
    · exact Or.inr h1

theorem MaxInv_skip_none (pool : List (String × Address)) (amap : List (String × String))
    (reg0 : List Instance) (m : Nat) (e : String) (todo : List String) (s : Pass)
    (hmax : MaxInv pool amap reg0 m (e :: todo) s)
    (hK : s.instances.countP Instance.candidate = 0) : MaxInv pool amap reg0 m todo s := by
  refine ⟨?_, hmax.used, ?_, hmax.chosen, hmax.ids, hmax.eips, Or.inr hK⟩
  · have := hmax.count
    rw [hK] at this ⊢
    simp only [Nat.min_zero] at this ⊢
    exact this
  · intro call hcall
    obtain ⟨h1, h2, h3⟩ := hmax.visited call hcall
    exact ⟨fun hc => h1 (List.mem_cons_of_mem _ hc), h2, h3⟩

theorem assignAddress_max (cloud : Cloud) (ord : RangeOrder) (pool : List (String × Address))
    (s0 : Pass) (m : Nat) (e : String) (todo : List String) (s : Pass)
    (hhold : ∀ a, a ∈ mapKeys s0.addressMap ↔ ∃ j ∈ s0.instances, a ∈ j.elasticIPs)
    (hn0 : (regKeys s0.instances).Nodup)
    (h : AssignInv cloud pool s0 (e :: todo) s)
    (hmax : MaxInv pool s0.addressMap s0.instances m (e :: todo) s)
    (he : e ∈ mapKeys pool) (het : e ∉ todo)
    (hassoc : ∀ n id a x, cloud.associateAddress n id a x = true) :
    MaxInv pool s0.addressMap s0.instances m todo (assignAddress cloud ord pool s e) := by
  obtain ⟨address, hg⟩ := Option.isSome_iff_exists.1 ((mapGet_isSome_iff pool e).2 he)
  by_cases hm : (mapGet s.addressMap e).isSome = true
  · have hin : e ∈ mapKeys s0.addressMap := by
      rw [← h.amap, ← mapGet_isSome_iff]
      exact hm
    rw [assignAddress_skip _ _ _ _ _ (Or.inr (Or.inl hm))]
    exact MaxInv_skip_held pool _ _ m e todo s hmax hin
      (heldIn_of_addressMap cloud pool s0 s _ h hhold hn0 e hin)
  · simp only [Bool.not_eq_true] at hm
    have hme : e ∉ mapKeys s0.addressMap := by
      intro hc
      rw [← h.amap, ← mapGet_isSome_iff, hm] at hc
      cases hc
    cases hpick : pick ord e s.instances with
    | none =>
      have hall := pick_none ord e s.instances h.keys hpick
      have hK : s.instances.countP Instance.candidate = 0 := by
        rw [List.countP_eq_zero]
        intro j hj
        rw [hall j hj]
        simp
      rw [assignAddress_skip _ _ _ _ _ (Or.inr (Or.inr hpick))]
      exact MaxInv_skip_none pool _ _ m e todo s hmax hK
    | some chosen =>
      obtain ⟨hcmem, hcc, _⟩ := pick_some ord e s.instances h.keys chosen hpick
      have hnil : chosen.elasticIPs = [] := by
        unfold Instance.candidate at hcc
        simp only [Bool.and_eq_true, List.isEmpty_iff] at hcc
        exact hcc.2
      have hnew : ({ chosen with elasticIPs := setInsert chosen.elasticIPs e } :
          Instance).candidate = false := by
        unfold Instance.candidate
        rw [hnil]
        simp [setInsert]
      have hK := countP_regSet_candidate s.instances chosen
        { chosen with elasticIPs := setInsert chosen.elasticIPs e }
        (regGet_of_mem h.keys hcmem) hcc hnew
      have hall := assignAddress_all cloud ord pool s0 e todo s hhold hn0 h he hassoc
        (by omega)
      rw [assignAddress_call _ _ _ _ _ address chosen hg hm hpick] at hall ⊢
      simp only [hassoc, if_true] at hall ⊢
      have hcalls : associateCalls (s.log ++ [Event.associateAddress chosen.ID e
          (StringValue address.allocationId) true s.instances])
            = associateCalls s.log ++ [(chosen.ID, e)] := by
        rw [associateCalls_append]
        rfl
      refine ⟨?_, ?_, ?_, ?_, ?_, ?_, ?_⟩
      · have := hmax.count
        rw [List.filter_cons_of_pos (by simpa using hme)] at this
        simp only [List.length_cons] at this
        simp only [hcalls, List.length_append, List.length_singleton]
        omega
      · intro call hcall j hj hid
        simp only [hcalls, List.mem_append, List.mem_singleton] at hcall
        rcases (mem_regSet_iff h.keys _ _).1 hj with h1 | ⟨h1, h2⟩
        · rw [h1]
          exact hnew
        · rcases hcall with h3 | h3
          · exact hmax.used call h3 j h1 hid
          · rw [h3] at hid
            exact absurd hid h2
      · intro call hcall
        simp only [hcalls, List.mem_append, List.mem_singleton] at hcall
        rcases hcall with h3 | h3
        · obtain ⟨h1, h2, h4⟩ := hmax.visited call h3
          exact ⟨fun hc => h1 (List.mem_cons_of_mem _ hc), h2, h4⟩
        · rw [h3]
          exact ⟨het, he, hme⟩
      · intro call hcall
        simp only [hcalls, List.mem_append, List.mem_singleton] at hcall
        rcases hcall with h3 | h3
        · exact hmax.chosen call h3
        · rw [h3]
          obtain ⟨j0, hj0, hG⟩ := AssignInv_origin h chosen hcmem
          refine ⟨j0, regGet_mem hj0, regGet_id hj0, ?_⟩
          cases hc0 : j0.candidate with
          | true => rfl
          | false =>
            have := hG.fixed hc0
            rw [this, hc0] at hcc
            cases hcc
      · simp only [hcalls, List.map_append, List.map_cons, List.map_nil]
        rw [List.nodup_append]
        refine ⟨hmax.ids, by simp, ?_⟩
        intro id h1 h2
        simp only [List.mem_singleton] at h2
        subst h2
        obtain ⟨call, hcall, hfst⟩ := List.mem_map.1 h1
        have := hmax.used call hcall chosen hcmem hfst.symm
        rw [hcc] at this
        cases this
      · simp only [hcalls, List.map_append, List.map_cons, List.map_nil]
        rw [List.nodup_append]
        refine ⟨hmax.eips, by simp, ?_⟩
        intro a h1 h2
        simp only [List.mem_singleton] at h2
        subst h2
        obtain ⟨call, hcall, hsnd⟩ := List.mem_map.1 h1
        exact (hmax.visited call hcall).1 (hsnd ▸ List.mem_cons_self _ _)
      · rcases hmax.final with h1 | h1
        · refine Or.inl ?_
          intro a ha hat
          by_cases hae : a = e
          · rw [hae]
            exact hall.1
          · refine hall.2.1 a (h1 a ha ?_)
            intro hc
            rcases List.mem_cons.1 hc with h2 | h2
            · exact hae h2
            · exact hat h2
        · omega

theorem assign_fold_max (cloud : Cloud) (ord : RangeOrder) (pool : List (String × Address))
    (s0 : Pass) (m : Nat) (todo : List String) (s : Pass)
    (hhold : ∀ a, a ∈ mapKeys s0.addressMap ↔ ∃ j ∈ s0.instances, a ∈ j.elasticIPs)
    (hn0 : (regKeys s0.instances).Nodup)
    (hassoc : ∀ n id a x, cloud.associateAddress n id a x = true)
    (hn : todo.Nodup) (hin : ∀ a ∈ todo, a ∈ mapKeys pool)
    (h : AssignInv cloud pool s0 todo s)
    (hmax : MaxInv pool s0.addressMap s0.instances m todo s) :
    MaxInv pool s0.addressMap s0.instances m []
      (todo.foldl (assignAddress cloud ord pool) s) := by
  induction todo generalizing s with
  | nil => exact hmax
  | cons e todo ih =>
    rw [List.nodup_cons] at hn
    exact ih (assignAddress cloud ord pool s e) hn.2
      (fun a ha => hin a (List.mem_cons_of_mem _ ha))
      (assignAddress_inv cloud ord pool s0 e todo s hhold hn.1 h)
      (assignAddress_max cloud ord pool s0 m e todo s hhold hn0 h hmax
        (hin e (List.mem_cons_self _ _)) hn.1 hassoc)

theorem unheld_length (cloud : Cloud) (ord : RangeOrder) (c : ElasticIPController)
    (hc : Inv c) (snapshot : List AwsInstance)
    (hp : (swept cloud ord c snapshot).panicked = false) :
    ((ord.order .pool (mapKeys c.addressPool)).filter
        (fun a => decide (a ∉ mapKeys (swept cloud ord c snapshot).addressMap))).length
      = (unheldAddresses c.addressPool (swept cloud ord c snapshot).instances).length := by
  have hhold := sweep_holders (swept_inv cloud ord c hc snapshot) hp
  rw [((ord.perm .pool (mapKeys c.addressPool)).filter _).length_eq]
  unfold unheldAddresses
  congr 1
  apply List.filter_congr
  intro a _
  rw [Bool.eq_iff_iff]
  simp only [decide_eq_true_eq, List.all_eq_true, hhold a, not_exists, not_and]

/-- C12. After a pass that ran to its end in which every `AssociateAddress` call succeeded,
whatever the iteration orders of the registry and of the pool: the number of `AssociateAddress`
calls is the minimum of the number of pool addresses that no instance held after the detach
loop and of the number of instances that were then pool nodes, could have an elastic IP and
held none; the calls go to pairwise distinct instances, each one of those free instances, and
are for pairwise distinct addresses, each one of those unheld addresses; and at the end every
pool address is held or no such free instance remains. -/
theorem maximal_assignment (cloud : Cloud) (ord : RangeOrder) (c : ElasticIPController)
    (snapshot : List AwsInstance) (hc : Inv c)
    (hd : cloud.describeInstances = some snapshot)
    (hexit : (runOnce cloud ord c).exit = .returnedNil)
    (hassoc : ∀ n id a x, cloud.associateAddress n id a x = true) :
    (associateCalls (runOnce cloud ord c).log).length =
      min (unheldAddresses c.addressPool (swept cloud ord c snapshot).instances).length
        (freeCandidates (swept cloud ord c snapshot).instances).length ∧
    ((associateCalls (runOnce cloud ord c).log).map Prod.fst).Nodup ∧
    ((associateCalls (runOnce cloud ord c).log).map Prod.snd).Nodup ∧
    (∀ call ∈ associateCalls (runOnce cloud ord c).log,
      call.2 ∈ unheldAddresses c.addressPool (swept cloud ord c snapshot).instances ∧
      ∃ j ∈ freeCandidates (swept cloud ord c snapshot).instances, j.ID = call.1) ∧
    ((∀ a ∈ mapKeys c.addressPool, heldIn (runOnce cloud ord c).c.instances a) ∨
      freeCandidates (runOnce cloud ord c).c.instances = []) := by
  have hp := (runOnce_exit cloud ord c snapshot hd).1.1 hexit
  have hsw := swept_inv cloud ord c hc snapshot
  have hhold := sweep_holders hsw hp
  have hperm := ord.perm .pool (mapKeys c.addressPool)
  have hcalls0 : associateCalls (swept cloud ord c snapshot).log = [] := by
    apply associateCalls_eq_nil
    intro id a x ok reg he
    obtain ⟨_, _, _, _, _, h5⟩ := hsw.only _ he
    exact absurd h5 (by simp [DetachEvent])
  have hinit : MaxInv c.addressPool (swept cloud ord c snapshot).addressMap
      (swept cloud ord c snapshot).instances
      (min (unheldAddresses c.addressPool (swept cloud ord c snapshot).instances).length
        (freeCandidates (swept cloud ord c snapshot).instances).length)
      (ord.order .pool (mapKeys c.addressPool)) (swept cloud ord c snapshot) := by
    refine ⟨?_, ?_, ?_, ?_, ?_, ?_, ?_⟩
    · rw [hcalls0, unheld_length cloud ord c hc snapshot hp]
      simp [freeCandidates, List.countP_eq_length_filter]
    · intro call hcall
      rw [hcalls0] at hcall
      cases hcall
    · intro call hcall
      rw [hcalls0] at hcall
      cases hcall
    · intro call hcall
      rw [hcalls0] at hcall
      cases hcall
    · rw [hcalls0]
      exact List.nodup_nil
    · rw [hcalls0]
      exact List.nodup_nil
    · refine Or.inl ?_
      intro a ha hna
      exact absurd (hperm.mem_iff.2 ha) hna
  have hfold := assign_fold_max cloud ord c.addressPool (swept cloud ord c snapshot) _ _ _
    hhold hsw.keys hassoc (hperm.nodup_iff.2 hc.pool) (fun x hx => hperm.mem_iff.1 hx)
    (AssignInv_init cloud c.addressPool _ _ hhold hsw.keys hsw.paired) hinit
  rw [runOnce_of_returned cloud ord c snapshot hd hp]
  simp only
  unfold assign
  refine ⟨?_, hfold.ids, hfold.eips, ?_, ?_⟩
  · have := hfold.count
    simp only [List.filter_nil, List.length_nil, Nat.zero_min, Nat.add_zero] at this
    exact this
  · intro call hcall
    obtain ⟨_, h2, h3⟩ := hfold.visited call hcall
    obtain ⟨j0, h4, h5, h6⟩ := hfold.chosen call hcall
    refine ⟨?_, j0, List.mem_filter.2 ⟨h4, h6⟩, h5⟩
    unfold unheldAddresses
    rw [List.mem_filter]
    refine ⟨h2, ?_⟩
    rw [List.all_eq_true]
    intro j hj
    rw [decide_eq_true_eq]
    intro hc2
    exact h3 ((hhold call.2).2 ⟨j, hj, hc2⟩)
  · rcases hfold.final with h1 | h1
    · exact Or.inl (fun a ha => h1 a ha (List.not_mem_nil _))
    · refine Or.inr ?_
      rw [List.countP_eq_length_filter] at h1
      exact List.length_eq_zero.1 h1

/-- Witness of C12: two pool addresses, one stopped holder and one free running instance, the
maps visited in reverse order; one call is made and the other address stays unassigned. -/
theorem maximal_assignment_witness :
    Inv ctl2 ∧
    associateCalls (runOnce
      (happyCloud [awsInState "i-0" "stopped" ["1.2.3.4"], awsRunning "i-1" []])
      reverseOrder ctl2).log = [("i-1", "5.6.7.8")] ∧
    (unheldAddresses ctl2.addressPool (swept
      (happyCloud [awsInState "i-0" "stopped" ["1.2.3.4"], awsRunning "i-1" []])
      reverseOrder ctl2
      [awsInState "i-0" "stopped" ["1.2.3.4"], awsRunning "i-1" []]).instances).length = 2 ∧
    (associateCalls (runOnce
      (happyCloud [awsInState "i-0" "stopped" ["1.2.3.4"], awsRunning "i-1" []])
      reverseOrder ctl2).log).length =
      min (unheldAddresses ctl2.addressPool (swept
          (happyCloud [awsInState "i-0" "stopped" ["1.2.3.4"], awsRunning "i-1" []])
          reverseOrder ctl2
          [awsInState "i-0" "stopped" ["1.2.3.4"], awsRunning "i-1" []]).instances).length
        (freeCandidates (swept
          (happyCloud [awsInState "i-0" "stopped" ["1.2.3.4"], awsRunning "i-1" []])
          reverseOrder ctl2
          [awsInState "i-0" "stopped" ["1.2.3.4"], awsRunning "i-1" []]).instances).length :=
  have hinv : Inv ctl2 := ⟨by decide, by decide, by decide, by decide⟩
  ⟨hinv, by decide, by decide,
    (maximal_assignment
      (happyCloud [awsInState "i-0" "stopped" ["1.2.3.4"], awsRunning "i-1" []])
      reverseOrder ctl2 _ hinv rfl (by decide) (fun _ _ _ _ => rfl)).1⟩

end EIP
